import Mathlib

/-!
Verification of the jira-to-github-automation provisioning pipeline.

This development shallowly embeds the request-validation and
configuration-synthesis pipeline of the repository: the payload parser
(`app/parsers.py`), the hierarchy provisioner base (`app/provisioners/base.py`),
the folder and project provisioners (`app/provisioners/hierarchy/*.py`), the
GitHub publish step (`app/github.py`, `app/app_manager.py`) and the static
field tables (`configs/jira/configurations.py`).

Conventions of the embedding:
- Python scalar values are modelled by the inductive type `Val`
  (`None`, `str`, `float` as `ℚ`, `bool`, `list`, `dict`).
- Python dictionaries keyed by strings are association lists with
  `cfgGet` (first-match lookup) and `cfgInsert` (overwrite-or-add).
- Python functions that can raise are modelled as `Except String α`; the
  error string carries the message of the raised exception.
- Python floats are modelled as rationals; the repository only ever
  compares and stores finite decimal values produced by `float()` on
  pattern-checked decimal strings.
-/

/-- A Python value as it occurs in the webhook payload and in
`config_data`: None, strings, numbers (floats as rationals), booleans,
lists and string-keyed dictionaries. -/
inductive Val where
  | vnone : Val
  | vstr : String → Val
  | vnum : ℚ → Val
  | vbool : Bool → Val
  | vlist : List Val → Val
  | vmap : List (String × Val) → Val

/-- The `config_data` dictionary: an association list from field names to
values, looked up first-match. -/
abbrev ConfigData : Type := List (String × Val)

/-- Python `d.get(k)` / `k in d`: first-match lookup. -/
def cfgGet (cfg : ConfigData) (k : String) : Option Val :=
  match cfg with
  | [] => none
  | (k', v) :: rest => if k' = k then some v else cfgGet rest k

/-- Python `d.get(k, default)`. -/
def cfgGetD (cfg : ConfigData) (k : String) (d : Val) : Val :=
  (cfgGet cfg k).getD d

/-- Python `d[k] = v`: overwrite an existing binding or add a new one. -/
def cfgInsert (cfg : ConfigData) (k : String) (v : Val) : ConfigData :=
  (k, v) :: List.filter (fun p => p.1 ≠ k) cfg

/-- Python truthiness of a `Val` (`bool(v)`). -/
def Val.truthy : Val → Bool
  | .vnone => false
  | .vstr s => s ≠ ""
  | .vnum q => q ≠ 0
  | .vbool b => b
  | .vlist l => !l.isEmpty
  | .vmap l => !l.isEmpty

/-- Python `v == s` for a string literal `s`: true only when `v` is that
very string (comparisons across types are `False`, never an error). -/
def Val.eqStr : Val → String → Bool
  | .vstr t, s => t = s
  | _, _ => false

/-! ## Resource Hierarchy Index (`app/provisioners/base.py`)

An asset returned by the Cloud Asset Inventory bulk listing.  The fields
mirror the attributes read by the provisioners: `asset_type`, `name` (the
full resource name), the `resource.data` entries `displayName`, `name`,
`projectId` and `parent` (each `Option`al, as `data.get` returns `None`
for a missing entry), and the `ancestors` list. -/
structure Asset where
  asset_type : String
  name : String
  displayName : Option String
  dataName : Option String
  projectId : Option String
  parent : Option String
  ancestors : List String

/-- The folder asset type string used throughout the provisioners. -/
def FolderType : String := "cloudresourcemanager.googleapis.com/Folder"

/-- The project asset type string used throughout the provisioners. -/
def ProjectType : String := "cloudresourcemanager.googleapis.com/Project"

/-- `HierarchyrProvisioner.check_if_resource_exist`: scan the fetched
assets; a folder matches on `displayName`, a project matches on
`resource.data["name"] == "projects/<name>"` or on `projectId`; return the
full resource name of the first match, else `None`. -/
def check_if_resource_exist (assets : List Asset) (resource_name : String)
    (resource_type : String) : Option String :=
  assets.findSome? fun asset =>
    if asset.asset_type = resource_type then
      if resource_type = FolderType ∧ asset.displayName = some resource_name then
        some asset.name
      else if resource_type = ProjectType ∧
          (asset.dataName = some ("projects/" ++ resource_name) ∨
           asset.projectId = some resource_name) then
        some asset.name
      else none
    else none

/-- `HierarchyrProvisioner._list_projects_and_folders`: the bulk listing
call either returns the asset list or raises; on any exception the method
logs and returns the empty list, so construction never aborts. -/
def list_projects_and_folders (listing : Except String (List Asset)) : List Asset :=
  match listing with
  | .ok assets => assets
  | .error _ => []

/-! ## `extract_dw_environment` and `_extract_folder_id` -/

/-- A lowercase ASCII letter, the character class `[a-z]` of the Python
regular expressions. -/
def isLowerAscii (c : Char) : Bool :=
  'a' ≤ c ∧ c ≤ 'z'

/-- `HierarchyrProvisioner.extract_dw_environment`: Python
`re.match(r"^dw-([a-z]+)-", text)`.  The regex matches exactly when the
text starts with `dw-`, then one or more lowercase letters (the maximal
run, since a shorter run would be followed by a letter, not `-`), then a
hyphen; the captured group is that run. -/
def extract_dw_environment (text : String) : Option String :=
  match text.data with
  | 'd' :: 'w' :: '-' :: rest =>
    let env := rest.takeWhile isLowerAscii
    if env ≠ [] ∧ (rest.dropWhile isLowerAscii).head? = some '-' then
      some (String.mk env)
    else none
  | _ => none

/-- The maximal run of ASCII digits at the end of a string. -/
def trailingDigits (s : String) : String :=
  String.mk (s.data.reverse.takeWhile Char.isDigit).reverse

/-- `s.endswith(suffix)` on the character lists of the strings. -/
def strEndsWith (s suffix : String) : Bool :=
  List.isPrefixOf suffix.data.reverse s.data.reverse

/-- `HierarchyrProvisioner._extract_folder_id`: Python
`re.search(r"folders/(\d+)$", s)` on a possibly-`None` input; a falsy
(empty or `None`) input yields `None`.  The regex matches exactly when the
string ends in `folders/` followed by one or more digits (`folders/` ends
in `/`, so the captured group is the maximal trailing digit run); the
method rebuilds `folders/<digits>` from the captured group. -/
def extract_folder_id (m : Option String) : Option String :=
  match m with
  | none => none
  | some s =>
    let d := trailingDigits s
    if d ≠ "" ∧ strEndsWith s ("folders/" ++ d) then some ("folders/" ++ d)
    else none

/-! ## Static configuration (`configs/jira/configurations.py`) -/

/-- `env_mapping`: environment tag to environment subfolder display name. -/
def env_mapping (e : String) : Option String :=
  if e = "dev" then some "Development"
  else if e = "test" then some "Test"
  else if e = "prod" then some "Production"
  else none

/-- `data_security_mapping`: data-security level to policy tag value.
Note the table has no entry for `l2`. -/
def data_security_mapping (s : String) : Option String :=
  if s = "l0" then some "tagValues/281478635840395"
  else if s = "l1" then some "tagValues/281481147692528"
  else if s = "l3" then some "tagValues/281476741727885"
  else none

/-! ## Label formatting (`BaseProvisioner.format_for_label_system`) -/

/-- The character class `\s` of the Python regular expressions (ASCII). -/
def pyIsSpace (c : Char) : Bool :=
  c = ' ' ∨ c = '\t' ∨ c = '\n' ∨ c = '\r' ∨ c = '\x0b' ∨ c = '\x0c'

/-- Python `s.upper()` on the ASCII identifiers used by the pipeline. -/
def pyUpper (s : String) : String :=
  String.mk (s.data.map Char.toUpper)

/-- Python `s.lower()` on the ASCII values used by the pipeline. -/
def pyLower (s : String) : String :=
  String.mk (s.data.map Char.toLower)

/-- A proved bound used for termination of `collapseWs`. -/
theorem length_dropWhile_le (p : Char → Bool) (l : List Char) :
    (l.dropWhile p).length ≤ l.length := by
  induction l with
  | nil => simp [List.dropWhile]
  | cons c rest ih =>
    simp only [List.dropWhile]
    split
    · exact le_trans ih (by simp)
    · simp

/-- The state machine behind `collapseWs`: the flag records whether the
previous character was whitespace (so the run already emitted its
underscore). -/
def collapseWsAux : Bool → List Char → List Char
  | _, [] => []
  | inRun, c :: rest =>
    if pyIsSpace c then
      if inRun then collapseWsAux true rest
      else '_' :: collapseWsAux true rest
    else c :: collapseWsAux false rest

/-- Python `re.sub(r"\s+", "_", s)`: replace every maximal run of
whitespace with a single underscore. -/
def collapseWs (l : List Char) : List Char :=
  collapseWsAux false l

/-- `BaseProvisioner.format_for_label_system`: non-strings give `""`;
strings are lowercased and whitespace runs become underscores. -/
def format_for_label_system (v : Val) : String :=
  match v with
  | .vstr name => String.mk (collapseWs (pyLower name).data)
  | _ => ""

/-- The `elements_to_format` attribute of `GcpProjectProvisioner`. -/
def elements_to_format : List String :=
  ["ENGAGEMENT_MANAGER", "PROJECT_NAME", "FOLDER_NAME", "WBS", "DATASECURITY"]

/-- `HierarchyrProvisioner._format_label_elements`: apply the label
formatting to each present element of `elements_to_format`. -/
def format_label_elements (cfg : ConfigData) : ConfigData :=
  elements_to_format.foldl
    (fun c el =>
      match cfgGet c el with
      | some v => cfgInsert c el (.vstr (format_for_label_system v))
      | none => c)
    cfg

/-! ## Budget-key completeness (`GcpProjectProvisioner.check_budget_keys`) -/

/-- The per-environment loop of `check_budget_keys`: raise on the first
environment whose `BUDGET_<ENV>` key is absent from `config_data`.  The
environments are the elements of the `ENVIRONMENT` list; `env.upper()`
requires each to be a string. -/
def budget_keys_loop (data : ConfigData) : List Val → Except String Bool
  | [] => .ok true
  | .vstr env :: rest =>
    if (cfgGet data ("BUDGET_" ++ pyUpper env)).isSome then budget_keys_loop data rest
    else .error ("The " ++ env ++ " environment has no associated budget key (BUDGET_" ++
      pyUpper env ++ "). Please ensure this information is included in the Jira request.")
  | _ :: _ => .error "AttributeError: upper"

/-- `GcpProjectProvisioner.check_budget_keys`: empty `config_data` or a
missing/falsy `ENVIRONMENT` raise; otherwise every listed environment must
have its `BUDGET_<ENV>` key.  The checklist parser always stores
`ENVIRONMENT` as a list, so a truthy non-list value is modelled as the
error Python would raise while iterating it. -/
def check_budget_keys (data : ConfigData) : Except String Bool :=
  if data.isEmpty then .error "The config_data structure is empty."
  else
    match cfgGet data "ENVIRONMENT" with
    | none => .error "The ENVIRONMENT field in config_data is empty or missing."
    | some v =>
      if !v.truthy then .error "The ENVIRONMENT field in config_data is empty or missing."
      else
        match v with
        | .vlist envs => budget_keys_loop data envs
        | _ => .error "TypeError: ENVIRONMENT is not a list"

/-! ## Project validation (`GcpProjectProvisioner`) -/

/-- `GcpProjectProvisioner.get_project_subfolder_id`: resolve the parent
folder, extract its `folders/<id>`, then scan the assets for a folder
whose display name is the subfolder name and whose ancestors contain the
parent id (or whose direct `parent` equals it). -/
def get_project_subfolder_id (assets : List Asset)
    (parent_folder_name subfolder_name : String) : Except String (Option String) :=
  match check_if_resource_exist assets parent_folder_name FolderType with
  | none => .error ("Parent folder " ++ parent_folder_name ++
      " not found. Cannot search for subfolder " ++ subfolder_name ++ ".")
  | some parent_match =>
    match extract_folder_id (some parent_match) with
    | none => .error ("Could not extract ID for parent folder " ++ parent_folder_name ++
        ". Cannot search for subfolder " ++ subfolder_name ++ ".")
    | some parent_folder_id =>
      .ok (assets.findSome? fun asset =>
        if asset.asset_type = FolderType ∧ asset.displayName = some subfolder_name then
          if !asset.ancestors.isEmpty ∧ parent_folder_id ∈ asset.ancestors then
            some asset.name
          else if asset.parent = some parent_folder_id then some asset.name
          else none
        else none)

/-- Wrap an `Option String` the way `config_data[k] = value` stores a
possibly-`None` Python value. -/
def optStrToVal : Option String → Val
  | none => .vnone
  | some s => .vstr s

/-- `GcpProjectProvisioner._validate_folder_existence`: the parent folder
named by `FOLDER_NAME` must exist in the hierarchy. -/
def validate_folder_existence (assets : List Asset) (folder_name : String) :
    Except String Unit :=
  if (check_if_resource_exist assets folder_name FolderType).isSome then .ok ()
  else .error ("Parent folder " ++ folder_name ++ " not found in the resource hierarchy.")

/-- One iteration of the environment loop of
`validate_folder_and_projects_name`: check uniqueness of
`dw-<env>-<project>` (appending it to the running name list), then resolve
and store the environment subfolder id under `FOLDER_<ENV>`. -/
def validate_env_step (assets : List Asset) (folder_name project_name : String)
    (st : ConfigData × List String) (env : String) :
    Except String (ConfigData × List String) :=
  let dw_env_project_name := "dw-" ++ env ++ "-" ++ project_name
  if (check_if_resource_exist assets dw_env_project_name ProjectType).isSome then
    .error ("Project " ++ dw_env_project_name ++ " exists already in the resource hierarchy.")
  else
    let names := st.2 ++ [dw_env_project_name]
    match env_mapping env with
    | none => .error ("No folder mapping found for environment " ++ env ++ ".")
    | some subfolder_to_find =>
      match get_project_subfolder_id assets folder_name subfolder_to_find with
      | .error e => .error e
      | .ok none => .error ("Subfolder " ++ subfolder_to_find ++ " not found under " ++
          folder_name ++ ".")
      | .ok (some env_folder_id) =>
        .ok (cfgInsert st.1 ("FOLDER_" ++ pyUpper env)
              (optStrToVal (extract_folder_id (some env_folder_id))), names)

/-- The environment loop of `validate_folder_and_projects_name`. -/
def validate_env_loop (assets : List Asset) (folder_name project_name : String)
    (st : ConfigData × List String) : List String → Except String (ConfigData × List String)
  | [] => .ok st
  | env :: rest =>
    match validate_env_step assets folder_name project_name st env with
    | .error e => .error e
    | .ok st1 => validate_env_loop assets folder_name project_name st1 rest

/-- Read a string-valued `config_data` entry (`config_data[k]` whose value
the parser stored as a string; absence raises a `KeyError`). -/
def getStr (cfg : ConfigData) (k : String) : Option String :=
  match cfgGet cfg k with
  | some (.vstr s) => some s
  | _ => none

/-- Unwrap the `ENVIRONMENT` checklist value into its list of strings (the
checklist parser stores a list of the selected string values). -/
def getStrList (cfg : ConfigData) (k : String) : Option (List String) :=
  match cfgGet cfg k with
  | some (.vlist l) => l.mapM (fun v => match v with | .vstr s => some s | _ => none)
  | _ => none

/-- `GcpProjectProvisioner.validate_folder_and_projects_name`: read
`FOLDER_NAME`, check the parent folder exists, read `PROJECT_NAME` and the
`ENVIRONMENT` list, then run the per-environment loop; any failure is
re-raised as a `GcpProvisioningError` with a fixed prefix. -/
def validate_folder_and_projects_name (assets : List Asset) (cfg : ConfigData) :
    Except String (ConfigData × List String) :=
  let core : Except String (ConfigData × List String) :=
    match getStr cfg "FOLDER_NAME" with
    | none => .error "KeyError: FOLDER_NAME"
    | some folder_name =>
      match validate_folder_existence assets folder_name with
      | .error e => .error e
      | .ok () =>
        match getStr cfg "PROJECT_NAME" with
        | none => .error "KeyError: PROJECT_NAME"
        | some project_name =>
          match getStrList cfg "ENVIRONMENT" with
          | none => .error "KeyError: ENVIRONMENT"
          | some envs => validate_env_loop assets folder_name project_name (cfg, []) envs
  match core with
  | .ok st => .ok st
  | .error e => .error ("Validation error during folder/project name check: " ++ e)

/-- `GcpProjectProvisioner._validate_jira_request`: format the label
elements, validate folder and project names, then check budget-key
completeness; any failure is wrapped into the final
`GcpProvisioningError`. -/
def project_validate_jira_request (assets : List Asset) (cfg : ConfigData) :
    Except String (ConfigData × List String) :=
  let core : Except String (ConfigData × List String) :=
    let cfg1 := format_label_elements cfg
    match validate_folder_and_projects_name assets cfg1 with
    | .error e => .error e
    | .ok (cfg2, names) =>
      match check_budget_keys cfg2 with
      | .error e => .error e
      | .ok _ => .ok (cfg2, names)
  match core with
  | .ok st => .ok st
  | .error e => .error ("Project provisioning validation error: " ++ e)

/-! ## Auto-approval (`GcpProjectProvisioner`) -/

/-- The module-level `BUDGET_LIMIT` (its environment-variable default,
`150`). -/
def BUDGET_LIMIT : ℚ := 150

/-- `GcpProjectProvisioner.allow_autoapprove_on_dev_budget_limit`:
auto-approve exactly for data security `l0` with a non-`None` dev budget
strictly below the limit.  A Python `bool` budget also compares (both
`False = 0` and `True = 1` are below `150`); comparing a string or
container with the integer limit raises a `TypeError`. -/
def allow_autoapprove_on_dev_budget_limit (data_security budget_dev : Val) :
    Except String Bool :=
  if data_security.eqStr "l0" then
    match budget_dev with
    | .vnone => .ok false
    | .vnum b => .ok (decide (b < BUDGET_LIMIT))
    | .vbool _ => .ok true
    | _ => .error "TypeError: unorderable types"
  else .ok false

/-- The auto-approve assignment of `_built_terraform_yamls` for one
generated project name: the flag is the conjunction of the unit's
extracted environment being exactly `dev` and the auto-approve policy on
`config_data["DATASECURITY"]` and `config_data.get("BUDGET_DEV", 0.0)`
(the `and` short-circuits, so the accesses happen only on `dev` units). -/
def built_unit_autoapprove (cfg : ConfigData) (dw_name : String) : Except String Bool :=
  if extract_dw_environment dw_name = some "dev" then
    match cfgGet cfg "DATASECURITY" with
    | none => .error "KeyError: DATASECURITY"
    | some ds => allow_autoapprove_on_dev_budget_limit ds (cfgGetD cfg "BUDGET_DEV" (.vnum 0))
  else .ok false

/-- The per-target metadata of one publish unit assembled by
`_built_terraform_yamls` (`github_payload[dw_env_project_name]`); the
commit paths, titles and encoded documents are carried separately by the
synthesis functions. -/
structure UnitMeta where
  dw_name : String
  env : Option String
  autoapprove : Bool

/-- `GcpProjectProvisioner._built_terraform_yamls`, restricted to the
publish-unit metadata: the branch name needs `config_data["ISSUE_KEY"]`
and the tag needs `data_security_mapping[config_data["DATASECURITY"]]`
(either access raises a `KeyError` before any unit is produced), then one
unit per validated project name, with its extracted environment and
auto-approve flag. -/
def built_terraform_units (cfg : ConfigData) (names : List String) :
    Except String (List UnitMeta) :=
  match cfgGet cfg "ISSUE_KEY" with
  | none => .error "KeyError: ISSUE_KEY"
  | some _ =>
    match cfgGet cfg "DATASECURITY" with
    | none => .error "KeyError: DATASECURITY"
    | some ds =>
      match (match ds with | .vstr s => data_security_mapping s | _ => none) with
      | none => .error "KeyError: data_security_mapping"
      | some _ =>
        names.mapM fun dw_name =>
          (built_unit_autoapprove cfg dw_name).map fun b =>
            { dw_name := dw_name, env := extract_dw_environment dw_name, autoapprove := b }

/-! ## Basic lemmas about the embedding -/

theorem cfgGet_insert_self (cfg : ConfigData) (k : String) (v : Val) :
    cfgGet (cfgInsert cfg k v) k = some v := by
  simp [cfgGet, cfgInsert]

theorem cfgGet_filter_ne {cfg : ConfigData} {k k' : String} (h : k ≠ k') :
    cfgGet (List.filter (fun p => p.1 ≠ k') cfg) k = cfgGet cfg k := by
  induction cfg with
  | nil => rfl
  | cons p rest ih =>
    obtain ⟨pk, pv⟩ := p
    rw [List.filter_cons]
    by_cases hp : pk = k'
    · rw [if_neg (by simp [hp])]
      rw [ih, cfgGet]
      rw [if_neg (by rw [hp]; exact Ne.symm h)]
    · rw [if_pos (by simp [hp])]
      by_cases hk : pk = k
      · simp [cfgGet, hk]
      · rw [cfgGet, if_neg hk, cfgGet, if_neg hk]
        exact ih

theorem cfgGet_insert_ne (cfg : ConfigData) {k k' : String} (v : Val) (h : k ≠ k') :
    cfgGet (cfgInsert cfg k' v) k = cfgGet cfg k := by
  rw [cfgInsert, cfgGet, if_neg (Ne.symm h)]
  exact cfgGet_filter_ne h

theorem folder_key_ne_of_head {x s : String} (h : s.data.head? ≠ some 'F') :
    "FOLDER_" ++ x ≠ s := by
  intro heq
  apply h
  rw [← heq, String.data_append]
  rfl

theorem takeWhile_append_all {p : Char → Bool} {l₁ : List Char} (l₂ : List Char)
    (h : ∀ c ∈ l₁, p c) : (l₁ ++ l₂).takeWhile p = l₁ ++ l₂.takeWhile p := by
  induction l₁ with
  | nil => simp
  | cons c rest ih =>
    have hc : p c := h c (by simp)
    simp only [List.cons_append, List.takeWhile_cons, hc, if_pos]
    simp only [List.cons.injEq, true_and]
    exact ih fun d hd => h d (by simp [hd])

theorem dropWhile_append_all {p : Char → Bool} {l₁ : List Char} (l₂ : List Char)
    (h : ∀ c ∈ l₁, p c) : (l₁ ++ l₂).dropWhile p = l₂.dropWhile p := by
  induction l₁ with
  | nil => simp
  | cons c rest ih =>
    have hc : p c := h c (by simp)
    simp only [List.cons_append, List.dropWhile_cons, hc, if_pos]
    exact ih fun d hd => h d (by simp [hd])

/-- Constructed names round-trip: extracting the environment from
`dw-<env>-<name>` gives back any non-empty all-lowercase `env`. -/
theorem extract_dw_environment_mk (env pname : String) (hne : env.data ≠ [])
    (hlow : ∀ c ∈ env.data, isLowerAscii c) :
    extract_dw_environment ("dw-" ++ env ++ "-" ++ pname) = some env := by
  have hdata : ("dw-" ++ env ++ "-" ++ pname).data =
      'd' :: 'w' :: '-' :: (env.data ++ '-' :: pname.data) := by
    simp [String.data_append]
  rw [extract_dw_environment, hdata]
  have htake : (env.data ++ '-' :: pname.data).takeWhile isLowerAscii = env.data := by
    rw [takeWhile_append_all _ hlow]
    simp [List.takeWhile_cons, isLowerAscii]
  have hdrop : (env.data ++ '-' :: pname.data).dropWhile isLowerAscii = '-' :: pname.data := by
    rw [dropWhile_append_all _ hlow]
    simp [List.dropWhile_cons, isLowerAscii]
  simp only [htake, hdrop, List.head?_cons]
  rw [if_pos ⟨hne, trivial⟩]

/-- Inversion: a successful environment extraction exhibits the string as
`dw-<env>-<rest>` with `env` a non-empty all-lowercase run. -/
theorem extract_dw_environment_some {s env : String}
    (h : extract_dw_environment s = some env) :
    env.data ≠ [] ∧ (∀ c ∈ env.data, isLowerAscii c) ∧
    ∃ pname : String, s = "dw-" ++ env ++ "-" ++ pname := by
  unfold extract_dw_environment at h
  split at h
  case h_2 => exact absurd h (by simp)
  case h_1 rest heq =>
    dsimp only at h
    split at h
    case isFalse => exact absurd h (by simp)
    case isTrue hc =>
      obtain ⟨hne, hhead⟩ := hc
      have henv : env = String.mk (rest.takeWhile isLowerAscii) := by
        cases h
        rfl
      have hdropne : rest.dropWhile isLowerAscii ≠ [] := by
        intro hnil
        rw [hnil] at hhead
        simp at hhead
      obtain ⟨c0, tail, hdrop⟩ : ∃ c0 tail, rest.dropWhile isLowerAscii = c0 :: tail := by
        cases hd : rest.dropWhile isLowerAscii with
        | nil => exact absurd hd hdropne
        | cons a t => exact ⟨a, t, rfl⟩
      have hc0 : c0 = '-' := by
        rw [hdrop] at hhead
        simpa using hhead
      refine ⟨by simpa [henv] using hne, ?_, ?_⟩
      · intro c hcmem
        rw [henv] at hcmem
        exact List.mem_takeWhile_imp hcmem
      · refine ⟨String.mk tail, ?_⟩
        apply String.ext
        rw [String.data_append, String.data_append, String.data_append]
        have hrest : rest = env.data ++ '-' :: tail := by
          conv_lhs => rw [← List.takeWhile_append_dropWhile isLowerAscii rest]
          rw [hdrop, hc0, henv]
        rw [heq, hrest]
        simp [List.append_assoc]

/-- Claim C10: for every non-empty all-lowercase environment tag and every
project-name suffix, extracting the environment from the constructed name
`dw-<env>-<name>` returns exactly that tag; and every string that is not
of the form `dw-<lowercase-run>-<rest>` extracts to `None`, so the
construct/extract round-trip holds exactly for non-empty all-lowercase
alphabetic tags. -/
theorem c10_extract_construct_roundtrip :
    (∀ env pname : String, env.data ≠ [] → (∀ c ∈ env.data, isLowerAscii c) →
      extract_dw_environment ("dw-" ++ env ++ "-" ++ pname) = some env) ∧
    (∀ s : String,
      (∀ env pname : String, env.data ≠ [] → (∀ c ∈ env.data, isLowerAscii c) →
        s ≠ "dw-" ++ env ++ "-" ++ pname) →
      extract_dw_environment s = none) := by
  constructor
  · exact extract_dw_environment_mk
  · intro s hnot
    cases hx : extract_dw_environment s with
    | none => rfl
    | some env =>
      obtain ⟨hne, hlow, pname, hs⟩ := extract_dw_environment_some hx
      exact absurd hs (hnot env pname hne hlow)

/-- Witness for C10 at concrete inputs: the tag `dev` with name `myapp`
round-trips, and the non-conforming string `dwx-dev-a` extracts to
`None`. -/
theorem c10_extract_construct_roundtrip_witness :
    extract_dw_environment ("dw-" ++ "dev" ++ "-" ++ "myapp") = some "dev" ∧
    extract_dw_environment "teamA-dev-x" = none := by
  constructor
  · exact c10_extract_construct_roundtrip.1 "dev" "myapp" (by decide) (by decide)
  · apply c10_extract_construct_roundtrip.2
    intro env pname hne hlow heq
    have := congrArg String.data heq
    rw [String.data_append, String.data_append, String.data_append] at this
    simp at this

/-- Claim C8: when the bulk listing of folders and projects fails, the
hierarchy index is the empty list (construction does not abort), and every
existence check, for any resource name and either resource type, returns
not-found. -/
theorem c8_listing_failure_empty_index (e name ty : String) :
    list_projects_and_folders (.error e) = [] ∧
    check_if_resource_exist (list_projects_and_folders (.error e)) name ty = none :=
  ⟨rfl, rfl⟩

/-! ## Inversion lemmas for the project validation pipeline -/

theorem env_mapping_isSome {e : String} (h : (env_mapping e).isSome) :
    e = "dev" ∨ e = "test" ∨ e = "prod" := by
  by_cases h1 : e = "dev"
  · exact Or.inl h1
  · by_cases h2 : e = "test"
    · exact Or.inr (Or.inl h2)
    · by_cases h3 : e = "prod"
      · exact Or.inr (Or.inr h3)
      · rw [env_mapping, if_neg h1, if_neg h2, if_neg h3] at h
        simp at h

theorem validate_env_step_ok {assets : List Asset} {fn pn env : String}
    {st st1 : ConfigData × List String}
    (h : validate_env_step assets fn pn st env = .ok st1) :
    (env_mapping env).isSome ∧
    ∃ v : Val,
      st1 = (cfgInsert st.1 ("FOLDER_" ++ pyUpper env) v,
             st.2 ++ ["dw-" ++ env ++ "-" ++ pn]) := by
  rw [validate_env_step] at h
  split at h
  · exact absurd h (by simp)
  · dsimp only at h
    split at h
    · exact absurd h (by simp)
    case h_2 sub hmap =>
      split at h
      · exact absurd h (by simp)
      · exact absurd h (by simp)
      case h_3 fid hsub =>
        cases h
        exact ⟨by simp [hmap], _, rfl⟩

theorem validate_env_loop_ok {assets : List Asset} {fn pn : String} :
    ∀ {envs : List String} {c : ConfigData} {acc : List String}
      {cfg : ConfigData} {names : List String},
    validate_env_loop assets fn pn (c, acc) envs = .ok (cfg, names) →
    names = acc ++ envs.map (fun e => "dw-" ++ e ++ "-" ++ pn) ∧
    (∀ e ∈ envs, (env_mapping e).isSome) ∧
    (∀ k : String, (∀ e ∈ envs, k ≠ "FOLDER_" ++ pyUpper e) →
      cfgGet cfg k = cfgGet c k) := by
  intro envs
  induction envs with
  | nil =>
    intro c acc cfg names h
    rw [validate_env_loop] at h
    cases h
    exact ⟨by simp, by simp, fun k _ => rfl⟩
  | cons env rest ih =>
    intro c acc cfg names h
    rw [validate_env_loop] at h
    split at h
    · exact absurd h (by simp)
    case h_2 st1 hstep =>
      obtain ⟨hmap, v, hst1⟩ := validate_env_step_ok hstep
      subst hst1
      obtain ⟨hnames, hmaps, hpres⟩ := ih h
      refine ⟨by simpa using hnames, ?_, ?_⟩
      · intro e he
        rcases List.mem_cons.mp he with rfl | hmem
        · exact hmap
        · exact hmaps e hmem
      · intro k hk
        have h1 : cfgGet cfg k = cfgGet (cfgInsert c ("FOLDER_" ++ pyUpper env) v) k :=
          hpres k fun e he => hk e (List.mem_cons_of_mem _ he)
        rw [h1, cfgGet_insert_ne _ _ (hk env (List.mem_cons_self _ _))]

theorem validate_folder_and_projects_name_ok {assets : List Asset}
    {cfg cfg2 : ConfigData} {names : List String}
    (h : validate_folder_and_projects_name assets cfg = .ok (cfg2, names)) :
    ∃ (pn : String) (envs : List String),
      getStr cfg "PROJECT_NAME" = some pn ∧
      getStrList cfg "ENVIRONMENT" = some envs ∧
      names = envs.map (fun e => "dw-" ++ e ++ "-" ++ pn) ∧
      (∀ e ∈ envs, (env_mapping e).isSome) ∧
      (∀ k : String, (∀ e ∈ envs, k ≠ "FOLDER_" ++ pyUpper e) →
        cfgGet cfg2 k = cfgGet cfg k) := by
  rw [validate_folder_and_projects_name] at h
  split at h
  case h_2 => exact absurd h (by simp)
  case h_1 st hcore =>
    cases h
    split at hcore
    · exact absurd hcore (by simp)
    case h_2 fn hfn =>
      split at hcore
      · exact absurd hcore (by simp)
      · split at hcore
        · exact absurd hcore (by simp)
        case h_2 pn hpn =>
          split at hcore
          · exact absurd hcore (by simp)
          case h_2 envs henvs =>
            obtain ⟨hnames, hmaps, hpres⟩ := validate_env_loop_ok hcore
            exact ⟨pn, envs, hpn, henvs, by simpa using hnames, hmaps, hpres⟩

theorem budget_keys_loop_ok {data : ConfigData} {b : Bool} {l : List Val}
    (h : budget_keys_loop data l = .ok b) :
    ∀ v ∈ l, ∃ s, v = Val.vstr s ∧ (cfgGet data ("BUDGET_" ++ pyUpper s)).isSome := by
  induction l with
  | nil => intro v hv; simp at hv
  | cons w rest ih =>
    intro v hv
    cases w with
    | vstr s =>
      rw [budget_keys_loop] at h
      split at h
      case isTrue hs =>
        rcases List.mem_cons.mp hv with rfl | hmem
        · exact ⟨s, rfl, hs⟩
        · exact ih h v hmem
      case isFalse => exact absurd h (by simp)
    | vnone => simp [budget_keys_loop] at h
    | vnum q => simp [budget_keys_loop] at h
    | vbool bb => simp [budget_keys_loop] at h
    | vlist ll => simp [budget_keys_loop] at h
    | vmap mm => simp [budget_keys_loop] at h

theorem check_budget_keys_ok {data : ConfigData} {b : Bool}
    (h : check_budget_keys data = .ok b) :
    ∃ envVals : List Val, cfgGet data "ENVIRONMENT" = some (Val.vlist envVals) ∧
      ∀ v ∈ envVals, ∃ s, v = Val.vstr s ∧
        (cfgGet data ("BUDGET_" ++ pyUpper s)).isSome := by
  rw [check_budget_keys] at h
  split at h
  · exact absurd h (by simp)
  · split at h
    case h_1 => exact absurd h (by simp)
    case h_2 v hv =>
      split at h
      · exact absurd h (by simp)
      · cases v with
        | vlist envVals => exact ⟨envVals, hv, budget_keys_loop_ok h⟩
        | vnone => exact absurd h (by simp)
        | vstr s => exact absurd h (by simp)
        | vnum q => exact absurd h (by simp)
        | vbool b2 => exact absurd h (by simp)
        | vmap m => exact absurd h (by simp)

theorem mapM_vstr_mem :
    ∀ {l : List Val} {envs : List String},
    l.mapM (fun v => match v with | Val.vstr s => some s | _ => none) = some envs →
    ∀ e ∈ envs, Val.vstr e ∈ l := by
  intro l
  induction l with
  | nil =>
    intro envs h e he
    simp only [List.mapM_nil, pure, Option.some.injEq] at h
    subst h
    simp at he
  | cons v rest ih =>
    intro envs h e he
    rw [List.mapM_cons] at h
    cases v with
    | vstr s =>
      simp only [Option.bind_eq_bind] at h
      cases hrest : rest.mapM (fun v => match v with | Val.vstr s => some s | _ => none) with
      | none => rw [hrest] at h; simp at h
      | some envs' =>
        rw [hrest] at h
        simp only [Option.some_bind, pure, Option.some.injEq] at h
        subst h
        rcases List.mem_cons.mp he with rfl | hmem
        · exact List.mem_cons_self _ _
        · exact List.mem_cons_of_mem _ (ih hrest e hmem)
    | vnone => simp at h
    | vnum q => simp at h
    | vbool bb => simp at h
    | vlist ll => simp at h
    | vmap mm => simp at h

theorem project_validate_jira_request_ok {assets : List Asset}
    {cfg0 cfg : ConfigData} {names : List String}
    (h : project_validate_jira_request assets cfg0 = .ok (cfg, names)) :
    ∃ (pn : String) (envs : List String),
      names = envs.map (fun e => "dw-" ++ e ++ "-" ++ pn) ∧
      (∀ e ∈ envs, (env_mapping e).isSome) ∧
      (∀ e ∈ envs, (cfgGet cfg ("BUDGET_" ++ pyUpper e)).isSome) := by
  rw [project_validate_jira_request] at h
  dsimp only at h
  split at h
  case h_2 => exact absurd h (by simp)
  case h_1 st hcore =>
    cases h
    split at hcore
    · exact absurd hcore (by simp)
    case h_2 cfg2 names2 hval =>
      split at hcore
      · exact absurd hcore (by simp)
      case h_2 bb hbk =>
        cases hcore
        obtain ⟨pn, envs, hpn, henvs, hnames, hmaps, hpres⟩ :=
          validate_folder_and_projects_name_ok hval
        obtain ⟨envVals, henvVals, hbud⟩ := check_budget_keys_ok hbk
        refine ⟨pn, envs, hnames, hmaps, ?_⟩
        intro e he
        have hEnvNe : ∀ e2 ∈ envs, "ENVIRONMENT" ≠ "FOLDER_" ++ pyUpper e2 := by
          intro e2 _ heq
          exact folder_key_ne_of_head (s := "ENVIRONMENT") (by simp) heq.symm
        have hsame : cfgGet cfg "ENVIRONMENT" = cfgGet (format_label_elements cfg0) "ENVIRONMENT" :=
          hpres "ENVIRONMENT" hEnvNe
        rw [hsame] at henvVals
        rw [getStrList, henvVals] at henvs
        have hmem : Val.vstr e ∈ envVals := mapM_vstr_mem henvs e he
        obtain ⟨s, hse, hkey⟩ := hbud _ hmem
        cases hse
        exact hkey

theorem built_units_mapM_ok {cfg : ConfigData} :
    ∀ {names : List String} {units : List UnitMeta},
    (names.mapM fun dw =>
      (built_unit_autoapprove cfg dw).map fun b =>
        ({ dw_name := dw, env := extract_dw_environment dw, autoapprove := b } : UnitMeta)) =
      .ok units →
    ∀ u ∈ units, u.dw_name ∈ names ∧ u.env = extract_dw_environment u.dw_name ∧
      built_unit_autoapprove cfg u.dw_name = .ok u.autoapprove := by
  intro names
  induction names with
  | nil =>
    intro units h u hu
    rw [List.mapM_nil] at h
    cases h
    simp at hu
  | cons dw rest ih =>
    intro units h u hu
    rw [List.mapM_cons] at h
    cases hb : built_unit_autoapprove cfg dw with
    | error e =>
      rw [hb] at h
      simp [Except.map, Bind.bind, Except.bind] at h
    | ok b =>
      rw [hb] at h
      cases hrest : (rest.mapM fun dw =>
          (built_unit_autoapprove cfg dw).map fun b =>
            ({ dw_name := dw, env := extract_dw_environment dw, autoapprove := b } :
              UnitMeta)) with
      | error e =>
        rw [hrest] at h
        simp [Except.map, Bind.bind, Except.bind] at h
      | ok units' =>
        rw [hrest] at h
        simp only [Except.map, Bind.bind, Except.bind, pure, Except.pure,
          Except.ok.injEq] at h
        subst h
        rcases List.mem_cons.mp hu with rfl | hmem
        · exact ⟨List.mem_cons_self _ _, rfl, hb⟩
        · obtain ⟨h1, h2, h3⟩ := ih hrest u hmem
          exact ⟨List.mem_cons_of_mem _ h1, h2, h3⟩

/-- Claim C1: for every validated project request (hypotheses: the
provisioner validation succeeded, and `config_data` carries the
parser-shaped `DATASECURITY` string and, if present, a numeric
`BUDGET_DEV`), every publish unit produced by `_built_terraform_yamls`
has its auto-approve flag true exactly when the unit's environment tag is
`dev`, the data-security level is `l0`, and the declared dev budget is
present in the configuration map and strictly below the limit `150`; in
every other case the flag is false. -/
theorem c1_autoapprove_iff (assets : List Asset) (cfg0 cfg : ConfigData)
    (names : List String) (units : List UnitMeta) (ds : String)
    (hval : project_validate_jira_request assets cfg0 = .ok (cfg, names))
    (hds : cfgGet cfg "DATASECURITY" = some (.vstr ds))
    (hbud : cfgGet cfg "BUDGET_DEV" = none ∨
      ∃ q : ℚ, cfgGet cfg "BUDGET_DEV" = some (.vnum q))
    (hunits : built_terraform_units cfg names = .ok units) :
    ∀ u ∈ units,
      (u.autoapprove = true ↔
        (u.env = some "dev" ∧ ds = "l0" ∧
         ∃ q : ℚ, cfgGet cfg "BUDGET_DEV" = some (.vnum q) ∧ q < 150)) := by
  obtain ⟨pn, envs, hnames, hmaps, hbudkeys⟩ := project_validate_jira_request_ok hval
  rw [built_terraform_units] at hunits
  split at hunits
  · exact absurd hunits (by simp)
  · rw [hds] at hunits
    split at hunits
    · exact absurd hunits (by simp)
    case h_2 dsv hdsv =>
      cases hdsv
      split at hunits
      · exact absurd hunits (by simp)
      case h_2 tag htag =>
        intro u hu
        obtain ⟨hdwmem, henv, hflag⟩ := built_units_mapM_ok hunits u hu
        rw [hnames] at hdwmem
        obtain ⟨e, he, hdw⟩ := List.mem_map.mp hdwmem
        have hBudDev : e = "dev" → ∃ q : ℚ, cfgGet cfg "BUDGET_DEV" = some (.vnum q) := by
          intro hedev
          subst hedev
          have := hbudkeys "dev" he
          rcases hbud with hnone | hq
          · rw [show ("BUDGET_" ++ pyUpper "dev") = "BUDGET_DEV" by decide, hnone] at this
            simp at this
          · exact hq
        rcases env_mapping_isSome (hmaps e he) with rfl | rfl | rfl
        · -- dev unit
          have hx : extract_dw_environment u.dw_name = some "dev" := by
            rw [← hdw]
            exact extract_dw_environment_mk "dev" pn (by decide) (by decide)
          obtain ⟨q, hq⟩ := hBudDev rfl
          rw [built_unit_autoapprove, if_pos hx, hds] at hflag
          have hgetd : cfgGetD cfg "BUDGET_DEV" (.vnum 0) = .vnum q := by
            rw [cfgGetD, hq]
            rfl
          rw [hgetd] at hflag
          simp only [allow_autoapprove_on_dev_budget_limit] at hflag
          by_cases hds0 : ds = "l0"
          · rw [if_pos (by simp [Val.eqStr, hds0])] at hflag
            have hu_eq : u.autoapprove = decide (q < BUDGET_LIMIT) :=
              (Except.ok.inj hflag).symm
            constructor
            · intro htrue
              rw [htrue] at hu_eq
              refine ⟨by rw [henv, hx], hds0, q, hq, ?_⟩
              have := of_decide_eq_true hu_eq.symm
              simpa [BUDGET_LIMIT] using this
            · rintro ⟨-, -, q', hq', hlt⟩
              rw [hq] at hq'
              cases hq'
              rw [hu_eq]
              simp [BUDGET_LIMIT]
              exact hlt
          · rw [if_neg (by simp [Val.eqStr, hds0])] at hflag
            have hu_eq : u.autoapprove = false := (Except.ok.inj hflag).symm
            rw [hu_eq]
            simp only [Bool.false_eq_true, false_iff]
            rintro ⟨-, hcon, -⟩
            exact hds0 hcon
        · -- test unit
          have hx : extract_dw_environment u.dw_name = some "test" := by
            rw [← hdw]
            exact extract_dw_environment_mk "test" pn (by decide) (by decide)
          rw [built_unit_autoapprove, if_neg (by rw [hx]; simp)] at hflag
          have hu_eq : u.autoapprove = false := (Except.ok.inj hflag).symm
          rw [hu_eq]
          simp only [Bool.false_eq_true, false_iff]
          rintro ⟨hcon, -, -⟩
          rw [henv, hx] at hcon
          simp at hcon
        · -- prod unit
          have hx : extract_dw_environment u.dw_name = some "prod" := by
            rw [← hdw]
            exact extract_dw_environment_mk "prod" pn (by decide) (by decide)
          rw [built_unit_autoapprove, if_neg (by rw [hx]; simp)] at hflag
          have hu_eq : u.autoapprove = false := (Except.ok.inj hflag).symm
          rw [hu_eq]
          simp only [Bool.false_eq_true, false_iff]
          rintro ⟨hcon, -, -⟩
          rw [henv, hx] at hcon
          simp at hcon

/-! ## Concrete scenario used by the C1 witness -/

/-- A parent folder `teamfolder` with `Development` and `Production`
subfolders, as returned by the asset listing. -/
def demoAssets : List Asset :=
  [{ asset_type := FolderType, name := "//cloudresourcemanager.googleapis.com/folders/100",
     displayName := some "teamfolder", dataName := none, projectId := none,
     parent := none, ancestors := ["folders/100"] },
   { asset_type := FolderType, name := "//cloudresourcemanager.googleapis.com/folders/200",
     displayName := some "Development", dataName := none, projectId := none,
     parent := some "folders/100", ancestors := ["folders/200", "folders/100"] },
   { asset_type := FolderType, name := "//cloudresourcemanager.googleapis.com/folders/300",
     displayName := some "Production", dataName := none, projectId := none,
     parent := some "folders/100", ancestors := ["folders/300", "folders/100"] }]

/-- A parsed project request for `myapp` on `dev` and `prod`, security
`l0`, dev budget `100`. -/
def demoCfg0 : ConfigData :=
  [("ISSUE_KEY", .vstr "DW-1"), ("FOLDER_NAME", .vstr "teamfolder"),
   ("PROJECT_NAME", .vstr "myapp"), ("DATASECURITY", .vstr "l0"),
   ("ENVIRONMENT", .vlist [.vstr "dev", .vstr "prod"]),
   ("BUDGET_DEV", .vnum 100), ("BUDGET_PROD", .vnum 200)]

/-- The configuration map after successful validation of the demo
request. -/
def demoCfg : ConfigData :=
  match project_validate_jira_request demoAssets demoCfg0 with
  | .ok (c, _) => c
  | .error _ => []

/-- The validated per-environment project names of the demo request. -/
def demoNames : List String :=
  match project_validate_jira_request demoAssets demoCfg0 with
  | .ok (_, ns) => ns
  | .error _ => []

/-- The publish units built for the demo request. -/
def demoUnits : List UnitMeta :=
  match built_terraform_units demoCfg demoNames with
  | .ok us => us
  | .error _ => []


/-- Witness for C1: in the demo request the `dev` unit is produced with
auto-approve true, and the theorem instantiates to it: the flag is true
exactly because the unit is the dev unit, security is `l0` and the dev
budget `100` is present and below `150`. -/
theorem c1_autoapprove_iff_witness :
    ({ dw_name := "dw-dev-myapp", env := some "dev", autoapprove := true } : UnitMeta) ∈
      demoUnits ∧
    (({ dw_name := "dw-dev-myapp", env := some "dev", autoapprove := true } :
        UnitMeta).autoapprove = true ↔
      (({ dw_name := "dw-dev-myapp", env := some "dev", autoapprove := true } :
          UnitMeta).env = some "dev" ∧ "l0" = "l0" ∧
       ∃ q : ℚ, cfgGet demoCfg "BUDGET_DEV" = some (.vnum q) ∧ q < 150)) := by
  have hmem : ({ dw_name := "dw-dev-myapp", env := some "dev", autoapprove := true } :
      UnitMeta) ∈ demoUnits := by
    rw [show demoUnits = [{ dw_name := "dw-dev-myapp", env := some "dev", autoapprove := true },
      { dw_name := "dw-prod-myapp", env := some "prod", autoapprove := false }] from rfl]
    exact List.mem_cons_self _ _
  exact ⟨hmem, c1_autoapprove_iff demoAssets demoCfg0 demoCfg demoNames demoUnits "l0"
    rfl rfl (Or.inr ⟨100, rfl⟩) rfl
    { dw_name := "dw-dev-myapp", env := some "dev", autoapprove := true } hmem⟩

/-! ## Forward lemmas for the project validator (claim C5) -/

theorem validate_env_step_success {assets : List Asset} {fn pn env : String}
    {c : ConfigData} {a : List String}
    (hfresh : check_if_resource_exist assets ("dw-" ++ env ++ "-" ++ pn) ProjectType = none)
    (hsub : ∃ sub fid, env_mapping env = some sub ∧
      get_project_subfolder_id assets fn sub = .ok (some fid)) :
    ∃ v, validate_env_step assets fn pn (c, a) env =
      .ok (cfgInsert c ("FOLDER_" ++ pyUpper env) v,
           a ++ ["dw-" ++ env ++ "-" ++ pn]) := by
  obtain ⟨sub, fid, hmap, hfound⟩ := hsub
  refine ⟨optStrToVal (extract_folder_id (some fid)), ?_⟩
  rw [validate_env_step]
  rw [if_neg (by rw [hfresh]; simp)]
  dsimp only
  simp only [hmap, hfound]

theorem validate_env_step_collision {assets : List Asset} {fn pn env : String}
    {c : ConfigData} {a : List String}
    (hcol : (check_if_resource_exist assets ("dw-" ++ env ++ "-" ++ pn) ProjectType).isSome) :
    validate_env_step assets fn pn (c, a) env =
      .error ("Project " ++ ("dw-" ++ env ++ "-" ++ pn) ++
        " exists already in the resource hierarchy.") := by
  rw [validate_env_step]
  rw [if_pos hcol]

theorem validate_env_loop_success {assets : List Asset} {fn pn : String} :
    ∀ {envs : List String} {c : ConfigData} {a : List String},
    (∀ e ∈ envs, check_if_resource_exist assets ("dw-" ++ e ++ "-" ++ pn) ProjectType = none) →
    (∀ e ∈ envs, ∃ sub fid, env_mapping e = some sub ∧
      get_project_subfolder_id assets fn sub = .ok (some fid)) →
    ∃ cfg2, validate_env_loop assets fn pn (c, a) envs =
      .ok (cfg2, a ++ envs.map fun e => "dw-" ++ e ++ "-" ++ pn) := by
  intro envs
  induction envs with
  | nil =>
    intro c acc _ _
    exact ⟨c, by simp [validate_env_loop]⟩
  | cons env rest ih =>
    intro c acc hfresh hsub
    obtain ⟨v, hstep⟩ := validate_env_step_success (c := c) (a := acc)
      (hfresh env (List.mem_cons_self _ _)) (hsub env (List.mem_cons_self _ _))
    obtain ⟨cfg2, hloop⟩ := ih (c := cfgInsert c ("FOLDER_" ++ pyUpper env) v)
      (a := acc ++ ["dw-" ++ env ++ "-" ++ pn])
      (fun e he => hfresh e (List.mem_cons_of_mem _ he))
      (fun e he => hsub e (List.mem_cons_of_mem _ he))
    refine ⟨cfg2, ?_⟩
    rw [validate_env_loop]
    simp only [hstep, hloop]
    simp

theorem validate_env_loop_first_collision {assets : List Asset} {fn pn : String} :
    ∀ {envs : List String} {c : ConfigData} {acc : List String} {e0 : String},
    envs.find? (fun e =>
      (check_if_resource_exist assets ("dw-" ++ e ++ "-" ++ pn) ProjectType).isSome) = some e0 →
    (∀ e ∈ envs, ∃ sub fid, env_mapping e = some sub ∧
      get_project_subfolder_id assets fn sub = .ok (some fid)) →
    validate_env_loop assets fn pn (c, acc) envs =
      .error ("Project " ++ ("dw-" ++ e0 ++ "-" ++ pn) ++
        " exists already in the resource hierarchy.") := by
  intro envs
  induction envs with
  | nil => intro c acc e0 hfind; simp at hfind
  | cons env rest ih =>
    intro c acc e0 hfind hsub
    by_cases hcol : (check_if_resource_exist assets ("dw-" ++ env ++ "-" ++ pn)
        ProjectType).isSome
    · rw [List.find?_cons_of_pos (p := fun e =>
        (check_if_resource_exist assets ("dw-" ++ e ++ "-" ++ pn) ProjectType).isSome)
        _ hcol] at hfind
      cases hfind
      rw [validate_env_loop]
      simp only [validate_env_step_collision (c := c) (a := acc) hcol]
    · rw [List.find?_cons_of_neg (p := fun e =>
        (check_if_resource_exist assets ("dw-" ++ e ++ "-" ++ pn) ProjectType).isSome)
        _ (by simpa using hcol)] at hfind
      obtain ⟨v, hstep⟩ := validate_env_step_success (c := c) (a := acc)
        (by simpa using hcol) (hsub env (List.mem_cons_self _ _))
      rw [validate_env_loop]
      simp only [hstep]
      exact ih hfind (fun e he => hsub e (List.mem_cons_of_mem _ he))

theorem budget_keys_loop_first_missing {data : ConfigData} :
    ∀ {envs : List String} {e0 : String},
    envs.find? (fun e => (cfgGet data ("BUDGET_" ++ pyUpper e)).isNone) = some e0 →
    budget_keys_loop data (envs.map Val.vstr) =
      .error ("The " ++ e0 ++ " environment has no associated budget key (BUDGET_" ++
        pyUpper e0 ++ "). Please ensure this information is included in the Jira request.") := by
  intro envs
  induction envs with
  | nil => intro e0 hfind; simp at hfind
  | cons env rest ih =>
    intro e0 hfind
    by_cases hmiss : (cfgGet data ("BUDGET_" ++ pyUpper env)).isNone
    · rw [List.find?_cons_of_pos (p := fun e =>
        (cfgGet data ("BUDGET_" ++ pyUpper e)).isNone) _ hmiss] at hfind
      cases hfind
      rw [List.map_cons, budget_keys_loop]
      rw [if_neg (by simpa [Option.isNone_iff_eq_none] using hmiss)]
    · rw [List.find?_cons_of_neg (p := fun e =>
        (cfgGet data ("BUDGET_" ++ pyUpper e)).isNone) _ (by simpa using hmiss)] at hfind
      rw [List.map_cons, budget_keys_loop]
      rw [if_pos (by simpa [Option.isNone_iff_eq_none, Option.isSome_iff_ne_none] using hmiss)]
      exact ih hfind

theorem mapM_vstr_eq_map :
    ∀ {l : List Val} {envs : List String},
    l.mapM (fun v => match v with | Val.vstr s => some s | _ => none) = some envs →
    l = envs.map Val.vstr := by
  intro l
  induction l with
  | nil =>
    intro envs h
    rw [List.mapM_nil] at h
    cases h
    rfl
  | cons v rest ih =>
    intro envs h
    rw [List.mapM_cons] at h
    cases v with
    | vstr s =>
      cases hrest : rest.mapM (fun v => match v with | Val.vstr s => some s | _ => none) with
      | none => rw [hrest] at h; simp at h
      | some envs' =>
        rw [hrest] at h
        simp only [Option.bind_eq_bind, Option.some_bind, pure, Option.some.injEq] at h
        cases h
        rw [List.map_cons, ih hrest]
    | vnone => simp at h
    | vnum q => simp at h
    | vbool bb => simp at h
    | vlist ll => simp at h
    | vmap mm => simp at h

theorem find?_congr {α : Type} {p q : α → Bool} :
    ∀ {l : List α}, (∀ a ∈ l, p a = q a) → l.find? p = l.find? q := by
  intro l
  induction l with
  | nil => intro _; rfl
  | cons a rest ih =>
    intro h
    by_cases ha : p a
    · rw [List.find?_cons_of_pos _ ha, List.find?_cons_of_pos _ (by rw [← h a (by simp)]; exact ha)]
    · rw [List.find?_cons_of_neg _ ha, List.find?_cons_of_neg _ (by rw [← h a (by simp)]; exact ha),
        ih fun b hb => h b (by simp [hb])]

/-- Claim C5: for a project request with base name `pn` and declared
environments `envs` (in order), with an existing parent folder and
resolvable environment subfolders: (1) when every constructed name
`dw-<env>-<pn>` is fresh, validation succeeds and produces exactly those
names in declared order; (2) when some constructed name already exists,
validation fails with the collision error of the first such environment;
(3) after a successful name-and-subfolder pass, a declared environment
whose `BUDGET_<ENV>` key is absent makes the budget-completeness check
fail with its budget error, even when earlier environments (e.g. `dev`)
passed. -/
theorem c5_project_validator (assets : List Asset) (cfg : ConfigData)
    (fn pn : String) (envs : List String)
    (hfn : getStr cfg "FOLDER_NAME" = some fn)
    (hpn : getStr cfg "PROJECT_NAME" = some pn)
    (henvs : getStrList cfg "ENVIRONMENT" = some envs)
    (hfolder : (check_if_resource_exist assets fn FolderType).isSome)
    (hsub : ∀ e ∈ envs, ∃ sub fid, env_mapping e = some sub ∧
      get_project_subfolder_id assets fn sub = .ok (some fid)) :
    ((∀ e ∈ envs, check_if_resource_exist assets ("dw-" ++ e ++ "-" ++ pn) ProjectType = none) →
      ∃ cfg2, validate_folder_and_projects_name assets cfg =
        .ok (cfg2, envs.map fun e => "dw-" ++ e ++ "-" ++ pn)) ∧
    (∀ e0, envs.find? (fun e =>
        (check_if_resource_exist assets ("dw-" ++ e ++ "-" ++ pn) ProjectType).isSome) =
          some e0 →
      validate_folder_and_projects_name assets cfg =
        .error ("Validation error during folder/project name check: " ++
          ("Project " ++ ("dw-" ++ e0 ++ "-" ++ pn) ++
            " exists already in the resource hierarchy."))) ∧
    (∀ cfg2 names2, validate_folder_and_projects_name assets cfg = .ok (cfg2, names2) →
      ∀ e0, envs.find? (fun e => (cfgGet cfg ("BUDGET_" ++ pyUpper e)).isNone) = some e0 →
      check_budget_keys cfg2 =
        .error ("The " ++ e0 ++ " environment has no associated budget key (BUDGET_" ++
          pyUpper e0 ++ "). Please ensure this information is included in the Jira request.")) := by
  have hval_unfold : validate_folder_and_projects_name assets cfg =
      (match validate_env_loop assets fn pn (cfg, []) envs with
       | .ok st => .ok st
       | .error e =>
         .error ("Validation error during folder/project name check: " ++ e)) := by
    rw [validate_folder_and_projects_name]
    simp only [hfn, validate_folder_existence, hfolder, if_true, hpn, henvs]
  refine ⟨?_, ?_, ?_⟩
  · intro hfresh
    obtain ⟨cfg2, hloop⟩ := validate_env_loop_success (c := cfg) (a := []) hfresh hsub
    refine ⟨cfg2, ?_⟩
    rw [hval_unfold]
    simp only [hloop]
    simp
  · intro e0 hfind
    rw [hval_unfold]
    simp only [validate_env_loop_first_collision hfind hsub]
  · intro cfg2 names2 hval e0 hfind
    obtain ⟨pn', envs', hpn', henvs', hnames', hmaps', hpres⟩ :=
      validate_folder_and_projects_name_ok hval
    rw [hpn] at hpn'
    cases hpn'
    rw [henvs] at henvs'
    cases henvs'
    have hbudpres : ∀ e ∈ envs, cfgGet cfg2 ("BUDGET_" ++ pyUpper e) =
        cfgGet cfg ("BUDGET_" ++ pyUpper e) := by
      intro e _
      refine hpres _ fun e2 _ => ?_
      exact (folder_key_ne_of_head (by simp [String.data_append])).symm
    have hEnvKey : cfgGet cfg2 "ENVIRONMENT" = cfgGet cfg "ENVIRONMENT" := by
      refine hpres _ fun e2 _ => ?_
      exact (folder_key_ne_of_head (by simp)).symm
    have hmem : e0 ∈ envs := List.mem_of_find?_eq_some hfind
    obtain ⟨envVals, hEnvCfg, hmapM⟩ :
        ∃ l, cfgGet cfg "ENVIRONMENT" = some (Val.vlist l) ∧
          l.mapM (fun v => match v with | Val.vstr s => some s | _ => none) = some envs := by
      rw [getStrList] at henvs
      split at henvs
      case h_1 l hl => exact ⟨l, hl, henvs⟩
      case h_2 => exact absurd henvs (by simp)
    have hEnvList : cfgGet cfg2 "ENVIRONMENT" = some (Val.vlist (envs.map Val.vstr)) := by
      rw [hEnvKey, hEnvCfg, mapM_vstr_eq_map hmapM]
    have hne2 : cfg2 ≠ [] := by
      intro hnil
      rw [hnil] at hEnvList
      exact absurd hEnvList (by simp [cfgGet])
    have htruthy : (Val.vlist (envs.map Val.vstr)).truthy = true := by
      have hns : envs ≠ [] := by
        intro h
        rw [h] at hmem
        simp at hmem
      simp [Val.truthy, List.isEmpty_iff, hns]
    rw [check_budget_keys]
    rw [if_neg (by simpa [List.isEmpty_iff] using hne2)]
    rw [hEnvList]
    simp only [htruthy, Bool.not_true, Bool.false_eq_true, if_false]
    have hfind2 : envs.find? (fun e => (cfgGet cfg2 ("BUDGET_" ++ pyUpper e)).isNone) =
        some e0 := by
      rw [find?_congr fun e he => by rw [hbudpres e he]]
      exact hfind
    exact budget_keys_loop_first_missing hfind2

/-- The C5 request: like the demo request but with no `BUDGET_PROD`. -/
def c5Cfg : ConfigData :=
  [("ISSUE_KEY", .vstr "DW-2"), ("FOLDER_NAME", .vstr "teamfolder"),
   ("PROJECT_NAME", .vstr "myapp"), ("DATASECURITY", .vstr "l0"),
   ("ENVIRONMENT", .vlist [.vstr "dev", .vstr "prod"]),
   ("BUDGET_DEV", .vnum 100)]

/-- The C5 configuration map after the name-and-subfolder pass. -/
def c5CfgValidated : ConfigData :=
  match validate_folder_and_projects_name demoAssets c5Cfg with
  | .ok (c, _) => c
  | .error _ => []

/-- The C5 validated name list. -/
def c5Names : List String :=
  match validate_folder_and_projects_name demoAssets c5Cfg with
  | .ok (_, ns) => ns
  | .error _ => []

/-- The demo hierarchy extended with an already-existing project
`dw-prod-myapp`. -/
def c5AssetsCollision : List Asset :=
  demoAssets ++
  [{ asset_type := ProjectType, name := "//cloudresourcemanager.googleapis.com/projects/900",
     displayName := none, dataName := some "projects/dw-prod-myapp",
     projectId := some "dw-prod-myapp", parent := none, ancestors := [] }]

/-- The subfolder-resolution side condition of the demo hierarchy used to
instantiate C5. -/
theorem demo_hsub : ∀ e ∈ ["dev", "prod"], ∃ sub fid, env_mapping e = some sub ∧
    get_project_subfolder_id demoAssets "teamfolder" sub = .ok (some fid) := by
  intro e he
  rcases List.mem_cons.mp he with rfl | he2
  · exact ⟨"Development", "//cloudresourcemanager.googleapis.com/folders/200", rfl, rfl⟩
  · rcases List.mem_cons.mp he2 with rfl | he3
    · exact ⟨"Production", "//cloudresourcemanager.googleapis.com/folders/300", rfl, rfl⟩
    · simp at he3

/-- Witness for C5 on the demo hierarchy: names are generated in declared
order; with `BUDGET_PROD` absent the budget check fails with the `prod`
budget error even though `dev` passed; and with an existing
`dw-prod-myapp` project the validator fails with the collision error. -/
theorem c5_project_validator_witness :
    (∃ cfg2, validate_folder_and_projects_name demoAssets c5Cfg =
      .ok (cfg2, ["dw-dev-myapp", "dw-prod-myapp"])) ∧
    check_budget_keys c5CfgValidated =
      .error ("The prod environment has no associated budget key (BUDGET_PROD). " ++
        "Please ensure this information is included in the Jira request.") ∧
    validate_folder_and_projects_name c5AssetsCollision c5Cfg =
      .error ("Validation error during folder/project name check: " ++
        "Project dw-prod-myapp exists already in the resource hierarchy.") := by
  refine ⟨?_, ?_, ?_⟩
  · exact (c5_project_validator demoAssets c5Cfg "teamfolder" "myapp" ["dev", "prod"]
      rfl rfl rfl rfl demo_hsub).1 (by decide)
  · exact (c5_project_validator demoAssets c5Cfg "teamfolder" "myapp" ["dev", "prod"]
      rfl rfl rfl rfl demo_hsub).2.2 c5CfgValidated c5Names rfl "prod" rfl
  · exact (c5_project_validator c5AssetsCollision c5Cfg "teamfolder" "myapp" ["dev", "prod"]
      rfl rfl rfl rfl (by
        intro e he
        rcases List.mem_cons.mp he with rfl | he2
        · exact ⟨"Development", "//cloudresourcemanager.googleapis.com/folders/200", rfl, rfl⟩
        · rcases List.mem_cons.mp he2 with rfl | he3
          · exact ⟨"Production", "//cloudresourcemanager.googleapis.com/folders/300", rfl, rfl⟩
          · simp at he3)).2.1 "prod" rfl

/-! ## Folder provisioning validator (`GcpFolderProvisioner`) -/

/-- `GcpFolderProvisioner._validate_jira_request`: assert the requested
`FOLDER_NAME` does not already exist (a collision raises a `ValueError`
that is re-raised as `GcpProvisioningError` with the `Validation error:`
prefix), then resolve the declared `PROJECT_TYPE_FOLDER` parent via the
index and `_extract_folder_id` (failing if either step yields nothing) and
store the resolved id under `PARENT_FOLDER_ID`. -/
def folder_validate_jira_request (assets : List Asset) (cfg : ConfigData) :
    Except String ConfigData :=
  match getStr cfg "FOLDER_NAME" with
  | none => .error "KeyError: FOLDER_NAME"
  | some folder_name =>
    if (check_if_resource_exist assets folder_name FolderType).isSome then
      .error ("Validation error: Folder " ++ folder_name ++
        " exists already in the resource hierarchy.")
    else
      match getStr cfg "PROJECT_TYPE_FOLDER" with
      | none => .error "KeyError: PROJECT_TYPE_FOLDER"
      | some project_type_folder =>
        match extract_folder_id
            (check_if_resource_exist assets project_type_folder FolderType) with
        | none => .error ("Parent folder " ++ project_type_folder ++
            " does not exist in the resource hierarchy. Cannot create sub-folder.")
        | some parent_folder_id =>
          .ok (cfgInsert cfg "PARENT_FOLDER_ID" (.vstr parent_folder_id))

/-- A successful `_extract_folder_id` always returns `folders/<digits>`
with a non-empty digit string. -/
theorem extract_folder_id_some {o : Option String} {pid : String}
    (h : extract_folder_id o = some pid) :
    ∃ d : String, pid = "folders/" ++ d ∧ d ≠ "" ∧ ∀ c ∈ d.data, Char.isDigit c := by
  rw [extract_folder_id.eq_def] at h
  split at h
  · exact absurd h (by simp)
  case h_2 s =>
    dsimp only at h
    split at h
    case isFalse => exact absurd h (by simp)
    case isTrue hc =>
      refine ⟨trailingDigits s, (Option.some.inj h).symm, hc.1, ?_⟩
      intro c hcmem
      rw [trailingDigits] at hcmem
      have : c ∈ (s.data.reverse.takeWhile Char.isDigit).reverse := hcmem
      rw [List.mem_reverse] at this
      exact List.mem_takeWhile_imp this

/-- Claim C6: with the parser-shaped `FOLDER_NAME` and
`PROJECT_TYPE_FOLDER` entries and a resolvable declared parent folder, the
folder validator fails with the collision error exactly when the requested
folder name already exists in the hierarchy snapshot; when the name is
absent, validation succeeds and stores the resolved parent id, of the form
`folders/<digits>`, under `PARENT_FOLDER_ID`. -/
theorem c6_folder_validator (assets : List Asset) (cfg : ConfigData) (fn ptf : String)
    (hfn : getStr cfg "FOLDER_NAME" = some fn)
    (hptf : getStr cfg "PROJECT_TYPE_FOLDER" = some ptf)
    (hparent : ∃ m, check_if_resource_exist assets ptf FolderType = some m ∧
      (extract_folder_id (some m)).isSome) :
    ((check_if_resource_exist assets fn FolderType).isSome ↔
      folder_validate_jira_request assets cfg =
        .error ("Validation error: Folder " ++ fn ++
          " exists already in the resource hierarchy.")) ∧
    (check_if_resource_exist assets fn FolderType = none →
      ∃ (cfg2 : ConfigData) (d : String), d ≠ "" ∧ (∀ c ∈ d.data, Char.isDigit c) ∧
        folder_validate_jira_request assets cfg = .ok cfg2 ∧
        cfgGet cfg2 "PARENT_FOLDER_ID" = some (.vstr ("folders/" ++ d))) := by
  obtain ⟨m, hm, hx⟩ := hparent
  obtain ⟨pid, hpid⟩ := Option.isSome_iff_exists.mp hx
  obtain ⟨d, hpidform, hdne, hddig⟩ := extract_folder_id_some hpid
  have hok : check_if_resource_exist assets fn FolderType = none →
      folder_validate_jira_request assets cfg =
        .ok (cfgInsert cfg "PARENT_FOLDER_ID" (.vstr pid)) := by
    intro hnone
    rw [folder_validate_jira_request]
    simp only [hfn, hnone, Option.isSome_none, Bool.false_eq_true, if_false, hptf, hm, hpid]
  constructor
  · constructor
    · intro hcol
      rw [folder_validate_jira_request]
      simp only [hfn, hcol, if_true]
    · intro herr
      by_contra hno
      have hnone : check_if_resource_exist assets fn FolderType = none := by
        cases hcheck : check_if_resource_exist assets fn FolderType with
        | none => rfl
        | some v => exact absurd (by rw [hcheck]; rfl) hno
      rw [hok hnone] at herr
      exact absurd herr (by simp)
  · intro hnone
    refine ⟨cfgInsert cfg "PARENT_FOLDER_ID" (.vstr pid), d, hdne, hddig, hok hnone, ?_⟩
    rw [cfgGet_insert_self, hpidform]

/-- A folder-provisioning request for a fresh folder `newfolder` under the
declared parent type folder `teamfolder`. -/
def c6Cfg : ConfigData :=
  [("ISSUE_KEY", .vstr "DW-3"), ("FOLDER_NAME", .vstr "newfolder"),
   ("PROJECT_TYPE", .vstr "internal"), ("PROJECT_TYPE_FOLDER", .vstr "teamfolder")]

/-- The same request but asking for the already-existing name
`teamfolder`. -/
def c6CfgCollision : ConfigData :=
  [("ISSUE_KEY", .vstr "DW-3"), ("FOLDER_NAME", .vstr "teamfolder"),
   ("PROJECT_TYPE", .vstr "internal"), ("PROJECT_TYPE_FOLDER", .vstr "teamfolder")]

/-- Witness for C6: on the demo hierarchy the fresh request succeeds and
stores a `folders/<digits>` parent id, and the colliding request fails
with the collision error. -/
theorem c6_folder_validator_witness :
    (∃ (cfg2 : ConfigData) (d : String), d ≠ "" ∧ (∀ c ∈ d.data, Char.isDigit c) ∧
      folder_validate_jira_request demoAssets c6Cfg = .ok cfg2 ∧
      cfgGet cfg2 "PARENT_FOLDER_ID" = some (.vstr ("folders/" ++ d))) ∧
    folder_validate_jira_request demoAssets c6CfgCollision =
      .error ("Validation error: Folder teamfolder exists already in the resource hierarchy.") := by
  constructor
  · exact (c6_folder_validator demoAssets c6Cfg "newfolder" "teamfolder" rfl rfl
      ⟨"//cloudresourcemanager.googleapis.com/folders/100", rfl, by decide⟩).2 rfl
  · exact (c6_folder_validator demoAssets c6CfgCollision "teamfolder" "teamfolder" rfl rfl
      ⟨"//cloudresourcemanager.googleapis.com/folders/100", rfl, by decide⟩).1.mp rfl

/-! ## Decimal digits and Python `float()` (`app/parsers.py` helpers) -/

/-- The decimal digit characters. -/
def digitChar : Nat → Char
  | 0 => '0' | 1 => '1' | 2 => '2' | 3 => '3' | 4 => '4'
  | 5 => '5' | 6 => '6' | 7 => '7' | 8 => '8' | _ => '9'

/-- The numeric value of a digit character. -/
def digitVal (c : Char) : Nat := c.toNat - 48

/-- Digits of `n`, least significant first, driven by enough fuel. -/
def natToDigitsRev (fuel n : Nat) : List Char :=
  match fuel with
  | 0 => []
  | fuel' + 1 => if n < 10 then [digitChar n] else digitChar (n % 10) :: natToDigitsRev fuel' (n / 10)

/-- The decimal digits of `n`, most significant first. -/
def natToDigits (n : Nat) : List Char :=
  (natToDigitsRev (n + 1) n).reverse

/-- Value of a digit list, most significant first. -/
def digitsToNat (l : List Char) : Nat :=
  l.foldl (fun a c => a * 10 + digitVal c) 0

/-- Python `s.strip()`: remove surrounding whitespace. -/
def pyStripChars (l : List Char) : List Char :=
  ((l.dropWhile pyIsSpace).reverse.dropWhile pyIsSpace).reverse

/-- Exponent part of a Python float literal: optional sign and a non-empty
digit run. -/
def pyFloatExp (l : List Char) : Option ℤ :=
  let core : List Char → Option ℤ := fun d =>
    if d ≠ [] ∧ d.all Char.isDigit then some (digitsToNat d) else none
  match l with
  | '+' :: r => core r
  | '-' :: r => (core r).map (fun e => -e)
  | r => core r

/-- The rational value of a decimal literal with integer digits `ip`,
fraction digits `fp`, decimal exponent `ex` and a sign flag: built with
`mkRat` over integer arithmetic. -/
def decValue (neg : Bool) (ip fp : List Char) (ex : ℤ) : ℚ :=
  let mant : ℤ := digitsToNat ip * 10 ^ fp.length + digitsToNat fp
  let mant : ℤ := if neg then -mant else mant
  if 0 ≤ ex then mkRat (mant * 10 ^ ex.toNat) (10 ^ fp.length)
  else mkRat mant (10 ^ (fp.length + (-ex).toNat))

/-- Mantissa and optional exponent of an unsigned Python float literal:
`digits`, `digits.digits?`, `.digits`, each optionally followed by
`e`/`E` and an exponent.  (Non-finite literals such as `inf`/`nan` and
digit-group underscores are outside the modelled fragment and parse as
failures.) -/
def pyFloatUnsigned (neg : Bool) (l : List Char) : Option ℚ :=
  let ip := l.takeWhile Char.isDigit
  let rest := l.dropWhile Char.isDigit
  let withExp : List Char → Option ℚ := fun r =>
    match r with
    | [] => some (decValue neg ip [] 0)
    | e :: r2 =>
      if e = 'e' ∨ e = 'E' then (pyFloatExp r2).map (decValue neg ip [])
      else none
  match rest with
  | '.' :: rest2 =>
    let fp := rest2.takeWhile Char.isDigit
    let rest3 := rest2.dropWhile Char.isDigit
    if ip = [] ∧ fp = [] then none
    else
      match rest3 with
      | [] => some (decValue neg ip fp 0)
      | e :: r2 =>
        if e = 'e' ∨ e = 'E' then (pyFloatExp r2).map (decValue neg ip fp)
        else none
  | _ =>
    if ip = [] then none
    else withExp rest

/-- Python `float(s)` on the modelled literal fragment: surrounding
whitespace is stripped, an optional sign precedes the unsigned literal. -/
def pyFloat (s : String) : Option ℚ :=
  match pyStripChars s.data with
  | '+' :: r => pyFloatUnsigned false r
  | '-' :: r => pyFloatUnsigned true r
  | r => pyFloatUnsigned false r

/-! ## The configured validation patterns (`configs/jira/configurations.py`) -/

/-- Anchor a full-line matcher the way `re.match(r"...$", s)` behaves in
Python: `$` also matches just before a trailing newline. -/
def dollarAnchor (core : List Char → Bool) (s : String) : Bool :=
  core s.data ||
    (match s.data.getLast? with
     | some c => if c = '\n' then core s.data.dropLast else false
     | none => false)

/-- Matcher core of `^[0-9]{1,10}\.[0-9]{1,5}$`: a digit run of length 1
to 10 (greedy, so the maximal run must fit), a dot, then 1 to 5 digits to
the end. -/
def budget_pattern_core (l : List Char) : Bool :=
  let ip := l.takeWhile Char.isDigit
  let rest := l.dropWhile Char.isDigit
  decide (1 ≤ ip.length) && decide (ip.length ≤ 10) &&
    (match rest with
     | '.' :: fp => fp.all Char.isDigit && decide (1 ≤ fp.length) && decide (fp.length ≤ 5)
     | _ => false)

/-- The `BUDGET_*` validation pattern `^[0-9]{1,10}\.[0-9]{1,5}$`. -/
def budget_validation (s : String) : Bool :=
  dollarAnchor budget_pattern_core s

/-- The character class `[0-9A-Za-z-_]`. -/
def wordChar (c : Char) : Bool :=
  c.isDigit || isLowerAscii c || ('A' ≤ c && c ≤ 'Z') || c = '-' || c = '_'

/-- A pattern `^[0-9A-Za-z-_]{lo,hi}$` as used for `PROJECT_NAME`,
`FOLDER_NAME` and `WBS`. -/
def word_pattern (lo hi : Nat) (s : String) : Bool :=
  dollarAnchor (fun l => l.all wordChar && decide (lo ≤ l.length) && decide (l.length ≤ hi)) s

/-! ## Decimal rendering of float values (Python `str`/`repr` and the
YAML dump of the synthesized documents).  The floats handled by the
pipeline are exact finite decimals (they are produced by `float()` on
pattern-checked decimal strings), rendered as `<int>.<frac>`. -/

/-- The least scale `k` with `q.den` dividing `10^k`, when one exists
(`q.den` itself bounds the search for every finite decimal). -/
def decScale (q : ℚ) : Option Nat :=
  (List.range (q.den + 1)).find? (fun k => 10 ^ k % q.den == 0)

/-- Zero-pad a digit run on the left to width `k`. -/
def padLeftZeros (k : Nat) (l : List Char) : List Char :=
  List.replicate (k - l.length) '0' ++ l

/-- Digits of the magnitude of an exact decimal with scale `k ≥ 1`:
`<int part>.<k fraction digits>`, over the scaled integer
`|num| * (10^k / den)`. -/
def renderNumPos (q : ℚ) (k : Nat) : List Char :=
  let n := q.num.natAbs * (10 ^ k / q.den)
  natToDigits (n / 10 ^ k) ++ '.' :: padLeftZeros k (natToDigits (n % 10 ^ k))

/-- Decimal rendering of an exact-decimal rational, as Python renders the
corresponding float (`100.0`, `0.5`, `-12.5`); `none` outside the
modelled fragment. -/
def renderNum (q : ℚ) : Option (List Char) :=
  match decScale q with
  | none => none
  | some k0 =>
    let k := max 1 k0
    if q.num < 0 then some ('-' :: renderNumPos q k)
    else some (renderNumPos q k)

/-- Python `str(value)` for the payload scalars fed to the numeric-field
processor: strings are themselves, numbers render as float literals. -/
def pyStrOfVal : Val → Option String
  | .vstr s => some s
  | .vnum q => (renderNum q).map String.mk
  | _ => none

/-! ## Field processors (`app/parsers.py`) -/

/-- One entry of a ticket-field table (`configurations.py`): the field
type, the payload source key, the destination key, the mandatory flag, the
optional validation pattern (modelled as the matcher of the configured
regular expression) and the configured violation message. -/
structure FieldConfig where
  ftype : String
  input_name : String
  output_name : String
  mandatory : Bool
  validation : Option (String → Bool)
  regex_error_message : String

/-- `PayloadParser._process_dropdown`: store `field_value["value"]` when
the field is present with a `value` key (a truthy non-dict payload value
is outside the documented Jira shape and is skipped like an absent
one). -/
def process_dropdown (fc : FieldConfig) (field_value : Option Val) (cfg : ConfigData) :
    ConfigData :=
  match field_value with
  | some (.vmap m) =>
    match cfgGet m "value" with
    | some v => cfgInsert cfg fc.output_name v
    | none => cfg
  | _ => cfg

/-- `PayloadParser._process_people`: store the `displayName` of the first
element of the list. -/
def process_people (fc : FieldConfig) (field_value : Option Val) (cfg : ConfigData) :
    ConfigData :=
  match field_value with
  | some (.vlist (.vmap m :: _)) =>
    match cfgGet m "displayName" with
    | some v => cfgInsert cfg fc.output_name v
    | none => cfg
  | _ => cfg

/-- `PayloadParser._process_reporter`: store the object's `displayName`. -/
def process_reporter (fc : FieldConfig) (field_value : Option Val) (cfg : ConfigData) :
    ConfigData :=
  match field_value with
  | some (.vmap m) =>
    match cfgGet m "displayName" with
    | some v => cfgInsert cfg fc.output_name v
    | none => cfg
  | _ => cfg

/-- `PayloadParser._process_dropdown_nested`: store
`field_value["child"]["value"]`. -/
def process_dropdown_nested (fc : FieldConfig) (field_value : Option Val)
    (cfg : ConfigData) : ConfigData :=
  match field_value with
  | some (.vmap m) =>
    match cfgGet m "child" with
    | some (.vmap c) =>
      match cfgGet c "value" with
      | some v => cfgInsert cfg fc.output_name v
      | none => cfg
    | _ => cfg
  | _ => cfg

/-- `PayloadParser._process_checklist`: collect the `value` of every dict
item, in payload order. -/
def process_checklist (fc : FieldConfig) (field_value : Option Val) (cfg : ConfigData) :
    ConfigData :=
  match field_value with
  | some (.vlist items) =>
    cfgInsert cfg fc.output_name (.vlist (items.filterMap fun item =>
      match item with
      | .vmap m => cfgGet m "value"
      | _ => none))
  | _ => cfg

/-- `PayloadParser._process_textfield`: with a validation pattern a
non-matching string records a field-level error comment and leaves the
destination unset; a matching (or unvalidated) value is stored.
`re.match` on a non-string raises. -/
def process_textfield (fc : FieldConfig) (attribute_found : Option Val)
    (cfg : ConfigData) : Except String (ConfigData × List String) :=
  match attribute_found with
  | none => .ok (cfg, [])
  | some v =>
    match fc.validation with
    | none => .ok (cfgInsert cfg fc.output_name v, [])
    | some pat =>
      match v with
      | .vstr s =>
        if pat s then .ok (cfgInsert cfg fc.output_name (.vstr s), [])
        else .ok (cfg, ["Invalid value " ++ s ++ " found for " ++ fc.output_name ++ ". " ++
          fc.regex_error_message])
      | _ => .error "TypeError: expected string or bytes-like object"

/-- `PayloadParser._process_numericfield`: the raw scalar (string or
number) is pattern-matched as its string representation; on match it is
converted with `float()` and stored; a mismatch or a conversion failure
records a field-level error comment and leaves the destination unset.
Without a pattern the conversion is attempted directly. -/
def process_numericfield (fc : FieldConfig) (attribute_found : Option Val)
    (cfg : ConfigData) : Except String (ConfigData × List String) :=
  match attribute_found with
  | none => .ok (cfg, [])
  | some v =>
    match pyStrOfVal v with
    | none => .error "TypeError: unsupported payload scalar"
    | some str_attribute_found =>
      let convert : Except String (ConfigData × List String) :=
        match (match v with
               | .vstr s => pyFloat s
               | .vnum q => some q
               | _ => none) with
        | some q => .ok (cfgInsert cfg fc.output_name (.vnum q), [])
        | none => .ok (cfg, ["Could not convert " ++ str_attribute_found ++ " to float for " ++
            fc.output_name ++ "."])
      match fc.validation with
      | none => convert
      | some pat =>
        if pat str_attribute_found then convert
        else .ok (cfg, ["Invalid value " ++ str_attribute_found ++ " for " ++
          fc.output_name ++ ". " ++ fc.regex_error_message])

/-- The dispatch of `AppManager.parse_jira_request` for a single field:
extract the raw value at the field's source key and process it by type
(an unsupported type only logs a warning and is skipped). -/
def process_field (payload : List (String × Val)) (fc : FieldConfig)
    (cfg : ConfigData) : Except String (ConfigData × List String) :=
  let field_value := cfgGet payload fc.input_name
  if fc.ftype = "dropdown" then .ok (process_dropdown fc field_value cfg, [])
  else if fc.ftype = "people" then .ok (process_people fc field_value cfg, [])
  else if fc.ftype = "reporter" then .ok (process_reporter fc field_value cfg, [])
  else if fc.ftype = "dropdown_nested" then
    .ok (process_dropdown_nested fc field_value cfg, [])
  else if fc.ftype = "checklist" then .ok (process_checklist fc field_value cfg, [])
  else if fc.ftype = "textfield" then process_textfield fc field_value cfg
  else if fc.ftype = "numericfield" then process_numericfield fc field_value cfg
  else .ok (cfg, [])

/-- The field loop of `AppManager.parse_jira_request`: process every
configured field in table order, accumulating the error comments; a
field-level validation failure does not stop the loop, only a raised
exception does. -/
def parse_fields_loop (payload : List (String × Val)) (cfg : ConfigData) :
    List (String × FieldConfig) → Except String (ConfigData × List String)
  | [] => .ok (cfg, [])
  | (_, fc) :: rest =>
    match process_field payload fc cfg with
    | .error e => .error e
    | .ok (cfg1, cs1) =>
      match parse_fields_loop payload cfg1 rest with
      | .error e => .error e
      | .ok (cfg2, cs2) => .ok (cfg2, cs1 ++ cs2)

/-- The collection loop of `PayloadParser._check_mandatory_fields`: walk
the table, collecting the missing mandatory destination keys (in table
order) and the error comment emitted for each. -/
def mandatory_loop (cfg : ConfigData) :
    List (String × FieldConfig) → List String × List String
  | [] => ([], [])
  | (_, fc) :: rest =>
    let (missing, comments) := mandatory_loop cfg rest
    if fc.mandatory && (cfgGet cfg fc.output_name).isNone then
      (fc.output_name :: missing,
       ("Mandatory field " ++ fc.output_name ++ " is missing in the request.") :: comments)
    else (missing, comments)

/-- Python `", ".join(l)`. -/
def joinComma : List String → String
  | [] => ""
  | [x] => x
  | x :: rest => x ++ ", " ++ joinComma rest

/-- `PayloadParser._check_mandatory_fields`: emit one error comment per
missing mandatory field, then raise a single `ValueError` whose message
joins every missing name; no error when nothing is missing. -/
def check_mandatory_fields (ticket_fields : List (String × FieldConfig))
    (cfg : ConfigData) : List String × Except String Unit :=
  let (missing, comments) := mandatory_loop cfg ticket_fields
  (comments,
   if missing.isEmpty then .ok ()
   else .error ("Missing mandatory fields: " ++ joinComma missing))

/-- `AppManager.parse_jira_request`: run the field loop, then the
mandatory-field sweep; the overall result carries every emitted error
comment and either the populated configuration map or the raised error. -/
def parse_jira_request (ticket_fields : List (String × FieldConfig))
    (payload : List (String × Val)) (cfg0 : ConfigData) :
    List String × Except String ConfigData :=
  match parse_fields_loop payload cfg0 ticket_fields with
  | .error e => ([], .error e)
  | .ok (cfg, cs) =>
    let m := check_mandatory_fields ticket_fields cfg
    (cs ++ m.1,
     match m.2 with
     | .error e => .error e
     | .ok () => .ok cfg)

/-- The `project_creation_ticket_fields` table. -/
def project_creation_ticket_fields : List (String × FieldConfig) :=
  [("DATASECURITY",
    ⟨"dropdown", "customfield_10550", "DATASECURITY", true, none, ""⟩),
   ("PROJECT_TYPE",
    ⟨"dropdown", "customfield_10611", "PROJECT_TYPE", true, none, ""⟩),
   ("PROJECT_TYPE_FOLDER",
    ⟨"dropdown_nested", "customfield_10611", "PROJECT_TYPE_FOLDER", true, none, ""⟩),
   ("ENVIRONMENT",
    ⟨"checklist", "customfield_10549", "ENVIRONMENT", true, none, ""⟩),
   ("BUDGET_DEV",
    ⟨"numericfield", "customfield_10579", "BUDGET_DEV", false, some budget_validation,
     "BUDGET_DEV must be a numeric value with up to 10 digits before and 5 digits after the decimal point."⟩),
   ("BUDGET_TEST",
    ⟨"numericfield", "customfield_10613", "BUDGET_TEST", false, some budget_validation,
     "BUDGET_TEST must be a numeric value with up to 10 digits before and 5 digits after the decimal point."⟩),
   ("BUDGET_PROD",
    ⟨"numericfield", "customfield_10614", "BUDGET_PROD", false, some budget_validation,
     "BUDGET_PROD must be a numeric value with up to 10 digits before and 5 digits after the decimal point."⟩),
   ("PROJECT_NAME",
    ⟨"textfield", "customfield_10551", "PROJECT_NAME", true, some (word_pattern 3 50),
     "Project names should be alphanumeric and between 3 and 50 characters."⟩),
   ("FOLDER_NAME",
    ⟨"textfield", "customfield_10578", "FOLDER_NAME", true, some (word_pattern 3 30),
     "FOLDER_NAME must be alphanumeric and between 3 and 30 characters long."⟩),
   ("WBS",
    ⟨"textfield", "customfield_10644", "WBS", false, some (word_pattern 3 100),
     "WBS must be alphanumeric and between 3 and 100 characters long."⟩),
   ("ENGAGEMENT_MANAGER",
    ⟨"reporter", "reporter", "ENGAGEMENT_MANAGER", false, none, ""⟩)]

/-- The `folder_creation_ticket_fields` table. -/
def folder_creation_ticket_fields : List (String × FieldConfig) :=
  [("PROJECT_TYPE",
    ⟨"dropdown", "customfield_10611", "PROJECT_TYPE", true, none, ""⟩),
   ("PROJECT_TYPE_FOLDER",
    ⟨"dropdown_nested", "customfield_10611", "PROJECT_TYPE_FOLDER", true, none, ""⟩),
   ("FOLDER_NAME",
    ⟨"textfield", "customfield_10578", "FOLDER_NAME", true, some (word_pattern 3 30),
     "FOLDER_NAME must be alphanumeric and between 3 and 30 characters long."⟩),
   ("WBS",
    ⟨"textfield", "customfield_10644", "WBS", false, some (word_pattern 3 100),
     "WBS must be alphanumeric and between 3 and 100 characters long."⟩),
   ("ENGAGEMENT_MANAGER",
    ⟨"reporter", "reporter", "ENGAGEMENT_MANAGER", false, none, ""⟩)]

/-! ## Claim C3: aggregate missing-mandatory-field error -/

/-- The collection loop computes exactly the missing mandatory
destination keys, in table order, with one error comment each. -/
theorem mandatory_loop_eq (cfg : ConfigData) :
    ∀ tf : List (String × FieldConfig),
    mandatory_loop cfg tf =
      ((tf.filter fun p => p.2.mandatory && (cfgGet cfg p.2.output_name).isNone).map
         fun p => p.2.output_name,
       (tf.filter fun p => p.2.mandatory && (cfgGet cfg p.2.output_name).isNone).map
         fun p => "Mandatory field " ++ p.2.output_name ++ " is missing in the request.") := by
  intro tf
  induction tf with
  | nil => rfl
  | cons p rest ih =>
    rw [mandatory_loop, ih, List.filter_cons]
    dsimp only
    by_cases hp : (p.2.mandatory && (cfgGet cfg p.2.output_name).isNone) = true
    · rw [if_pos hp, if_pos (by simpa [Option.isNone_iff_eq_none] using hp)]
      simp
    · rw [if_neg hp, if_neg (by simpa [Option.isNone_iff_eq_none] using hp)]

/-- `needle` occurs in `hay` (at character level). -/
def strContainsSub (hay needle : String) : Prop :=
  ∃ pre post : List Char, hay.data = pre ++ needle.data ++ post

theorem joinComma_contains {n : String} :
    ∀ {l : List String}, n ∈ l →
    ∃ pre post : List Char, (joinComma l).data = pre ++ n.data ++ post := by
  intro l
  induction l with
  | nil => intro h; simp at h
  | cons x rest ih =>
    intro h
    cases rest with
    | nil =>
      rcases List.mem_cons.mp h with rfl | h2
      · exact ⟨[], [], by simp [joinComma]⟩
      · simp at h2
    | cons y t =>
      rcases List.mem_cons.mp h with rfl | h2
      · exact ⟨[], (", " ++ joinComma (y :: t)).data, by
          simp [joinComma, String.data_append]⟩
      · obtain ⟨pre, post, hpp⟩ := ih h2
        refine ⟨x.data ++ ", ".data ++ pre, post, ?_⟩
        rw [show joinComma (x :: y :: t) = x ++ ", " ++ joinComma (y :: t) from rfl]
        simp [String.data_append, hpp]

/-- Claim C3: when, after all schema fields are processed, one or more
mandatory fields have no destination key set, the mandatory-field sweep
raises a single aggregate error whose message lists every missing
mandatory field name (in table order, not only the first), and one error
comment is emitted to the ticket per missing field. -/
theorem c3_missing_mandatory_fields (tf : List (String × FieldConfig)) (cfg : ConfigData)
    (hmiss : ∃ p ∈ tf, p.2.mandatory = true ∧ cfgGet cfg p.2.output_name = none) :
    ∃ missing : List String,
      missing = (tf.filter fun p => p.2.mandatory &&
          (cfgGet cfg p.2.output_name).isNone).map (fun p => p.2.output_name) ∧
      (check_mandatory_fields tf cfg).2 =
        .error ("Missing mandatory fields: " ++ joinComma missing) ∧
      ∀ p ∈ tf, p.2.mandatory = true → cfgGet cfg p.2.output_name = none →
        strContainsSub ("Missing mandatory fields: " ++ joinComma missing) p.2.output_name ∧
        ("Mandatory field " ++ p.2.output_name ++ " is missing in the request.") ∈
          (check_mandatory_fields tf cfg).1 := by
  obtain ⟨p0, hp0mem, hp0man, hp0none⟩ := hmiss
  have hp0filter : p0 ∈ tf.filter fun p => p.2.mandatory &&
      (cfgGet cfg p.2.output_name).isNone :=
    List.mem_filter.mpr ⟨hp0mem, by simp [hp0man, hp0none]⟩
  refine ⟨_, rfl, ?_, ?_⟩
  · rw [check_mandatory_fields, mandatory_loop_eq]
    dsimp only
    rw [if_neg (by
      simp only [List.isEmpty_iff, List.map_eq_nil_iff]
      intro hnil
      rw [hnil] at hp0filter
      simp at hp0filter)]
  · intro p hpmem hpman hpnone
    have hpfilter : p ∈ tf.filter fun p => p.2.mandatory &&
        (cfgGet cfg p.2.output_name).isNone :=
      List.mem_filter.mpr ⟨hpmem, by simp [hpman, hpnone]⟩
    constructor
    · obtain ⟨pre, post, hpp⟩ :=
        joinComma_contains (List.mem_map_of_mem (fun p => p.2.output_name) hpfilter)
      exact ⟨"Missing mandatory fields: ".data ++ pre, post, by
        simp [String.data_append, hpp]⟩
    · rw [check_mandatory_fields, mandatory_loop_eq]
      dsimp only
      exact List.mem_map_of_mem _ hpfilter

/-- A request that left both `DATASECURITY` and `FOLDER_NAME` unset. -/
def c3Cfg : ConfigData :=
  [("ISSUE_KEY", .vstr "DW-4"), ("PROJECT_TYPE", .vstr "internal"),
   ("PROJECT_TYPE_FOLDER", .vstr "poc"),
   ("ENVIRONMENT", .vlist [.vstr "dev"]), ("PROJECT_NAME", .vstr "myapp")]

/-- Witness for C3: with both `DATASECURITY` and `FOLDER_NAME` missing,
the aggregate error message names both fields and both error comments are
emitted. -/
theorem c3_missing_mandatory_fields_witness :
    (check_mandatory_fields project_creation_ticket_fields c3Cfg).2 =
      .error "Missing mandatory fields: DATASECURITY, FOLDER_NAME" ∧
    strContainsSub "Missing mandatory fields: DATASECURITY, FOLDER_NAME" "DATASECURITY" ∧
    strContainsSub "Missing mandatory fields: DATASECURITY, FOLDER_NAME" "FOLDER_NAME" ∧
    "Mandatory field DATASECURITY is missing in the request." ∈
      (check_mandatory_fields project_creation_ticket_fields c3Cfg).1 ∧
    "Mandatory field FOLDER_NAME is missing in the request." ∈
      (check_mandatory_fields project_creation_ticket_fields c3Cfg).1 := by
  have hds : (("DATASECURITY",
      (⟨"dropdown", "customfield_10550", "DATASECURITY", true, none, ""⟩ : FieldConfig)) ∈
        project_creation_ticket_fields) := List.mem_cons_self _ _
  have h := c3_missing_mandatory_fields project_creation_ticket_fields c3Cfg
    ⟨_, hds, rfl, rfl⟩
  obtain ⟨missing, hdef, herr, hper⟩ := h
  have hmissing : missing = ["DATASECURITY", "FOLDER_NAME"] := hdef
  have h1 := hper _ hds rfl rfl
  have hfn : (("FOLDER_NAME",
      (⟨"textfield", "customfield_10578", "FOLDER_NAME", true, some (word_pattern 3 30),
        "FOLDER_NAME must be alphanumeric and between 3 and 30 characters long."⟩ :
        FieldConfig)) ∈ project_creation_ticket_fields) := by
    simp [project_creation_ticket_fields]
  have h2 := hper _ hfn rfl rfl
  rw [hmissing] at herr h1 h2
  exact ⟨herr, h1.1, h2.1, h1.2, h2.2⟩

/-! ## Claim C4: numeric-field processing -/

/-- Claim C4: for a numeric field with a validation pattern, a raw string
value matching the pattern is converted with `float()` and stored under
the destination key; a value that does not match, or whose conversion
fails, leaves the destination key unset (the map is returned unchanged)
and records one field-level error, and the field loop continues with the
remaining fields. -/
theorem c4_numericfield (fc : FieldConfig) (pat : String → Bool) (s : String)
    (cfg : ConfigData)
    (hty : fc.ftype = "numericfield") (hval : fc.validation = some pat) :
    (∀ q : ℚ, pat s = true → pyFloat s = some q →
      process_numericfield fc (some (.vstr s)) cfg =
        .ok (cfgInsert cfg fc.output_name (.vnum q), [])) ∧
    (pat s = false →
      process_numericfield fc (some (.vstr s)) cfg =
        .ok (cfg, ["Invalid value " ++ s ++ " for " ++ fc.output_name ++ ". " ++
          fc.regex_error_message])) ∧
    (pat s = true → pyFloat s = none →
      process_numericfield fc (some (.vstr s)) cfg =
        .ok (cfg, ["Could not convert " ++ s ++ " to float for " ++
          fc.output_name ++ "."])) ∧
    (∀ (k : String) (rest : List (String × FieldConfig)) (payload : List (String × Val)),
      cfgGet payload fc.input_name = some (.vstr s) → pat s = false →
      parse_fields_loop payload cfg ((k, fc) :: rest) =
        match parse_fields_loop payload cfg rest with
        | .error e => .error e
        | .ok (cfg2, cs) =>
          .ok (cfg2, ("Invalid value " ++ s ++ " for " ++ fc.output_name ++ ". " ++
            fc.regex_error_message) :: cs)) := by
  have hmatch : ∀ hpat : pat s = true, ∀ r, pyFloat s = r →
      process_numericfield fc (some (.vstr s)) cfg =
        (match r with
         | some q => .ok (cfgInsert cfg fc.output_name (.vnum q), [])
         | none => .ok (cfg, ["Could not convert " ++ s ++ " to float for " ++
             fc.output_name ++ "."])) := by
    intro hpat r hr
    rw [process_numericfield]
    simp only [pyStrOfVal, hval, hpat, if_true, hr]
  have hmiss : pat s = false →
      process_numericfield fc (some (.vstr s)) cfg =
        .ok (cfg, ["Invalid value " ++ s ++ " for " ++ fc.output_name ++ ". " ++
          fc.regex_error_message]) := by
    intro hpat
    rw [process_numericfield]
    simp only [pyStrOfVal, hval, hpat, Bool.false_eq_true, if_false]
  refine ⟨?_, hmiss, ?_, ?_⟩
  · intro q hpat hq
    exact hmatch hpat _ hq
  · intro hpat hq
    exact hmatch hpat _ hq
  · intro k rest payload hpay hpat
    rw [parse_fields_loop]
    rw [show process_field payload fc cfg =
        .ok (cfg, ["Invalid value " ++ s ++ " for " ++ fc.output_name ++ ". " ++
          fc.regex_error_message]) from by
      rw [process_field, hpay]
      simp only [hty]
      norm_num
      exact hmiss hpat]
    dsimp only
    cases hrest : parse_fields_loop payload cfg rest with
    | error e => rfl
    | ok st =>
      obtain ⟨cfg2, cs⟩ := st
      rfl

/-- The `BUDGET_DEV` field configuration. -/
def fcBudgetDev : FieldConfig :=
  ⟨"numericfield", "customfield_10579", "BUDGET_DEV", false, some budget_validation,
   "BUDGET_DEV must be a numeric value with up to 10 digits before and 5 digits after the decimal point."⟩

/-- Witness for C4: the value `12.5` matches the budget pattern and is
stored as the float `12.5`; the value `abc` does not match, leaves the key
unset and records a field-level error while the loop continues to the
next field. -/
theorem c4_numericfield_witness :
    mkRat 25 2 = (12.5 : ℚ) ∧
    process_numericfield fcBudgetDev (some (.vstr "12.5")) [] =
      .ok (cfgInsert [] "BUDGET_DEV" (.vnum (mkRat 25 2)), []) ∧
    process_numericfield fcBudgetDev (some (.vstr "abc")) [] =
      .ok ([], ["Invalid value abc for BUDGET_DEV. " ++ fcBudgetDev.regex_error_message]) := by
  refine ⟨by rw [Rat.mkRat_eq_div]; norm_num, ?_, ?_⟩
  · exact (c4_numericfield fcBudgetDev budget_validation "12.5" [] rfl rfl).1
      (mkRat 25 2) (by decide) (by decide)
  · exact (c4_numericfield fcBudgetDev budget_validation "abc" [] rfl rfl).2.1 (by decide)

/-! ## Base64 and UTF-8 (`base64.b64encode/b64decode`, `str.encode`),
used by `BaseProvisioner.encode_yaml_file` and
`GitHubRepoManager.compare_existing_file`. -/

/-- The base64 alphabet. -/
def b64Alphabet : List Char :=
  ['A', 'B', 'C', 'D', 'E', 'F', 'G', 'H', 'I', 'J', 'K', 'L', 'M',
   'N', 'O', 'P', 'Q', 'R', 'S', 'T', 'U', 'V', 'W', 'X', 'Y', 'Z',
   'a', 'b', 'c', 'd', 'e', 'f', 'g', 'h', 'i', 'j', 'k', 'l', 'm',
   'n', 'o', 'p', 'q', 'r', 's', 't', 'u', 'v', 'w', 'x', 'y', 'z',
   '0', '1', '2', '3', '4', '5', '6', '7', '8', '9', '+', '/']

/-- The base64 digit for a 6-bit value. -/
def b64Char (n : Nat) : Char :=
  b64Alphabet.getD n 'A'

/-- The 6-bit value of a base64 digit. -/
def b64Val (c : Char) : Option Nat :=
  if c ∈ b64Alphabet then some (b64Alphabet.indexOf c) else none

/-- `base64.b64encode` on a byte list: 3-byte groups become 4 digits, a
final 1- or 2-byte group is padded with `=`. -/
def b64encodeBytes : List Nat → List Char
  | [] => []
  | [a] => [b64Char (a / 4), b64Char (a % 4 * 16), '=', '=']
  | [a, b] => [b64Char (a / 4), b64Char (a % 4 * 16 + b / 16), b64Char (b % 16 * 4), '=']
  | a :: b :: c :: rest =>
    b64Char (a / 4) :: b64Char (a % 4 * 16 + b / 16) :: b64Char (b % 16 * 4 + c / 64) ::
      b64Char (c % 64) :: b64encodeBytes rest

/-- `base64.b64decode` on a character list: properly padded 4-digit
groups; anything else is a decoding error. -/
def b64decodeChars : List Char → Option (List Nat)
  | [] => some []
  | a :: b :: c :: d :: rest =>
    if rest.isEmpty then
      if c = '=' ∧ d = '=' then do
        let va ← b64Val a
        let vb ← b64Val b
        pure [va * 4 + vb / 16]
      else if d = '=' then do
        let va ← b64Val a
        let vb ← b64Val b
        let vc ← b64Val c
        pure [va * 4 + vb / 16, vb % 16 * 16 + vc / 4]
      else do
        let va ← b64Val a
        let vb ← b64Val b
        let vc ← b64Val c
        let vd ← b64Val d
        pure [va * 4 + vb / 16, vb % 16 * 16 + vc / 4, vc % 4 * 64 + vd]
    else do
      let va ← b64Val a
      let vb ← b64Val b
      let vc ← b64Val c
      let vd ← b64Val d
      let tail ← b64decodeChars rest
      pure ((va * 4 + vb / 16) :: (vb % 16 * 16 + vc / 4) :: (vc % 4 * 64 + vd) :: tail)
  | _ => none

/-- UTF-8 encoding of one character. -/
def utf8EncodeChar (c : Char) : List Nat :=
  let n := c.toNat
  if n < 0x80 then [n]
  else if n < 0x800 then [0xC0 + n / 0x40, 0x80 + n % 0x40]
  else if n < 0x10000 then
    [0xE0 + n / 0x1000, 0x80 + n / 0x40 % 0x40, 0x80 + n % 0x40]
  else
    [0xF0 + n / 0x40000, 0x80 + n / 0x1000 % 0x40, 0x80 + n / 0x40 % 0x40, 0x80 + n % 0x40]

/-- Python `s.encode("utf-8")`. -/
def strToBytes (s : String) : List Nat :=
  s.data.foldr (fun c acc => utf8EncodeChar c ++ acc) []

/-- One byte of UTF-8 decoding (`bytes.decode("utf-8")` as a byte
automaton): `need` continuation bytes are still expected for the code
point accumulated in `acc`. -/
def utf8DecAux : Nat → Nat → List Nat → Option (List Char)
  | 0, _, [] => some []
  | _ + 1, _, [] => none
  | 0, _, b :: rest =>
    if b < 0x80 then (utf8DecAux 0 0 rest).map (fun cs => Char.ofNat b :: cs)
    else if b < 0xC0 then none
    else if b < 0xE0 then utf8DecAux 1 (b - 0xC0) rest
    else if b < 0xF0 then utf8DecAux 2 (b - 0xE0) rest
    else utf8DecAux 3 (b - 0xF0) rest
  | 1, acc, b :: rest =>
    if 0x80 ≤ b ∧ b < 0xC0 then
      (utf8DecAux 0 0 rest).map (fun cs => Char.ofNat (acc * 0x40 + (b - 0x80)) :: cs)
    else none
  | need + 2, acc, b :: rest =>
    if 0x80 ≤ b ∧ b < 0xC0 then utf8DecAux (need + 1) (acc * 0x40 + (b - 0x80)) rest
    else none

/-- UTF-8 decoding of a byte list (`bytes.decode("utf-8")`). -/
def utf8DecodeBytes (bs : List Nat) : Option (List Char) :=
  utf8DecAux 0 0 bs

/-- `base64.b64encode(s.encode("utf-8")).decode("utf-8")`, the encoding
used by `encode_yaml_file` and by the GitHub contents API. -/
def b64encodeString (s : String) : String :=
  String.mk (b64encodeBytes (strToBytes s))

/-- `base64.b64decode(s).decode("utf-8")`. -/
def b64decodeString (s : String) : Option String :=
  (b64decodeChars s.data).bind fun bs => (utf8DecodeBytes bs).map String.mk

/-- Python `s.strip()`. -/
def pyStrip (s : String) : String :=
  String.mk (pyStripChars s.data)

/-! ## Idempotent commit (`GitHubRepoManager`, claim C7) -/

/-- `GitHubRepoManager.commit_file_in_branch` with the repository state at
the target path/branch abstracted as `existing` (the base64 content the
contents API holds there, `none` when absent): a fresh path commits
cleanly; an occupied path (the 422 response) is compared via
`compare_existing_file`, which decodes both contents and accepts exactly
when the stripped decoded texts coincide, raising `FileExistsError`
otherwise. -/
def commit_file_in_branch (file_path branch : String) (existing : Option String)
    (yaml_content_encoded : String) : Except String Unit :=
  match existing with
  | none => .ok ()
  | some existing_encoded =>
    match b64decodeString existing_encoded, b64decodeString yaml_content_encoded with
    | some existing_decoded, some new_decoded =>
      if pyStrip existing_decoded = pyStrip new_decoded then .ok ()
      else .error ("FileExistsError: File " ++ file_path ++ " already exists in branch " ++
        branch ++ " with different content.")
    | _, _ => .error "binascii.Error: invalid base64-encoded content"

theorem b64Val_b64Char : ∀ n, n < 64 → b64Val (b64Char n) = some n := by decide

theorem b64Char_ne_pad (n : Nat) : b64Char n ≠ '=' := by
  rcases Nat.lt_or_ge n 64 with h | h
  · revert h
    revert n
    decide
  · rw [b64Char, List.getD_eq_default]
    · decide
    · simpa [b64Alphabet] using h

theorem b64encodeBytes_ne_nil : ∀ {bs : List Nat}, bs ≠ [] → b64encodeBytes bs ≠ []
  | [], h => absurd rfl h
  | [a], _ => by rw [b64encodeBytes]; simp
  | [a, b], _ => by rw [b64encodeBytes]; simp
  | a :: b :: c :: rest, _ => by rw [b64encodeBytes]; simp

theorem b64_roundtrip : ∀ (bs : List Nat), (∀ x ∈ bs, x < 256) →
    b64decodeChars (b64encodeBytes bs) = some bs
  | [], _ => rfl
  | [a], h => by
    have ha : a < 256 := h a (by simp)
    rw [b64encodeBytes, b64decodeChars]
    rw [if_pos (by simp), if_pos ⟨rfl, rfl⟩]
    rw [b64Val_b64Char _ (by omega), b64Val_b64Char _ (by omega)]
    simp only [Option.bind_eq_bind, Option.some_bind, Option.pure_def, Option.some.injEq,
      List.cons.injEq, and_true]
    omega
  | [a, b], h => by
    have ha : a < 256 := h a (by simp)
    have hb : b < 256 := h b (by simp)
    rw [b64encodeBytes, b64decodeChars]
    rw [if_pos (by simp)]
    rw [if_neg (by rintro ⟨hc, -⟩; exact b64Char_ne_pad _ hc)]
    rw [if_pos rfl]
    rw [b64Val_b64Char _ (by omega), b64Val_b64Char _ (by omega), b64Val_b64Char _ (by omega)]
    simp only [Option.bind_eq_bind, Option.some_bind, Option.pure_def, Option.some.injEq,
      List.cons.injEq, and_true]
    refine ⟨by omega, by omega⟩
  | a :: b :: c :: rest, h => by
    have ha : a < 256 := h a (by simp)
    have hb : b < 256 := h b (by simp)
    have hc : c < 256 := h c (by simp)
    have ih := b64_roundtrip rest (fun x hx => h x (by simp [hx]))
    rw [b64encodeBytes]
    cases hrest : rest with
    | nil =>
      rw [show b64encodeBytes [] = [] from rfl, b64decodeChars]
      rw [if_pos (by simp)]
      rw [if_neg (by rintro ⟨hp, -⟩; exact b64Char_ne_pad _ hp)]
      rw [if_neg (fun hp => b64Char_ne_pad _ hp)]
      rw [b64Val_b64Char _ (by omega), b64Val_b64Char _ (by omega),
        b64Val_b64Char _ (by omega), b64Val_b64Char _ (by omega)]
      simp only [Option.bind_eq_bind, Option.some_bind, Option.pure_def, Option.some.injEq,
        List.cons.injEq, and_true]
      refine ⟨by omega, by omega, by omega⟩
    | cons r rs =>
      rw [hrest] at ih
      rw [b64decodeChars]
      rw [if_neg (by
        simpa [List.isEmpty_iff] using b64encodeBytes_ne_nil (by simp))]
      rw [b64Val_b64Char _ (by omega), b64Val_b64Char _ (by omega),
        b64Val_b64Char _ (by omega), b64Val_b64Char _ (by omega), ih]
      simp only [Option.bind_eq_bind, Option.some_bind, Option.pure_def, Option.some.injEq,
        List.cons.injEq, and_true]
      refine ⟨by omega, by omega, by omega⟩

theorem utf8_decode_encode_cons (c : Char) (bs : List Nat) :
    utf8DecAux 0 0 (utf8EncodeChar c ++ bs) =
      (utf8DecAux 0 0 bs).map (fun cs => c :: cs) := by
  have hv : c.toNat < 0x110000 := by
    rcases c.valid with h | ⟨-, h2⟩
    · exact lt_trans h (by norm_num)
    · exact h2
  rw [utf8EncodeChar]
  by_cases h1 : c.toNat < 0x80
  · rw [if_pos h1, List.cons_append, List.nil_append, utf8DecAux]
    rw [if_pos h1, Char.ofNat_toNat]
  · rw [if_neg h1]
    by_cases h2 : c.toNat < 0x800
    · rw [if_pos h2, List.cons_append, List.cons_append, List.nil_append, utf8DecAux]
      rw [if_neg (by omega), if_neg (by omega), if_pos (by omega), utf8DecAux]
      rw [if_pos (by constructor <;> omega)]
      rw [show (0xC0 + c.toNat / 0x40 - 0xC0) * 0x40 + (0x80 + c.toNat % 0x40 - 0x80) =
        c.toNat by omega, Char.ofNat_toNat]
    · rw [if_neg h2]
      by_cases h3 : c.toNat < 0x10000
      · rw [if_pos h3, List.cons_append, List.cons_append, List.cons_append, List.nil_append,
          utf8DecAux]
        rw [if_neg (by omega), if_neg (by omega), if_neg (by omega), if_pos (by omega),
          utf8DecAux]
        rw [if_pos (by constructor <;> omega), utf8DecAux]
        rw [if_pos (by constructor <;> omega)]
        rw [show ((0xE0 + c.toNat / 0x1000 - 0xE0) * 0x40 +
          (0x80 + c.toNat / 0x40 % 0x40 - 0x80)) * 0x40 + (0x80 + c.toNat % 0x40 - 0x80) =
          c.toNat by omega, Char.ofNat_toNat]
      · rw [if_neg h3, List.cons_append, List.cons_append, List.cons_append, List.cons_append,
          List.nil_append, utf8DecAux]
        rw [if_neg (by omega), if_neg (by omega), if_neg (by omega), if_neg (by omega),
          utf8DecAux]
        rw [if_pos (by constructor <;> omega), utf8DecAux]
        rw [if_pos (by constructor <;> omega), utf8DecAux]
        rw [if_pos (by constructor <;> omega)]
        rw [show (((0xF0 + c.toNat / 0x40000 - 0xF0) * 0x40 +
          (0x80 + c.toNat / 0x1000 % 0x40 - 0x80)) * 0x40 +
          (0x80 + c.toNat / 0x40 % 0x40 - 0x80)) * 0x40 + (0x80 + c.toNat % 0x40 - 0x80) =
          c.toNat by omega, Char.ofNat_toNat]

theorem utf8EncodeChar_bytes_lt (c : Char) : ∀ x ∈ utf8EncodeChar c, x < 256 := by
  have hv : c.toNat < 0x110000 := by
    rcases c.valid with h | ⟨-, h2⟩
    · exact lt_trans h (by norm_num)
    · exact h2
  rw [utf8EncodeChar]
  intro x hx
  split at hx
  · simp at hx
    omega
  · split at hx
    · simp at hx
      rcases hx with rfl | rfl <;> omega
    · split at hx
      · simp at hx
        rcases hx with rfl | rfl | rfl <;> omega
      · simp at hx
        rcases hx with rfl | rfl | rfl | rfl <;> omega

theorem utf8_roundtrip (s : String) : utf8DecodeBytes (strToBytes s) = some s.data := by
  rw [strToBytes, utf8DecodeBytes]
  induction s.data with
  | nil => rfl
  | cons c rest ih =>
    rw [List.foldr_cons, utf8_decode_encode_cons, ih]
    rfl

/-- Encoded strings decode back to themselves. -/
theorem b64_string_roundtrip (s : String) :
    b64decodeString (b64encodeString s) = some s := by
  have hbytes : ∀ x ∈ strToBytes s, x < 256 := by
    rw [strToBytes]
    induction s.data with
    | nil => simp
    | cons c rest ih =>
      rw [List.foldr_cons]
      intro x hx
      rcases List.mem_append.mp hx with hx1 | hx2
      · exact utf8EncodeChar_bytes_lt c x hx1
      · exact ih x hx2
  rw [b64encodeString, b64decodeString]
  rw [show (String.mk (b64encodeBytes (strToBytes s))).data = b64encodeBytes (strToBytes s)
    from rfl]
  rw [b64_roundtrip _ hbytes]
  simp only [Option.some_bind, utf8_roundtrip]
  rfl

/-- Counterexample to claim C7 as stated: the existing decoded content
`"a\n"` differs from the newly committed decoded content `"a"`, yet
`commit_file_in_branch` completes without raising `FileExistsError`,
because `compare_existing_file` strips both contents before comparing. -/
theorem c7_commit_idempotence_counterexample :
    b64decodeString (b64encodeString "a\n") = some "a\n" ∧
    b64decodeString (b64encodeString "a") = some "a" ∧
    ("a\n" : String) ≠ "a" ∧
    commit_file_in_branch "terraform/project.yaml" "ISSUE-1"
      (some (b64encodeString "a\n")) (b64encodeString "a") = Except.ok () :=
  ⟨rfl, rfl, by decide, rfl⟩

/-- Claim C7 (amended): committing to a fresh path/branch always succeeds;
committing onto existing content succeeds exactly when the stripped decoded
contents coincide (so trailing/leading whitespace differences are treated
as identical), and raises `FileExistsError` exactly when the stripped
decoded contents differ. -/
theorem c7_commit_idempotent_up_to_strip (file_path branch e n : String) :
    commit_file_in_branch file_path branch none (b64encodeString n) = Except.ok () ∧
    (pyStrip e = pyStrip n →
      commit_file_in_branch file_path branch (some (b64encodeString e)) (b64encodeString n) =
        Except.ok ()) ∧
    (pyStrip e ≠ pyStrip n →
      commit_file_in_branch file_path branch (some (b64encodeString e)) (b64encodeString n) =
        Except.error ("FileExistsError: File " ++ file_path ++ " already exists in branch " ++
          branch ++ " with different content.")) := by
  refine ⟨rfl, ?_, ?_⟩
  · intro h
    simp only [commit_file_in_branch, b64_string_roundtrip]
    rw [if_pos h]
  · intro h
    simp only [commit_file_in_branch, b64_string_roundtrip]
    rw [if_neg h]

/-- Witness for the amended C7: a fresh commit, a stripped-equal re-commit
and a genuinely different re-commit behave as stated on concrete contents. -/
theorem c7_commit_idempotent_up_to_strip_witness :
    commit_file_in_branch "terraform/folder.yaml" "ISSUE-2" none
      (b64encodeString "x: 1") = Except.ok () ∧
    commit_file_in_branch "terraform/folder.yaml" "ISSUE-2" (some (b64encodeString "x: 1"))
      (b64encodeString "x: 1") = Except.ok () ∧
    commit_file_in_branch "terraform/folder.yaml" "ISSUE-2" (some (b64encodeString "y: 2"))
      (b64encodeString "x: 1") =
      Except.error
        "FileExistsError: File terraform/folder.yaml already exists in branch ISSUE-2 with different content." :=
  ⟨(c7_commit_idempotent_up_to_strip "terraform/folder.yaml" "ISSUE-2" "y: 2" "x: 1").1,
   (c7_commit_idempotent_up_to_strip "terraform/folder.yaml" "ISSUE-2" "x: 1" "x: 1").2.1
     (by decide),
   (c7_commit_idempotent_up_to_strip "terraform/folder.yaml" "ISSUE-2" "y: 2" "x: 1").2.2
     (by decide)⟩

/-! ## Ticket comment/transition traffic (`AppManager.push_to_github` and
`handle_jira_webhook`, claim C2)

`push_to_github` iterates over `github_payload.values()`: for every unit it
commits the files, opens a PR, and then emits one Jira comment plus one
status transition (`Set as done` for auto-approved units, `Set as to be
reviewed` otherwise).  A failing unit raises in the GitHub layer, and the
class of the raised object decides which handlers run.  Most raises are
`Exception` subclasses (`requests.exceptions.RequestException`,
`FileExistsError`, `KeyError`, `yaml.YAMLError`, plain `Exception`, never
`GcpProvisioningError`): those hit `push_to_github`'s `except Exception`
handler (one error comment plus `Set as blocked`, then a bare re-raise)
and then `handle_jira_webhook`'s catch-all `except Exception`, which emits
a second error comment plus `Set as blocked`.  But two sites raise a bare
`BaseException`: `get_latest_sha_from_branch` wraps every failure of the
SHA fetch in `raise BaseException("Check if file exist")`, and
`commit_file_in_branch`'s fallback handler raises
`BaseException(f"An unexpected error occurred while creating the file: ...")`.
`BaseException` is not an `Exception`, so it is caught by none of
`_commit_new_file`'s handlers, not by `push_to_github`'s `except Exception`,
and by no handler in `handle_jira_webhook` (all of whose clauses name
`Exception` subclasses): the push aborts with no error comment and no
transition at all.  On full success `handle_jira_webhook` additionally
calls `change_issue_status("Set as done")` once more, a bare transition
with no comment. -/

/-- A Jira side effect: `add_comment_to_jira_issue` (comment type and
text) or `change_issue_status` (transition name). -/
inductive JEvent
  | comment (ctype text : String)
  | transition (tname : String)

/-- The class of the object a failing unit raises in the GitHub layer:
`exc` for `Exception` subclasses (request errors, `FileExistsError`,
`KeyError`, `yaml.YAMLError`, plain `Exception`), `base` for the bare
`BaseException` raised by `get_latest_sha_from_branch` and by
`commit_file_in_branch`'s fallback handler. -/
inductive PushErr
  | exc (msg : String)
  | base (msg : String)

/-- One value of `github_payload`: its `autoapprove` flag and the outcome
of its GitHub operations (`pr_url` on success, the raised object
otherwise). -/
structure PushUnit where
  autoapprove : Bool
  pr_result : Except PushErr String

/-- The comment-plus-transition pair `push_to_github` emits for one
successfully pushed unit. -/
def unitPair (auto : Bool) (url : String) : List JEvent :=
  if auto then
    [JEvent.comment "info" ("Created and auto-approved PR at " ++ url),
     JEvent.transition "Set as done"]
  else
    [JEvent.comment "manual" ("Created a PR that needs manual approval at " ++ url),
     JEvent.transition "Set as to be reviewed"]

/-- The Jira events `push_to_github` emits on a payload, together with the
object it lets propagate (if any): one `unitPair` per unit until the first
failing unit.  If that unit raises an `Exception` subclass, the
`except Exception` handler emits one error pair and re-raises; if it
raises the GitHub layer's bare `BaseException`, no handler in
`push_to_github` matches and the loop aborts with no events. -/
def push_to_github_trace : List PushUnit → List JEvent × Option PushErr
  | [] => ([], none)
  | u :: rest =>
    match u.pr_result with
    | Except.error (PushErr.exc e) =>
      ([JEvent.comment "error" ("An unexpected error occurred during GitHub push: " ++ e),
        JEvent.transition "Set as blocked"], some (PushErr.exc e))
    | Except.error (PushErr.base e) => ([], some (PushErr.base e))
    | Except.ok url =>
      let t := push_to_github_trace rest
      (unitPair u.autoapprove url ++ t.1, t.2)

/-- The Jira events of `handle_jira_webhook` from the push step on: the
push trace, then on success one extra bare `Set as done` transition
(main.py line 44); on a propagating `Exception` the catch-all handler's
second error comment plus `Set as blocked`; on a propagating
`BaseException` nothing, since every `except` clause in
`handle_jira_webhook` names an `Exception` subclass. -/
def handle_jira_webhook_push (units : List PushUnit) : List JEvent :=
  let t := push_to_github_trace units
  match t.2 with
  | none => t.1 ++ [JEvent.transition "Set as done"]
  | some (PushErr.exc e) =>
    t.1 ++ [JEvent.comment "error" e, JEvent.transition "Set as blocked"]
  | some (PushErr.base _) => t.1

/-- The number of comment-followed-by-transition pairs in an event trace. -/
def terminalPairs : List JEvent → Nat
  | JEvent.comment _ _ :: JEvent.transition _ :: rest => 1 + terminalPairs rest
  | _ :: rest => terminalPairs rest
  | [] => 0

theorem terminalPairs_unitPair (a : Bool) (url : String) (evs : List JEvent) :
    terminalPairs (unitPair a url ++ evs) = 1 + terminalPairs evs := by
  cases a <;> rfl

theorem push_trace_all_ok (units : List PushUnit)
    (h : ∀ u ∈ units, ∃ url, u.pr_result = Except.ok url) :
    (push_to_github_trace units).2 = none ∧
    ∀ evs, terminalPairs ((push_to_github_trace units).1 ++ evs) =
      units.length + terminalPairs evs := by
  induction units with
  | nil => exact ⟨rfl, fun evs => by simp [push_to_github_trace]⟩
  | cons u rest ih =>
    obtain ⟨url, hu⟩ := h u (by simp)
    obtain ⟨ih2, ihterm⟩ := ih (fun v hv => h v (by simp [hv]))
    rw [push_to_github_trace, hu]
    dsimp only
    refine ⟨ih2, fun evs => ?_⟩
    rw [List.append_assoc, terminalPairs_unitPair, ihterm]
    simp only [List.length_cons]
    omega

/-- How many error pairs `push_to_github`'s handlers emit for a raised
object of the given class: one for an `Exception` subclass, none for a
bare `BaseException`. -/
def pushErrPairs : PushErr → Nat
  | PushErr.exc _ => 1
  | PushErr.base _ => 0

theorem push_trace_first_error (pre : List PushUnit) (u : PushUnit) (post : List PushUnit)
    (pe : PushErr) (hpre : ∀ v ∈ pre, ∃ url, v.pr_result = Except.ok url)
    (hu : u.pr_result = Except.error pe) :
    (push_to_github_trace (pre ++ u :: post)).2 = some pe ∧
    ∀ evs, terminalPairs ((push_to_github_trace (pre ++ u :: post)).1 ++ evs) =
      pre.length + pushErrPairs pe + terminalPairs evs := by
  induction pre with
  | nil =>
    cases pe with
    | exc e =>
      rw [List.nil_append, push_to_github_trace, hu]
      exact ⟨rfl, fun evs => by simp [terminalPairs, pushErrPairs]⟩
    | base e =>
      rw [List.nil_append, push_to_github_trace, hu]
      exact ⟨rfl, fun evs => by simp [terminalPairs, pushErrPairs]⟩
  | cons v rest ih =>
    obtain ⟨url, hv⟩ := hpre v (by simp)
    obtain ⟨ih2, ihterm⟩ := ih (fun w hw => hpre w (by simp [hw]))
    rw [List.cons_append, push_to_github_trace, hv]
    dsimp only
    refine ⟨ih2, fun evs => ?_⟩
    rw [List.append_assoc, terminalPairs_unitPair, ihterm]
    simp only [List.length_cons]
    omega

/-- Counterexample to claim C2 as stated, in both directions: a request
whose payload holds two successfully pushed units (one auto-approved, one
manual) gives the ticket two terminal comment-plus-transition pairs, not
at most one; and a request whose only unit fails with the GitHub layer's
bare `BaseException` (a failed SHA fetch in `get_latest_sha_from_branch`)
gives the ticket zero terminal pairs, not the claimed one error pair. -/
theorem c2_single_terminal_pair_counterexample :
    (terminalPairs (handle_jira_webhook_push
      [{ autoapprove := true, pr_result := Except.ok "https://github.com/acme/iac/pull/7" },
       { autoapprove := false, pr_result := Except.ok "https://github.com/acme/iac/pull/8" }]) =
      2 ∧
    ¬ terminalPairs (handle_jira_webhook_push
      [{ autoapprove := true, pr_result := Except.ok "https://github.com/acme/iac/pull/7" },
       { autoapprove := false, pr_result := Except.ok "https://github.com/acme/iac/pull/8" }]) ≤
      1) ∧
    terminalPairs (handle_jira_webhook_push
      [{ autoapprove := true,
         pr_result := Except.error (PushErr.base "Check if file exist") }]) = 0 :=
  ⟨⟨rfl, by decide⟩, rfl⟩

/-- Claim C2 (amended): the ticket receives one comment-plus-transition
pair per publish unit, not per request, and the failure path depends on
the class of the raised object.  When every unit pushes successfully there
are exactly as many terminal pairs as units (followed by one extra bare
`Set as done` transition from the webhook handler).  When the first
failing unit raises an `Exception` subclass, the units already pushed keep
their pairs and two error pairs follow, one from `push_to_github`'s
`except Exception` handler and one from the webhook's catch-all handler.
But when the first failing unit raises the GitHub layer's bare
`BaseException` (`get_latest_sha_from_branch`, or `commit_file_in_branch`'s
fallback), no handler matches: the ticket keeps only the already-pushed
units' pairs and receives no error comment and no blocked transition at
all. -/
theorem c2_terminal_pairs_per_unit (units : List PushUnit) :
    ((∀ u ∈ units, ∃ url, u.pr_result = Except.ok url) →
      terminalPairs (handle_jira_webhook_push units) = units.length) ∧
    (∀ pre u post e, units = pre ++ u :: post →
      (∀ v ∈ pre, ∃ url, v.pr_result = Except.ok url) →
      u.pr_result = Except.error (PushErr.exc e) →
      terminalPairs (handle_jira_webhook_push units) = pre.length + 2) ∧
    (∀ pre u post e, units = pre ++ u :: post →
      (∀ v ∈ pre, ∃ url, v.pr_result = Except.ok url) →
      u.pr_result = Except.error (PushErr.base e) →
      terminalPairs (handle_jira_webhook_push units) = pre.length) := by
  refine ⟨?_, ?_, ?_⟩
  · intro h
    obtain ⟨h2, hterm⟩ := push_trace_all_ok units h
    rw [handle_jira_webhook_push, h2]
    dsimp only
    rw [hterm]
    rfl
  · intro pre u post e hsplit hpre hu
    subst hsplit
    obtain ⟨h2, hterm⟩ := push_trace_first_error pre u post (PushErr.exc e) hpre hu
    rw [handle_jira_webhook_push, h2]
    dsimp only
    rw [hterm]
    rfl
  · intro pre u post e hsplit hpre hu
    subst hsplit
    obtain ⟨h2, hterm⟩ := push_trace_first_error pre u post (PushErr.base e) hpre hu
    rw [handle_jira_webhook_push, h2]
    dsimp only
    have h3 := hterm []
    rw [List.append_nil] at h3
    exact h3

/-- Witness for the amended C2: one successful single-unit push yields one
pair; a three-unit payload whose second unit raises a `FileExistsError`
(an `Exception`) yields three pairs (one pushed unit, then the two error
pairs); a two-unit payload whose second unit raises the bare
`BaseException` of a failed SHA fetch yields only the first unit's pair. -/
theorem c2_terminal_pairs_per_unit_witness :
    terminalPairs (handle_jira_webhook_push
      [{ autoapprove := true, pr_result := Except.ok "https://github.com/acme/iac/pull/1" }]) =
      1 ∧
    terminalPairs (handle_jira_webhook_push
      [{ autoapprove := true, pr_result := Except.ok "https://github.com/acme/iac/pull/1" },
       { autoapprove := false, pr_result := Except.error (PushErr.exc "FileExistsError") },
       { autoapprove := true, pr_result := Except.ok "https://github.com/acme/iac/pull/3" }]) =
      3 ∧
    terminalPairs (handle_jira_webhook_push
      [{ autoapprove := true, pr_result := Except.ok "https://github.com/acme/iac/pull/1" },
       { autoapprove := false,
         pr_result := Except.error (PushErr.base "Check if file exist") }]) =
      1 :=
  ⟨(c2_terminal_pairs_per_unit _).1
      (by intro u hu; rw [List.mem_singleton] at hu; subst hu
          exact ⟨"https://github.com/acme/iac/pull/1", rfl⟩),
   (c2_terminal_pairs_per_unit _).2.1
      [{ autoapprove := true, pr_result := Except.ok "https://github.com/acme/iac/pull/1" }]
      { autoapprove := false, pr_result := Except.error (PushErr.exc "FileExistsError") }
      [{ autoapprove := true, pr_result := Except.ok "https://github.com/acme/iac/pull/3" }]
      "FileExistsError" rfl
      (by intro v hv; rw [List.mem_singleton] at hv; subst hv
          exact ⟨"https://github.com/acme/iac/pull/1", rfl⟩)
      rfl,
   by
    have h := (c2_terminal_pairs_per_unit
      [{ autoapprove := true, pr_result := Except.ok "https://github.com/acme/iac/pull/1" },
       { autoapprove := false,
         pr_result := Except.error (PushErr.base "Check if file exist") }]).2.2
      [{ autoapprove := true, pr_result := Except.ok "https://github.com/acme/iac/pull/1" }]
      { autoapprove := false,
        pr_result := Except.error (PushErr.base "Check if file exist") }
      [] "Check if file exist" rfl
      (by intro v hv; rw [List.mem_singleton] at hv; subst hv
          exact ⟨"https://github.com/acme/iac/pull/1", rfl⟩)
      rfl
    exact h⟩

/-! ## YAML serialization of the synthesized documents (claim C9)

`BaseProvisioner.encode_yaml_file` runs `yaml.dump(yaml_data, indent=2)`
(PyYAML block style, keys sorted) and base64-encodes the UTF-8 bytes; the
decode direction (base64-decode then `yaml.safe_load`) is the spec's
round-trip reading.  The dumper and parser below model PyYAML on the
fragment of documents the synthesizers build: block mappings with
plain-scalar or nested-mapping or block-sequence values, sequences of
plain scalars or single-pair scalar mappings, scalars that are plain
strings, finite-decimal floats and booleans. -/

/-- ASCII letter. -/
def yLetter (c : Char) : Bool :=
  (65 ≤ c.toNat && c.toNat ≤ 90) || (97 ≤ c.toNat && c.toNat ≤ 122)

/-- ASCII digit. -/
def yDigit (c : Char) : Bool :=
  48 ≤ c.toNat && c.toNat ≤ 57

/-- Characters of the mapping keys the builders use. -/
def yKeyChar (c : Char) : Bool :=
  yLetter c || yDigit c || c = '_' || c = '-'

/-- A key the dumper can emit plainly: letter-headed, key characters
only (no colon, no newline). -/
def yKeyStr : List Char → Bool
  | [] => false
  | c :: rest => yLetter c && (c :: rest).all yKeyChar

/-- Characters of plain (unquoted) scalar strings. -/
def yPlainChar (c : Char) : Bool :=
  yKeyChar c || c = ' ' || c = '.' || c = '/'

/-- A string PyYAML writes as a plain scalar and `safe_load` reads back
as the same string: letter-headed (so it does not resolve as a number),
plain characters only, not a resolved keyword, no trailing blank. -/
def yPlainStr (l : List Char) : Bool :=
  match l with
  | [] => false
  | c :: _ =>
    yLetter c && l.all yPlainChar &&
      decide (l ≠ "true".data) && decide (l ≠ "false".data) && decide (l ≠ "null".data) &&
      (match l.getLast? with
       | some c2 => !(c2 = ' ')
       | none => false)

/-- Lexicographic order on key strings (PyYAML sorts keys with Python
string `<`, which on the builders' ASCII keys is code-point order). -/
def strLeChars : List Char → List Char → Bool
  | [], _ => true
  | _ :: _, [] => false
  | a :: as, b :: bs =>
    if a.toNat < b.toNat then true
    else if b.toNat < a.toNat then false
    else strLeChars as bs

/-- Order of mapping entries under `sort_keys=True`. -/
def keyLe (a b : String × Val) : Prop :=
  strLeChars a.1.data b.1.data = true

instance : DecidableRel keyLe := fun a b => by
  unfold keyLe
  infer_instance

/-- A scalar in the modelled fragment, as PyYAML writes it. -/
def scalarChars : Val → List Char
  | Val.vstr s => s.data
  | Val.vnum q => (renderNum q).getD []
  | Val.vbool true => "true".data
  | Val.vbool false => "false".data
  | Val.vnone => "null".data
  | _ => []

/-- A well-formed scalar: a plain string, an exact-decimal number or a
boolean. -/
def wfScalar : Val → Bool
  | Val.vstr s => yPlainStr s.data
  | Val.vnum q => (decScale q).isSome
  | Val.vbool _ => true
  | _ => false

/-- A well-formed sequence item: a plain scalar or a single-pair mapping
with a scalar value (the only item shapes the builders emit). -/
def wfItem : Val → Bool
  | Val.vmap [(k, w)] => yKeyStr k.data && wfScalar w
  | v => wfScalar v

mutual

/-- The modelled document fragment: scalars as in `wfScalar`, non-empty
sequences of `wfItem`s, non-empty mappings with plain distinct keys. -/
def wfVal : Val → Bool
  | Val.vnone => false
  | Val.vstr s => yPlainStr s.data
  | Val.vnum q => (decScale q).isSome
  | Val.vbool _ => true
  | Val.vlist l => !l.isEmpty && wfItems l
  | Val.vmap m => !m.isEmpty && wfEntries m

def wfItems : List Val → Bool
  | [] => true
  | v :: t => wfItem v && wfItems t

def wfEntries : List (String × Val) → Bool
  | [] => true
  | (k, v) :: t => yKeyStr k.data && wfVal v && (cfgGet t k).isNone && wfEntries t

end

mutual

/-- Key-sort every mapping of a value, recursively (the transformation
`yaml.dump(..., sort_keys=True)` applies before writing). -/
def sortVal : Val → Val
  | Val.vmap l => Val.vmap (List.insertionSort keyLe (sortValEntries l))
  | Val.vlist l => Val.vlist (sortValList l)
  | v => v

def sortValEntries : List (String × Val) → List (String × Val)
  | [] => []
  | (k, v) :: t => (k, sortVal v) :: sortValEntries t

def sortValList : List Val → List Val
  | [] => []
  | v :: t => sortVal v :: sortValList t

end

/-- The key-sorted form of a document dictionary. -/
def sortDoc (m : List (String × Val)) : List (String × Val) :=
  List.insertionSort keyLe (sortValEntries m)

mutual

/-- Python `==` on payload values: mappings compare as dictionaries
(same size, every key of the first looks up an equal value in the
second), sequences elementwise, scalars by value. -/
def pyEqVal : Val → Val → Bool
  | Val.vnone, Val.vnone => true
  | Val.vstr a, Val.vstr b => decide (a = b)
  | Val.vnum a, Val.vnum b => decide (a.num = b.num) && decide (a.den = b.den)
  | Val.vbool a, Val.vbool b => a == b
  | Val.vlist a, Val.vlist b => pyEqList a b
  | Val.vmap a, Val.vmap b => decide (a.length = b.length) && pyEqSub a b
  | _, _ => false

def pyEqList : List Val → List Val → Bool
  | [], [] => true
  | a :: as, b :: bs => pyEqVal a b && pyEqList as bs
  | _, _ => false

def pyEqSub : List (String × Val) → List (String × Val) → Bool
  | [], _ => true
  | (k, v) :: t, b =>
    (match cfgGet b k with
     | some w => pyEqVal v w
     | none => false) && pyEqSub t b

end

/-- `ind` spaces of block indentation. -/
def padC (n : Nat) : List Char := List.replicate n ' '

/-- A sequence item on one line: a plain scalar, or the single pair of a
one-entry mapping written inline after the dash. -/
def dumpItemChars : Val → List Char
  | Val.vmap [(k, w)] => k.data ++ ':' :: ' ' :: scalarChars w
  | w => scalarChars w

mutual

/-- The block lines of a mapping at indentation `ind` (PyYAML block
style, `indent=2`): scalar values inline after `key: `, nested mappings
indented two further, sequences indentless under their key. -/
def dumpEntries : Nat → List (String × Val) → List (List Char)
  | _, [] => []
  | ind, (k, v) :: t => dumpEntry ind k v ++ dumpEntries ind t

def dumpEntry (ind : Nat) (k : String) : Val → List (List Char)
  | Val.vmap mm => (padC ind ++ k.data ++ [':']) :: dumpEntries (ind + 2) mm
  | Val.vlist items => (padC ind ++ k.data ++ [':']) :: dumpItems ind items
  | w => [padC ind ++ k.data ++ ':' :: ' ' :: scalarChars w]

def dumpItems : Nat → List Val → List (List Char)
  | _, [] => []
  | ind, v :: t => (padC ind ++ '-' :: ' ' :: dumpItemChars v) :: dumpItems ind t

end

/-- Split a line at its first colon. -/
def splitColon : List Char → Option (List Char × List Char)
  | [] => none
  | c :: rest =>
    if c = ':' then some ([], rest)
    else (splitColon rest).map (fun p => (c :: p.1, p.2))

/-- Leading blanks of a line. -/
def lineIndentC (l : List Char) : Nat :=
  (l.takeWhile (fun c => c == ' ')).length

/-- Whether the line is a sequence item at indentation `ind`. -/
def isDashLine (l : List Char) (ind : Nat) : Bool :=
  ((l.drop ind).head? == some '-') && ((l.drop ind).tail.head? == some ' ')

/-- An unsigned YAML number scalar (`safe_load`'s int/float resolution on
the dumper's outputs): digits with an optional fraction. -/
def parseDecUnsigned (r : List Char) : Option ℚ :=
  let ip := r.takeWhile yDigit
  let rest := r.dropWhile yDigit
  if ip = [] then none
  else if rest = [] then some (decValue false ip [] 0)
  else if rest.head? = some '.' then
    (let fp := rest.tail
     if fp ≠ [] ∧ fp.all yDigit then some (decValue false ip fp 0) else none)
  else none

/-- A YAML number scalar with an optional sign. -/
def parseDec (l : List Char) : Option ℚ :=
  if l.head? = some '-' then (parseDecUnsigned l.tail).map (fun q => -q)
  else parseDecUnsigned l

/-- `safe_load`'s resolution of a plain scalar: booleans and null by
keyword, then numbers, then a string. -/
def parseScalar (l : List Char) : Val :=
  if l = "true".data then Val.vbool true
  else if l = "false".data then Val.vbool false
  else if l = "null".data then Val.vnone
  else
    match parseDec l with
    | some q => Val.vnum q
    | none => Val.vstr (String.mk l)

/-- One sequence item: an inline `key: value` pair or a plain scalar. -/
def parseItemVal (item : List Char) : Val :=
  match splitColon item with
  | some (k, ' ' :: sv) => Val.vmap [(String.mk k, parseScalar sv)]
  | _ => parseScalar item

mutual

/-- Parse the entries of a block mapping at indentation `ind`; stops at
the first line of different indentation.  The fuel bounds the mutual
descent (two units per line suffice). -/
def parseEntries : Nat → Nat → List (List Char) → Option (List (String × Val) × List (List Char))
  | _, _, [] => some ([], [])
  | 0, _, _ :: _ => none
  | f + 1, ind, l :: rest =>
    if lineIndentC l = ind then
      match splitColon (l.drop ind) with
      | some (k, []) => parseBlock f ind (String.mk k) rest
      | some (k, ' ' :: sv) =>
        match parseEntries f ind rest with
        | some (m, rest2) => some ((String.mk k, parseScalar sv) :: m, rest2)
        | none => none
      | _ => none
    else some ([], l :: rest)

/-- Parse the block value following a bare `key:` line: an indentless
sequence or a mapping indented two further. -/
def parseBlock : Nat → Nat → String → List (List Char) → Option (List (String × Val) × List (List Char))
  | _, _, _, [] => none
  | 0, _, _, _ :: _ => none
  | f + 1, ind, k, r :: rest2 =>
    if lineIndentC r = ind ∧ isDashLine r ind then
      match parseItems f ind (r :: rest2) with
      | some (items, rest3) =>
        match parseEntries f ind rest3 with
        | some (m, rest4) => some ((k, Val.vlist items) :: m, rest4)
        | none => none
      | none => none
    else if lineIndentC r = ind + 2 then
      match parseEntries f (ind + 2) (r :: rest2) with
      | some (mm, rest3) =>
        match parseEntries f ind rest3 with
        | some (m, rest4) => some ((k, Val.vmap mm) :: m, rest4)
        | none => none
      | none => none
    else none

/-- Parse the items of an indentless block sequence at indentation
`ind`. -/
def parseItems : Nat → Nat → List (List Char) → Option (List Val × List (List Char))
  | _, _, [] => some ([], [])
  | 0, _, _ :: _ => none
  | f + 1, ind, l :: rest =>
    if lineIndentC l = ind ∧ isDashLine l ind then
      match parseItems f ind rest with
      | some (items, rest2) => some (parseItemVal (l.drop (ind + 2)) :: items, rest2)
      | none => none
    else some ([], l :: rest)

end

/-- Join dumped lines, one trailing newline each (PyYAML output). -/
def joinLines (ls : List (List Char)) : List Char :=
  ls.foldr (fun l acc => l ++ '\n' :: acc) []

/-- Split text into newline-terminated lines. -/
def splitLinesAux (acc : List Char) : List Char → List (List Char)
  | [] => if acc = [] then [] else [acc.reverse]
  | c :: rest =>
    if c = '\n' then acc.reverse :: splitLinesAux [] rest
    else splitLinesAux (c :: acc) rest

/-- The lines of a text. -/
def splitLines (l : List Char) : List (List Char) :=
  splitLinesAux [] l

/-- `yaml.dump(yaml_data, indent=2)`: keys sorted, block style, two-space
indentation. -/
def yamlDump (m : List (String × Val)) : String :=
  String.mk (joinLines (dumpEntries 0 (sortDoc m)))

/-- `BaseProvisioner.encode_yaml_file`: YAML-serialize, UTF-8 encode,
base64-encode. -/
def encode_yaml_file (m : List (String × Val)) : String :=
  b64encodeString (yamlDump m)

/-- The spec's decode direction: base64-decode, then parse the YAML
document back into a dictionary. -/
def decode_yaml_file (s : String) : Option (List (String × Val)) :=
  (b64decodeString s).bind fun text =>
    match parseEntries (2 * (splitLines text.data).length + 2) 0 (splitLines text.data) with
    | some (m, []) => some m
    | _ => none

/-- `GcpProjectProvisioner.build_budget_terraform_yaml`: the budget
document for one environment project (`KeyError` on a missing budget key
modelled as `none`). -/
def build_budget_terraform_yaml (cfg : ConfigData) (dw_env_project_name env : String) :
    Option (List (String × Val)) :=
  (cfgGet cfg ("BUDGET_" ++ pyUpper env)).map fun amount =>
    [("display_name", Val.vstr ("budget for " ++ dw_env_project_name)),
     ("amount", Val.vmap [("units", amount)]),
     ("filter", Val.vmap
       [("period", Val.vmap [("calendar", Val.vstr "MONTH")]),
        ("projects", Val.vlist [Val.vstr dw_env_project_name])]),
     ("threshold_rules", Val.vlist
       [Val.vmap [("percent", Val.vnum (mkRat 1 2))],
        Val.vmap [("percent", Val.vnum (mkRat 3 4))]]),
     ("update_rules", Val.vmap
       [("default", Val.vmap
         [("disable_default_iam_recipients", Val.vbool true),
          ("monitoring_notification_channels", Val.vlist [Val.vstr "billing-default"])])])]

theorem digitVal_digitChar : ∀ n, n < 10 → digitVal (digitChar n) = n := by decide

theorem yDigit_digitChar (n : Nat) : yDigit (digitChar n) = true := by
  unfold digitChar
  split <;> rfl

theorem natToDigitsRev_foldr : ∀ fuel n, n < 10 ^ fuel →
    (natToDigitsRev fuel n).foldr (fun c acc => acc * 10 + digitVal c) 0 = n := by
  intro fuel
  induction fuel with
  | zero =>
    intro n h
    have hn : n = 0 := by simpa using h
    subst hn
    rfl
  | succ f ih =>
    intro n h
    simp only [natToDigitsRev]
    by_cases h10 : n < 10
    · rw [if_pos h10]
      simp [digitVal_digitChar n h10]
    · rw [if_neg h10]
      rw [List.foldr_cons]
      have hdiv : n / 10 < 10 ^ f := by
        rw [pow_succ] at h
        omega
      rw [ih (n / 10) hdiv, digitVal_digitChar (n % 10) (by omega)]
      omega

theorem digitsToNat_natToDigits (n : Nat) : digitsToNat (natToDigits n) = n := by
  rw [natToDigits, digitsToNat, List.foldl_reverse]
  have h : n < 10 ^ (n + 1) :=
    lt_of_lt_of_le (Nat.lt_pow_self (by norm_num) n)
      (Nat.pow_le_pow_right (by norm_num) (Nat.le_succ n))
  exact natToDigitsRev_foldr (n + 1) n h

theorem natToDigitsRev_all (fuel : Nat) : ∀ n, (natToDigitsRev fuel n).all yDigit = true := by
  induction fuel with
  | zero => intro n; rfl
  | succ f ih =>
    intro n
    simp only [natToDigitsRev]
    split
    · simp [yDigit_digitChar]
    · simp [yDigit_digitChar, ih]

theorem natToDigits_all (n : Nat) : (natToDigits n).all yDigit = true := by
  rw [natToDigits, List.all_reverse]
  exact natToDigitsRev_all (n + 1) n

theorem natToDigits_ne_nil (n : Nat) : natToDigits n ≠ [] := by
  rw [natToDigits]
  simp only [ne_eq, List.reverse_eq_nil_iff]
  simp only [natToDigitsRev]
  split <;> simp

theorem natToDigitsRev_length_le : ∀ fuel n k, n < 10 ^ (k + 1) →
    (natToDigitsRev fuel n).length ≤ k + 1 := by
  intro fuel
  induction fuel with
  | zero => intro n k h; simp [natToDigitsRev]
  | succ f ih =>
    intro n k h
    simp only [natToDigitsRev]
    split
    · simp
    · rename_i h10
      simp only [List.length_cons]
      match k, h with
      | 0, h => omega
      | k' + 1, h =>
        have hd : n / 10 < 10 ^ (k' + 1) := by
          rw [pow_succ] at h
          omega
        have := ih (n / 10) k' hd
        omega

theorem natToDigits_length_le (n k : Nat) (h : n < 10 ^ (k + 1)) :
    (natToDigits n).length ≤ k + 1 := by
  rw [natToDigits, List.length_reverse]
  exact natToDigitsRev_length_le (n + 1) n k h

theorem foldl_digit_zeros (z : Nat) :
    List.foldl (fun a c => a * 10 + digitVal c) 0 (List.replicate z '0') = 0 := by
  induction z with
  | zero => rfl
  | succ z ih =>
    rw [List.replicate_succ, List.foldl_cons]
    have h0 : (0 * 10 + digitVal '0') = 0 := rfl
    rw [h0, ih]

theorem digitsToNat_padLeftZeros (k : Nat) (l : List Char) :
    digitsToNat (padLeftZeros k l) = digitsToNat l := by
  rw [padLeftZeros, digitsToNat, digitsToNat, List.foldl_append, foldl_digit_zeros]

theorem padLeftZeros_all (k : Nat) (l : List Char) (h : l.all yDigit = true) :
    (padLeftZeros k l).all yDigit = true := by
  rw [padLeftZeros, List.all_append, Bool.and_eq_true]
  refine And.intro ?_ h
  simp only [List.all_eq_true]
  intro c hc
  rw [List.eq_of_mem_replicate hc]
  rfl

theorem padLeftZeros_length (k : Nat) (l : List Char) :
    (padLeftZeros k l).length = max k l.length := by
  rw [padLeftZeros, List.length_append, List.length_replicate]
  omega

theorem decValue_zero_exp (ip fp : List Char) :
    decValue false ip fp 0 = mkRat (digitsToNat ip * 10 ^ fp.length + digitsToNat fp)
      (10 ^ fp.length) := by
  simp [decValue]

theorem parseDec_renderNum (q : ℚ) (hq : (decScale q).isSome = true) :
    ∃ ds, renderNum q = some ds ∧ parseDec ds = some q := by
  obtain ⟨k0, hk0⟩ := Option.isSome_iff_exists.mp hq
  have hfind := hk0
  rw [decScale] at hfind
  have hp := List.find?_some hfind
  have hdvd0 : q.den ∣ 10 ^ k0 := Nat.dvd_of_mod_eq_zero (by simpa using hp)
  set k := max 1 k0 with hkdef
  have hk1 : 1 ≤ k := le_max_left 1 k0
  have hdvd : q.den ∣ 10 ^ k :=
    dvd_trans hdvd0 (pow_dvd_pow 10 (le_max_right 1 k0))
  set n := q.num.natAbs * (10 ^ k / q.den) with hndef
  have hkey : n * q.den = q.num.natAbs * 10 ^ k := by
    rw [hndef, mul_assoc, Nat.div_mul_cancel hdvd]
  have hpk : (0:ℕ) < 10 ^ k := Nat.pos_pow_of_pos k (by norm_num)
  -- the digits of the rendered magnitude
  have hfrac_lt : n % 10 ^ k < 10 ^ k := Nat.mod_lt n hpk
  have hfp_len : (padLeftZeros k (natToDigits (n % 10 ^ k))).length = k := by
    rw [padLeftZeros_length]
    have : (natToDigits (n % 10 ^ k)).length ≤ k := by
      match k, hk1 with
      | j + 1, _ => exact natToDigits_length_le _ j hfrac_lt
    omega
  have hpos : renderNumPos q k =
      natToDigits (n / 10 ^ k) ++ '.' :: padLeftZeros k (natToDigits (n % 10 ^ k)) := by
    rw [renderNumPos]
  have hparse0 : parseDecUnsigned (renderNumPos q k) =
      some (mkRat ((n : ℤ)) (10 ^ k)) := by
    rw [hpos]
    simp only [parseDecUnsigned]
    have htake : (natToDigits (n / 10 ^ k) ++
        '.' :: padLeftZeros k (natToDigits (n % 10 ^ k))).takeWhile yDigit =
        natToDigits (n / 10 ^ k) := by
      rw [takeWhile_append_all _ (fun c hc => by
        have := natToDigits_all (n / 10 ^ k)
        rw [List.all_eq_true] at this
        exact this c hc)]
      rw [List.takeWhile_cons]
      have hdot : yDigit '.' = false := by decide
      simp [hdot]
    have hdrop : (natToDigits (n / 10 ^ k) ++
        '.' :: padLeftZeros k (natToDigits (n % 10 ^ k))).dropWhile yDigit =
        '.' :: padLeftZeros k (natToDigits (n % 10 ^ k)) := by
      rw [dropWhile_append_all _ (fun c hc => by
        have := natToDigits_all (n / 10 ^ k)
        rw [List.all_eq_true] at this
        exact this c hc)]
      rw [List.dropWhile_cons]
      have hdot : yDigit '.' = false := by decide
      simp [hdot]
    rw [htake, hdrop]
    rw [if_neg (by simpa using natToDigits_ne_nil (n / 10 ^ k))]
    rw [if_neg (by simp)]
    rw [List.head?_cons]
    rw [if_pos rfl]
    simp only [List.tail_cons]
    rw [if_pos ⟨by
        apply List.length_pos.mp
        rw [hfp_len]
        omega,
      padLeftZeros_all _ _ (natToDigits_all _)⟩]
    rw [decValue_zero_exp, digitsToNat_natToDigits, digitsToNat_padLeftZeros,
      digitsToNat_natToDigits, hfp_len]
    have hA : ((n / 10 ^ k : ℕ) : ℤ) * 10 ^ k + ((n % 10 ^ k : ℕ) : ℤ) = (n : ℤ) := by
      exact_mod_cast Nat.div_add_mod' n (10 ^ k)
    exact congrArg (fun z : ℤ => some (mkRat z (10 ^ k))) hA
  have hvalue : mkRat ((n : ℤ)) (10 ^ k) = (q.num.natAbs : ℚ) / (q.den : ℚ) := by
    rw [Rat.mkRat_eq_div]
    rw [div_eq_div_iff (by positivity) (by
      have := q.den_nz
      positivity)]
    push_cast
    exact_mod_cast hkey
  have hd_head : ∃ d t, natToDigits (n / 10 ^ k) = d :: t ∧ yDigit d = true := by
    match hne : natToDigits (n / 10 ^ k) with
    | [] => exact absurd hne (natToDigits_ne_nil _)
    | d :: t =>
      refine ⟨d, t, rfl, ?_⟩
      have := natToDigits_all (n / 10 ^ k)
      rw [hne, List.all_cons] at this
      exact (Bool.and_eq_true_iff.mp this).1
  rw [renderNum, hk0]
  dsimp only
  rw [← hkdef]
  by_cases hneg : q.num < 0
  · rw [if_pos hneg]
    refine ⟨'-' :: renderNumPos q k, rfl, ?_⟩
    rw [parseDec, List.head?_cons]
    rw [if_pos rfl]
    rw [List.tail_cons, hparse0]
    rw [show Option.map (fun x : ℚ => -x) (some (mkRat (n : ℤ) (10 ^ k))) =
      some (-mkRat (n : ℤ) (10 ^ k)) from rfl]
    congr 1
    rw [hvalue]
    have habs : (q.num.natAbs : ℚ) = -(q.num : ℚ) := by
      rw [Int.cast_natAbs]
      exact_mod_cast abs_of_neg hneg
    rw [habs, neg_div, neg_neg]
    exact (Rat.num_div_den q)
  · rw [if_neg hneg]
    refine ⟨renderNumPos q k, rfl, ?_⟩
    obtain ⟨d, t, hdt, hd⟩ := hd_head
    rw [parseDec]
    rw [if_neg (by
      rw [hpos, hdt]
      simp only [List.cons_append, List.head?_cons, Option.some.injEq]
      intro hcontra
      rw [hcontra] at hd
      exact absurd hd (by decide))]
    rw [hparse0, hvalue]
    congr 1
    have habs : (q.num.natAbs : ℚ) = (q.num : ℚ) := by
      rw [Int.cast_natAbs]
      exact_mod_cast abs_of_nonneg (le_of_not_lt hneg)
    rw [habs]
    exact (Rat.num_div_den q)

theorem yKeyChar_not_colon {c : Char} (h : yKeyChar c = true) : c ≠ ':' := by
  intro hc
  subst hc
  exact absurd h (by decide)

theorem yPlainChar_not_colon {c : Char} (h : yPlainChar c = true) : c ≠ ':' := by
  intro hc
  subst hc
  exact absurd h (by decide)

theorem yKeyChar_not_nl {c : Char} (h : yKeyChar c = true) : c ≠ '\n' := by
  intro hc
  subst hc
  exact absurd h (by decide)

theorem yPlainChar_not_nl {c : Char} (h : yPlainChar c = true) : c ≠ '\n' := by
  intro hc
  subst hc
  exact absurd h (by decide)

theorem yLetter_not_space {c : Char} (h : yLetter c = true) : c ≠ ' ' := by
  intro hc
  subst hc
  exact absurd h (by decide)

theorem yLetter_not_dash {c : Char} (h : yLetter c = true) : c ≠ '-' := by
  intro hc
  subst hc
  exact absurd h (by decide)

theorem yLetter_not_digit {c : Char} (h : yLetter c = true) : yDigit c = false := by
  simp only [yLetter, Bool.or_eq_true, Bool.and_eq_true, decide_eq_true_eq] at h
  rw [← Bool.not_eq_true]
  simp only [yDigit, Bool.and_eq_true, decide_eq_true_eq]
  intro hcontra
  omega

theorem yDigit_not_dash {c : Char} (h : yDigit c = true) : c ≠ '-' := by
  intro hc
  subst hc
  exact absurd h (by decide)

theorem splitColon_eq_none {l : List Char} (h : ∀ c ∈ l, c ≠ ':') : splitColon l = none := by
  induction l with
  | nil => rfl
  | cons c t ih =>
    rw [splitColon, if_neg (h c (by simp))]
    rw [ih (fun x hx => h x (by simp [hx]))]
    rfl

theorem splitColon_append (k after : List Char) (h : ∀ c ∈ k, c ≠ ':') :
    splitColon (k ++ ':' :: after) = some (k, after) := by
  induction k with
  | nil => simp [splitColon]
  | cons c t ih =>
    rw [List.cons_append, splitColon, if_neg (h c (by simp))]
    rw [ih (fun x hx => h x (by simp [hx]))]
    rfl

theorem yKeyStr_shape {l : List Char} (h : yKeyStr l = true) :
    ∃ c t, l = c :: t ∧ yLetter c = true ∧ ∀ x ∈ l, yKeyChar x = true := by
  match l, h with
  | c :: t, h =>
    rw [yKeyStr, Bool.and_eq_true] at h
    refine ⟨c, t, rfl, h.1, ?_⟩
    have := h.2
    rw [List.all_eq_true] at this
    exact fun x hx => this x hx

theorem yPlainStr_shape {l : List Char} (h : yPlainStr l = true) :
    ∃ c t, l = c :: t ∧ yLetter c = true ∧ (∀ x ∈ l, yPlainChar x = true) ∧
      l ≠ "true".data ∧ l ≠ "false".data ∧ l ≠ "null".data := by
  match l, h with
  | c :: t, h =>
    simp only [yPlainStr, Bool.and_eq_true, decide_eq_true_eq] at h
    obtain ⟨⟨⟨⟨⟨hl, hall⟩, h1⟩, h2⟩, h3⟩, -⟩ := h
    rw [List.all_eq_true] at hall
    exact ⟨c, t, rfl, hl, fun x hx => hall x hx, h1, h2, h3⟩

theorem renderNum_chars {q : ℚ} {ds : List Char} (h : renderNum q = some ds) :
    ∀ c ∈ ds, yDigit c = true ∨ c = '.' ∨ c = '-' := by
  match hscale : decScale q with
  | none =>
    simp only [renderNum, hscale] at h
    exact Option.noConfusion h
  | some k0 =>
    simp only [renderNum, hscale] at h
    have hcore : ∀ c ∈ renderNumPos q (max 1 k0), yDigit c = true ∨ c = '.' ∨ c = '-' := by
      intro c hc
      rw [renderNumPos] at hc
      rcases List.mem_append.mp hc with h1 | h2
      · left
        have := natToDigits_all (q.num.natAbs * (10 ^ max 1 k0 / q.den) / 10 ^ max 1 k0)
        rw [List.all_eq_true] at this
        exact this c h1
      · rcases List.mem_cons.mp h2 with rfl | h3
        · right; left; rfl
        · left
          have := padLeftZeros_all (max 1 k0)
            (natToDigits (q.num.natAbs * (10 ^ max 1 k0 / q.den) % 10 ^ max 1 k0))
            (natToDigits_all _)
          rw [List.all_eq_true] at this
          exact this c h3
    split at h
    · rename_i hneg
      rw [← Option.some.inj h]
      intro c hc
      rcases List.mem_cons.mp hc with rfl | h2
      · right; right; rfl
      · exact hcore c h2
    · rename_i hneg
      rw [← Option.some.inj h]
      exact hcore

theorem scalarChars_safe {v : Val} (h : wfScalar v = true) :
    ∀ c ∈ scalarChars v, c ≠ ':' ∧ c ≠ '\n' := by
  match v, h with
  | Val.vstr s, h =>
    obtain ⟨c0, t, hl, -, hall, -⟩ := yPlainStr_shape h
    intro c hc
    exact ⟨yPlainChar_not_colon (hall c hc), yPlainChar_not_nl (hall c hc)⟩
  | Val.vnum q, h =>
    match hds : renderNum q with
    | none =>
      rw [wfScalar] at h
      obtain ⟨k0, hk0⟩ := Option.isSome_iff_exists.mp h
      simp only [renderNum, hk0] at hds
      split at hds <;> exact Option.noConfusion hds
    | some ds =>
      have hchars := renderNum_chars hds
      intro c hc
      rw [scalarChars, hds] at hc
      have := hchars c hc
      rcases this with h1 | h1 | h1
      · exact ⟨yKeyChar_not_colon (by simp [yKeyChar, h1]), yKeyChar_not_nl (by simp [yKeyChar, h1])⟩
      · subst h1; exact ⟨by decide, by decide⟩
      · subst h1; exact ⟨by decide, by decide⟩
  | Val.vbool true, _ =>
    intro c hc
    simp only [scalarChars] at hc
    fin_cases hc <;> exact ⟨by decide, by decide⟩
  | Val.vbool false, _ =>
    intro c hc
    simp only [scalarChars] at hc
    fin_cases hc <;> exact ⟨by decide, by decide⟩

theorem parseScalar_scalarChars {v : Val} (h : wfScalar v = true) :
    parseScalar (scalarChars v) = v := by
  match v, h with
  | Val.vstr s, h =>
    obtain ⟨c0, t, hl, hlet, hall, hne1, hne2, hne3⟩ := yPlainStr_shape h
    rw [scalarChars, parseScalar]
    rw [if_neg hne1, if_neg hne2, if_neg hne3]
    have hdec : parseDec s.data = none := by
      rw [parseDec]
      rw [if_neg (by
        rw [hl, List.head?_cons]
        intro hcontra
        have : c0 = '-' := Option.some.inj hcontra
        exact absurd hlet (by rw [this]; decide))]
      rw [parseDecUnsigned]
      rw [hl]
      rw [List.takeWhile_cons]
      have hdig : yDigit c0 = false := yLetter_not_digit hlet
      rw [hdig]
      simp
    rw [hdec]
  | Val.vnum q, h =>
    obtain ⟨ds, hds, hparse⟩ := parseDec_renderNum q h
    rw [scalarChars, hds]
    rw [Option.getD_some]
    rw [parseScalar]
    rw [if_neg (fun hcontra => by
      rw [hcontra] at hparse
      have h0 : parseDec ("true".data) = none := by decide
      rw [h0] at hparse
      exact Option.noConfusion hparse)]
    rw [if_neg (fun hcontra => by
      rw [hcontra] at hparse
      have h0 : parseDec ("false".data) = none := by decide
      rw [h0] at hparse
      exact Option.noConfusion hparse)]
    rw [if_neg (fun hcontra => by
      rw [hcontra] at hparse
      have h0 : parseDec ("null".data) = none := by decide
      rw [h0] at hparse
      exact Option.noConfusion hparse)]
    rw [hparse]
  | Val.vbool true, _ => rfl
  | Val.vbool false, _ => rfl

theorem lineIndentC_pad {c : Char} (ind : Nat) (t : List Char) (hc : c ≠ ' ') :
    lineIndentC (padC ind ++ c :: t) = ind := by
  rw [lineIndentC, padC]
  rw [takeWhile_append_all _ (fun x hx => by rw [List.eq_of_mem_replicate hx]; rfl)]
  rw [List.takeWhile_cons]
  have hb : (c == ' ') = false := beq_eq_false_iff_ne.mpr hc
  rw [hb]
  simp

theorem drop_pad (ind : Nat) (content : List Char) :
    (padC ind ++ content).drop ind = content := by
  have := List.drop_left (List.replicate ind ' ') content
  rwa [List.length_replicate] at this

theorem drop_pad_dash (ind : Nat) (X : List Char) :
    (padC ind ++ '-' :: ' ' :: X).drop (ind + 2) = X := by
  rw [show padC ind ++ '-' :: ' ' :: X = (padC ind ++ ['-', ' ']) ++ X by simp]
  have := List.drop_left (padC ind ++ ['-', ' ']) X
  rwa [List.length_append, show (padC ind).length = ind from by simp [padC],
    show (['-', ' '] : List Char).length = 2 from rfl] at this

theorem isDashLine_pad_dash (ind : Nat) (X : List Char) :
    isDashLine (padC ind ++ '-' :: ' ' :: X) ind = true := by
  rw [isDashLine, drop_pad]
  rfl

theorem lineIndentC_pad_dash (ind : Nat) (X : List Char) :
    lineIndentC (padC ind ++ '-' :: ' ' :: X) = ind :=
  lineIndentC_pad ind _ (by decide)

theorem isDashLine_letter {c : Char} (ind : Nat) (t : List Char) (hc : yLetter c = true) :
    isDashLine (padC ind ++ c :: t) ind = false := by
  rw [isDashLine, drop_pad, List.head?_cons]
  have : (some c == some '-') = false := by
    rw [beq_eq_false_iff_ne]
    intro hcontra
    exact yLetter_not_dash hc (Option.some.inj hcontra)
  rw [this]
  rfl

theorem dumpEntry_ne_nil (ind : Nat) (k : String) (v : Val) : dumpEntry ind k v ≠ [] := by
  match v with
  | Val.vmap mm => simp [dumpEntry]
  | Val.vlist l => simp [dumpEntry]
  | Val.vstr s => simp [dumpEntry]
  | Val.vnum q => simp [dumpEntry]
  | Val.vbool b => simp [dumpEntry]
  | Val.vnone => simp [dumpEntry]

theorem dumpEntry_head (ind : Nat) (k : String) (v : Val) :
    ∃ X ls, dumpEntry ind k v = (padC ind ++ (k.data ++ X)) :: ls := by
  match v with
  | Val.vmap mm => exact ⟨[':'], dumpEntries (ind + 2) mm, by
      simp [dumpEntry, List.append_assoc]⟩
  | Val.vlist l => exact ⟨[':'], dumpItems ind l, by simp [dumpEntry, List.append_assoc]⟩
  | Val.vstr s => exact ⟨':' :: ' ' :: scalarChars (Val.vstr s), [], by
      simp [dumpEntry, List.append_assoc]⟩
  | Val.vnum q => exact ⟨':' :: ' ' :: scalarChars (Val.vnum q), [], by
      simp [dumpEntry, List.append_assoc]⟩
  | Val.vbool b => exact ⟨':' :: ' ' :: scalarChars (Val.vbool b), [], by
      simp [dumpEntry, List.append_assoc]⟩
  | Val.vnone => exact ⟨':' :: ' ' :: scalarChars Val.vnone, [], by
      simp [dumpEntry, List.append_assoc]⟩

theorem keyline_facts {k : String} (ind : Nat) (X : List Char) (hk : yKeyStr k.data = true) :
    lineIndentC (padC ind ++ (k.data ++ X)) = ind ∧
    isDashLine (padC ind ++ (k.data ++ X)) ind = false := by
  obtain ⟨c, t, hdata, hlet, -⟩ := yKeyStr_shape hk
  rw [hdata, List.cons_append]
  exact ⟨lineIndentC_pad ind _ (yLetter_not_space hlet), isDashLine_letter ind _ hlet⟩

/-- The continuation after a block at indentation `ind` starts strictly
less indented (or is empty). -/
def RestOkE (ind : Nat) : List (List Char) → Prop
  | [] => True
  | l :: _ => lineIndentC l < ind

/-- The continuation after a sequence does not begin with another item of
the same sequence. -/
def StopsItems (ind : Nat) : List (List Char) → Prop
  | [] => True
  | l :: _ => ¬(lineIndentC l = ind ∧ isDashLine l ind = true)

theorem parseEntries_nil (f ind : Nat) : parseEntries f ind [] = some ([], []) := by
  match f with
  | 0 => rfl
  | g + 1 => rfl

theorem parseItems_nil (f ind : Nat) : parseItems f ind [] = some ([], []) := by
  match f with
  | 0 => rfl
  | g + 1 => rfl

theorem dumpEntries_ne_nil {m : List (String × Val)} (ind : Nat) (hm : m ≠ []) :
    dumpEntries ind m ≠ [] := by
  match m, hm with
  | (k, v) :: t, _ =>
    rw [dumpEntries]
    intro hcontra
    exact dumpEntry_ne_nil ind k v (List.append_eq_nil.mp hcontra).1

theorem dumpItems_ne_nil {items : List Val} (ind : Nat) (hne : items ≠ []) :
    dumpItems ind items ≠ [] := by
  match items, hne with
  | v :: t, _ => rw [dumpItems]; simp

theorem dumpEntries_head_indent {m : List (String × Val)} (ind : Nat) (hm : m ≠ [])
    (hwf : wfEntries m = true) :
    ∃ r rs, dumpEntries ind m = r :: rs ∧ lineIndentC r = ind ∧ isDashLine r ind = false := by
  match m, hm with
  | (k, v) :: t, _ =>
    simp only [wfEntries, Bool.and_eq_true] at hwf
    obtain ⟨⟨⟨hk, hv⟩, hu⟩, ht⟩ := hwf
    obtain ⟨X, ls, hentry⟩ := dumpEntry_head ind k v
    obtain ⟨hind, hdash⟩ := keyline_facts ind X hk
    rw [dumpEntries, hentry, List.cons_append]
    exact ⟨_, _, rfl, hind, hdash⟩

theorem dumpItems_head {items : List Val} (ind : Nat) (hne : items ≠ []) :
    ∃ r rs, dumpItems ind items = r :: rs ∧ lineIndentC r = ind ∧ isDashLine r ind = true := by
  match items, hne with
  | v :: t, _ =>
    rw [dumpItems]
    exact ⟨_, _, rfl, lineIndentC_pad_dash ind _, isDashLine_pad_dash ind _⟩

theorem cont_facts (ind : Nat) (t : List (String × Val)) (rest : List (List Char))
    (hwf : wfEntries t = true) (hrest : RestOkE ind rest) :
    RestOkE (ind + 2) (dumpEntries ind t ++ rest) ∧
    StopsItems ind (dumpEntries ind t ++ rest) := by
  match t with
  | [] =>
    rw [show dumpEntries ind [] = [] from rfl, List.nil_append]
    match rest, hrest with
    | [], _ => exact ⟨trivial, trivial⟩
    | l :: r, hr =>
      refine ⟨show lineIndentC l < ind + 2 by
        have : lineIndentC l < ind := hr
        omega, ?_⟩
      show ¬(lineIndentC l = ind ∧ isDashLine l ind = true)
      rintro ⟨h1, -⟩
      have : lineIndentC l < ind := hr
      omega
  | (k, v) :: t2 =>
    obtain ⟨r, rs, hdump, hind, hdash⟩ :=
      dumpEntries_head_indent ind (List.cons_ne_nil _ _) hwf
    rw [hdump, List.cons_append]
    refine ⟨show lineIndentC r < ind + 2 by omega, ?_⟩
    show ¬(lineIndentC r = ind ∧ isDashLine r ind = true)
    rintro ⟨-, h2⟩
    rw [hdash] at h2
    exact Bool.noConfusion h2

theorem parseItemVal_dumpItemChars {v : Val} (h : wfItem v = true) :
    parseItemVal (dumpItemChars v) = v := by
  match v, h with
  | Val.vmap [(k, w)], h =>
    simp only [wfItem, Bool.and_eq_true] at h
    obtain ⟨hk, hw⟩ := h
    obtain ⟨c, t0, -, -, hall⟩ := yKeyStr_shape hk
    rw [dumpItemChars, parseItemVal]
    rw [splitColon_append _ _ (fun c hc => yKeyChar_not_colon (hall c hc))]
    show Val.vmap [(String.mk k.data, parseScalar (scalarChars w))] = Val.vmap [(k, w)]
    rw [parseScalar_scalarChars hw]
  | Val.vstr s, h =>
    have hw : wfScalar (Val.vstr s) = true := h
    rw [show dumpItemChars (Val.vstr s) = scalarChars (Val.vstr s) from by
      simp [dumpItemChars]]
    rw [parseItemVal]
    rw [splitColon_eq_none (fun c hc => (scalarChars_safe hw c hc).1)]
    show parseScalar (scalarChars (Val.vstr s)) = Val.vstr s
    rw [parseScalar_scalarChars hw]
  | Val.vnum q, h =>
    have hw : wfScalar (Val.vnum q) = true := h
    rw [show dumpItemChars (Val.vnum q) = scalarChars (Val.vnum q) from by
      simp [dumpItemChars]]
    rw [parseItemVal]
    rw [splitColon_eq_none (fun c hc => (scalarChars_safe hw c hc).1)]
    show parseScalar (scalarChars (Val.vnum q)) = Val.vnum q
    rw [parseScalar_scalarChars hw]
  | Val.vbool b, h =>
    have hw : wfScalar (Val.vbool b) = true := h
    rw [show dumpItemChars (Val.vbool b) = scalarChars (Val.vbool b) from by
      simp [dumpItemChars]]
    rw [parseItemVal]
    rw [splitColon_eq_none (fun c hc => (scalarChars_safe hw c hc).1)]
    show parseScalar (scalarChars (Val.vbool b)) = Val.vbool b
    rw [parseScalar_scalarChars hw]
  | Val.vmap [], h => simp [wfItem, wfScalar] at h
  | Val.vmap ((k1, w1) :: (k2, w2) :: t2), h => simp [wfItem, wfScalar] at h
  | Val.vlist l, h => simp [wfItem, wfScalar] at h
  | Val.vnone, h => simp [wfItem, wfScalar] at h

theorem parse_scalar_entry_step (g ind : Nat) (k : String) (w : Val) (t : List (String × Val))
    (rest : List (List Char)) (hk : yKeyStr k.data = true) (hw : wfScalar w = true)
    (ih : parseEntries g ind (dumpEntries ind t ++ rest) = some (t, rest)) :
    parseEntries (g + 1) ind
      ((padC ind ++ (k.data ++ ':' :: ' ' :: scalarChars w)) :: (dumpEntries ind t ++ rest)) =
      some ((k, w) :: t, rest) := by
  rw [parseEntries]
  obtain ⟨hind, -⟩ := keyline_facts ind (':' :: ' ' :: scalarChars w) hk
  rw [if_pos hind]
  rw [drop_pad]
  obtain ⟨c, t0, -, -, hall⟩ := yKeyStr_shape hk
  rw [splitColon_append _ _ (fun c hc => yKeyChar_not_colon (hall c hc))]
  rw [ih]
  show some ((String.mk k.data, parseScalar (scalarChars w)) :: t, rest) =
    some ((k, w) :: t, rest)
  rw [parseScalar_scalarChars hw]

mutual

theorem parse_dump_entries (f ind : Nat) (m : List (String × Val)) (rest : List (List Char))
    (hwf : wfEntries m = true)
    (hf : 2 * (dumpEntries ind m ++ rest).length + 1 ≤ f)
    (hrest : RestOkE ind rest) :
    parseEntries f ind (dumpEntries ind m ++ rest) = some (m, rest) := by
  match m, hwf with
  | [], _ =>
    rw [show dumpEntries ind [] = [] from rfl, List.nil_append] at hf ⊢
    match rest, hrest with
    | [], _ => exact parseEntries_nil f ind
    | l :: r, hr =>
      have hlt : lineIndentC l < ind := hr
      have hlen : (l :: r).length = r.length + 1 := rfl
      obtain ⟨g, rfl⟩ : ∃ g, f = g + 1 := ⟨f - 1, by omega⟩
      rw [parseEntries]
      rw [if_neg (by omega)]
  | (k, v) :: t, hwf =>
    simp only [wfEntries, Bool.and_eq_true] at hwf
    obtain ⟨⟨⟨hk, hv⟩, hu⟩, ht⟩ := hwf
    match v, hv with
    | Val.vmap mm, hv =>
      simp only [wfVal, Bool.and_eq_true] at hv
      obtain ⟨hmmne, hmm⟩ := hv
      have hmmne2 : mm ≠ [] := by
        intro hcontra
        rw [hcontra] at hmmne
        exact Bool.noConfusion hmmne
      rw [dumpEntries, dumpEntry]
      simp only [dumpEntries, dumpEntry, List.length_append, List.length_cons,
        List.append_assoc] at hf
      simp only [List.cons_append, List.append_assoc]
      obtain ⟨g, rfl⟩ : ∃ g, f = g + 1 := ⟨f - 1, by omega⟩
      rw [parseEntries]
      obtain ⟨hind, -⟩ := keyline_facts ind [':'] hk
      rw [if_pos hind]
      rw [drop_pad ind (k.data ++ [':'])]
      obtain ⟨c, t0, -, -, hall⟩ := yKeyStr_shape hk
      rw [show (k.data ++ [':']) = k.data ++ ':' :: [] from rfl]
      rw [splitColon_append _ _ (fun c hc => yKeyChar_not_colon (hall c hc))]
      show parseBlock g ind k (dumpEntries (ind + 2) mm ++ (dumpEntries ind t ++ rest)) =
        some ((k, Val.vmap mm) :: t, rest)
      obtain ⟨r, rs, hdump, hindr, -⟩ := dumpEntries_head_indent (ind + 2) hmmne2 hmm
      have hconts := cont_facts ind t rest ht hrest
      rw [hdump, List.cons_append]
      obtain ⟨g2, rfl⟩ : ∃ g2, g = g2 + 1 := ⟨g - 1, by omega⟩
      rw [parseBlock]
      rw [if_neg (by rintro ⟨h1, -⟩; omega)]
      rw [if_pos hindr]
      rw [← List.cons_append, ← hdump]
      have hlen2 : (dumpEntries (ind + 2) mm).length ≥ 1 := by
        have := dumpEntries_ne_nil (ind + 2) hmmne2
        match hok : dumpEntries (ind + 2) mm with
        | [] => exact absurd hok this
        | x :: xs => simp
      rw [parse_dump_entries g2 (ind + 2) mm (dumpEntries ind t ++ rest) hmm
        (by simp only [List.length_append]; omega) hconts.1]
      have hrec := parse_dump_entries g2 ind t rest ht
        (by simp only [List.length_append]; omega) hrest
      show (match parseEntries g2 ind (dumpEntries ind t ++ rest) with
        | some (m, rest4) => some ((k, Val.vmap mm) :: m, rest4)
        | none => none) = some ((k, Val.vmap mm) :: t, rest)
      rw [hrec]
    | Val.vlist items, hv =>
      simp only [wfVal, Bool.and_eq_true] at hv
      obtain ⟨hitne, hits⟩ := hv
      have hitne2 : items ≠ [] := by
        intro hcontra
        rw [hcontra] at hitne
        exact Bool.noConfusion hitne
      rw [dumpEntries, dumpEntry]
      simp only [dumpEntries, dumpEntry, List.length_append, List.length_cons,
        List.append_assoc] at hf
      simp only [List.cons_append, List.append_assoc]
      obtain ⟨g, rfl⟩ : ∃ g, f = g + 1 := ⟨f - 1, by omega⟩
      rw [parseEntries]
      obtain ⟨hind, -⟩ := keyline_facts ind [':'] hk
      rw [if_pos hind]
      rw [drop_pad ind (k.data ++ [':'])]
      obtain ⟨c, t0, -, -, hall⟩ := yKeyStr_shape hk
      rw [show (k.data ++ [':']) = k.data ++ ':' :: [] from rfl]
      rw [splitColon_append _ _ (fun c hc => yKeyChar_not_colon (hall c hc))]
      show parseBlock g ind k (dumpItems ind items ++ (dumpEntries ind t ++ rest)) =
        some ((k, Val.vlist items) :: t, rest)
      obtain ⟨r, rs, hdump, hindr, hdashr⟩ := dumpItems_head ind hitne2
      have hconts := cont_facts ind t rest ht hrest
      rw [hdump, List.cons_append]
      obtain ⟨g2, rfl⟩ : ∃ g2, g = g2 + 1 := ⟨g - 1, by omega⟩
      rw [parseBlock]
      rw [if_pos ⟨hindr, hdashr⟩]
      rw [← List.cons_append, ← hdump]
      have hlen2 : (dumpItems ind items).length ≥ 1 := by
        have := dumpItems_ne_nil ind hitne2
        match hok : dumpItems ind items with
        | [] => exact absurd hok this
        | x :: xs => simp
      rw [parse_dump_items g2 ind items (dumpEntries ind t ++ rest) hits
        (by simp only [List.length_append]; omega) hconts.2]
      have hrec := parse_dump_entries g2 ind t rest ht
        (by simp only [List.length_append]; omega) hrest
      show (match parseEntries g2 ind (dumpEntries ind t ++ rest) with
        | some (m, rest4) => some ((k, Val.vlist items) :: m, rest4)
        | none => none) = some ((k, Val.vlist items) :: t, rest)
      rw [hrec]
    | Val.vstr s, hv =>
      rw [dumpEntries]
      rw [show dumpEntry ind k (Val.vstr s) =
        [padC ind ++ (k.data ++ ':' :: ' ' :: scalarChars (Val.vstr s))] from by
        simp [dumpEntry, List.append_assoc]]
      simp only [dumpEntries, dumpEntry, List.length_append, List.length_cons,
        List.append_assoc] at hf
      rw [List.cons_append, List.nil_append]
      obtain ⟨g, rfl⟩ : ∃ g, f = g + 1 := ⟨f - 1, by omega⟩
      exact parse_scalar_entry_step g ind k (Val.vstr s) t rest hk hv
        (parse_dump_entries g ind t rest ht (by simp only [List.length_append]; omega) hrest)
    | Val.vnum q, hv =>
      rw [dumpEntries]
      rw [show dumpEntry ind k (Val.vnum q) =
        [padC ind ++ (k.data ++ ':' :: ' ' :: scalarChars (Val.vnum q))] from by
        simp [dumpEntry, List.append_assoc]]
      simp only [dumpEntries, dumpEntry, List.length_append, List.length_cons,
        List.append_assoc] at hf
      rw [List.cons_append, List.nil_append]
      obtain ⟨g, rfl⟩ : ∃ g, f = g + 1 := ⟨f - 1, by omega⟩
      exact parse_scalar_entry_step g ind k (Val.vnum q) t rest hk hv
        (parse_dump_entries g ind t rest ht (by simp only [List.length_append]; omega) hrest)
    | Val.vbool b, hv =>
      rw [dumpEntries]
      rw [show dumpEntry ind k (Val.vbool b) =
        [padC ind ++ (k.data ++ ':' :: ' ' :: scalarChars (Val.vbool b))] from by
        simp [dumpEntry, List.append_assoc]]
      simp only [dumpEntries, dumpEntry, List.length_append, List.length_cons,
        List.append_assoc] at hf
      rw [List.cons_append, List.nil_append]
      obtain ⟨g, rfl⟩ : ∃ g, f = g + 1 := ⟨f - 1, by omega⟩
      exact parse_scalar_entry_step g ind k (Val.vbool b) t rest hk hv
        (parse_dump_entries g ind t rest ht (by simp only [List.length_append]; omega) hrest)
    | Val.vnone, hv => exact absurd hv (by simp [wfVal])

theorem parse_dump_items (f ind : Nat) (items : List Val) (rest : List (List Char))
    (hwf : wfItems items = true)
    (hf : (dumpItems ind items ++ rest).length ≤ f)
    (hrest : StopsItems ind rest) :
    parseItems f ind (dumpItems ind items ++ rest) = some (items, rest) := by
  match items, hwf with
  | [], _ =>
    rw [show dumpItems ind [] = [] from rfl, List.nil_append] at hf ⊢
    match rest, hrest with
    | [], _ => exact parseItems_nil f ind
    | l :: r, hr =>
      have hlen : (l :: r).length = r.length + 1 := rfl
      obtain ⟨g, rfl⟩ : ∃ g, f = g + 1 := ⟨f - 1, by omega⟩
      rw [parseItems]
      rw [if_neg hr]
  | v :: t, hwf =>
    simp only [wfItems, Bool.and_eq_true] at hwf
    obtain ⟨hitem, ht⟩ := hwf
    rw [dumpItems]
    simp only [dumpItems, List.length_append, List.length_cons] at hf
    rw [List.cons_append]
    obtain ⟨g, rfl⟩ : ∃ g, f = g + 1 := ⟨f - 1, by omega⟩
    rw [parseItems]
    rw [if_pos ⟨lineIndentC_pad_dash ind _, isDashLine_pad_dash ind _⟩]
    rw [parse_dump_items g ind t rest ht (by simp only [List.length_append]; omega) hrest]
    show some (parseItemVal ((padC ind ++ '-' :: ' ' :: dumpItemChars v).drop (ind + 2)) :: t,
      rest) = some (v :: t, rest)
    rw [drop_pad_dash]
    rw [parseItemVal_dumpItemChars hitem]

end

theorem splitLinesAux_append (l : List Char) : ∀ acc rest, '\n' ∉ l →
    splitLinesAux acc (l ++ '\n' :: rest) = (acc.reverse ++ l) :: splitLinesAux [] rest := by
  induction l with
  | nil =>
    intro acc rest _
    rw [List.nil_append, splitLinesAux, if_pos rfl, List.append_nil]
  | cons c l2 ih =>
    intro acc rest hnl
    rw [List.cons_append, splitLinesAux]
    rw [if_neg (by intro hcontra; exact hnl (by rw [hcontra]; simp))]
    rw [ih (c :: acc) rest (fun hmem => hnl (by simp [hmem]))]
    simp

theorem splitLines_joinLines (ls : List (List Char)) (h : ∀ l ∈ ls, '\n' ∉ l) :
    splitLines (joinLines ls) = ls := by
  induction ls with
  | nil => rfl
  | cons l t ih =>
    rw [joinLines, List.foldr_cons, splitLines,
      splitLinesAux_append l [] _ (h l (by simp))]
    rw [List.reverse_nil, List.nil_append]
    rw [show splitLinesAux [] (List.foldr (fun l acc => l ++ '\n' :: acc) [] t) =
      splitLines (joinLines t) from rfl]
    rw [ih (fun x hx => h x (by simp [hx]))]

theorem keyline_no_nl {k : String} (ind : Nat) (X : List Char) (hk : yKeyStr k.data = true)
    (hX : '\n' ∉ X) : '\n' ∉ padC ind ++ (k.data ++ X) := by
  obtain ⟨c, t0, -, -, hall⟩ := yKeyStr_shape hk
  intro hmem
  rcases List.mem_append.mp hmem with h1 | h2
  · have := List.eq_of_mem_replicate h1
    exact absurd this (by decide)
  · rcases List.mem_append.mp h2 with h3 | h4
    · exact yKeyChar_not_nl (hall _ h3) rfl
    · exact hX h4

theorem dumpItemChars_no_nl {v : Val} (h : wfItem v = true) : '\n' ∉ dumpItemChars v := by
  match v, h with
  | Val.vmap [(k, w)], h =>
    simp only [wfItem, Bool.and_eq_true] at h
    obtain ⟨hk, hw⟩ := h
    obtain ⟨c, t0, -, -, hall⟩ := yKeyStr_shape hk
    rw [dumpItemChars]
    intro hmem
    rcases List.mem_append.mp hmem with h1 | h2
    · exact yKeyChar_not_nl (hall _ h1) rfl
    · rcases List.mem_cons.mp h2 with h3 | h4
      · exact absurd h3 (by decide)
      · rcases List.mem_cons.mp h4 with h5 | h6
        · exact absurd h5 (by decide)
        · exact (scalarChars_safe hw _ h6).2 rfl
  | Val.vstr s, h =>
    rw [show dumpItemChars (Val.vstr s) = scalarChars (Val.vstr s) from by simp [dumpItemChars]]
    intro hmem
    exact (scalarChars_safe (show wfScalar (Val.vstr s) = true from h) _ hmem).2 rfl
  | Val.vnum q, h =>
    rw [show dumpItemChars (Val.vnum q) = scalarChars (Val.vnum q) from by simp [dumpItemChars]]
    intro hmem
    exact (scalarChars_safe (show wfScalar (Val.vnum q) = true from h) _ hmem).2 rfl
  | Val.vbool b, h =>
    rw [show dumpItemChars (Val.vbool b) = scalarChars (Val.vbool b) from by simp [dumpItemChars]]
    intro hmem
    exact (scalarChars_safe (show wfScalar (Val.vbool b) = true from h) _ hmem).2 rfl
  | Val.vmap [], h => simp [wfItem, wfScalar] at h
  | Val.vmap ((k1, w1) :: (k2, w2) :: t2), h => simp [wfItem, wfScalar] at h
  | Val.vlist l, h => simp [wfItem, wfScalar] at h
  | Val.vnone, h => simp [wfItem, wfScalar] at h

mutual

theorem dumpEntries_no_nl (ind : Nat) (m : List (String × Val)) (hwf : wfEntries m = true) :
    ∀ l ∈ dumpEntries ind m, '\n' ∉ l := by
  match m, hwf with
  | [], _ => intro l hl; exact absurd hl (List.not_mem_nil l)
  | (k, Val.vmap mm) :: t, hwf =>
    simp only [wfEntries, Bool.and_eq_true] at hwf
    obtain ⟨⟨⟨hk, hv⟩, hu⟩, ht⟩ := hwf
    intro l hl
    rw [dumpEntries] at hl
    rcases List.mem_append.mp hl with h1 | h2
    · rw [dumpEntry] at h1
      rcases List.mem_cons.mp h1 with h1a | h3
      · subst h1a
        rw [List.append_assoc]
        exact keyline_no_nl ind [':'] hk (by decide)
      · have hv2 : wfEntries mm = true := by
          simp only [wfVal, Bool.and_eq_true] at hv
          exact hv.2
        exact dumpEntries_no_nl (ind + 2) mm hv2 l h3
    · exact dumpEntries_no_nl ind t ht l h2
  | (k, Val.vlist items) :: t, hwf =>
    simp only [wfEntries, Bool.and_eq_true] at hwf
    obtain ⟨⟨⟨hk, hv⟩, hu⟩, ht⟩ := hwf
    intro l hl
    rw [dumpEntries] at hl
    rcases List.mem_append.mp hl with h1 | h2
    · rw [dumpEntry] at h1
      rcases List.mem_cons.mp h1 with h1a | h3
      · subst h1a
        rw [List.append_assoc]
        exact keyline_no_nl ind [':'] hk (by decide)
      · have hv2 : wfItems items = true := by
          simp only [wfVal, Bool.and_eq_true] at hv
          exact hv.2
        exact dumpItems_no_nl ind items hv2 l h3
    · exact dumpEntries_no_nl ind t ht l h2
  | (k, Val.vstr s) :: t, hwf =>
    simp only [wfEntries, Bool.and_eq_true] at hwf
    obtain ⟨⟨⟨hk, hv⟩, hu⟩, ht⟩ := hwf
    intro l hl
    rw [dumpEntries] at hl
    rcases List.mem_append.mp hl with h1 | h2
    · rw [show dumpEntry ind k (Val.vstr s) =
        [padC ind ++ (k.data ++ ':' :: ' ' :: scalarChars (Val.vstr s))] from by
        simp [dumpEntry, List.append_assoc]] at h1
      have h1a := List.mem_singleton.mp h1
      subst h1a
      refine keyline_no_nl ind _ hk ?_
      intro hmem
      rcases List.mem_cons.mp hmem with h5 | h6
      · exact absurd h5 (by decide)
      · rcases List.mem_cons.mp h6 with h7 | h8
        · exact absurd h7 (by decide)
        · exact (scalarChars_safe (show wfScalar (Val.vstr s) = true from hv) _ h8).2 rfl
    · exact dumpEntries_no_nl ind t ht l h2
  | (k, Val.vnum q) :: t, hwf =>
    simp only [wfEntries, Bool.and_eq_true] at hwf
    obtain ⟨⟨⟨hk, hv⟩, hu⟩, ht⟩ := hwf
    intro l hl
    rw [dumpEntries] at hl
    rcases List.mem_append.mp hl with h1 | h2
    · rw [show dumpEntry ind k (Val.vnum q) =
        [padC ind ++ (k.data ++ ':' :: ' ' :: scalarChars (Val.vnum q))] from by
        simp [dumpEntry, List.append_assoc]] at h1
      have h1a := List.mem_singleton.mp h1
      subst h1a
      refine keyline_no_nl ind _ hk ?_
      intro hmem
      rcases List.mem_cons.mp hmem with h5 | h6
      · exact absurd h5 (by decide)
      · rcases List.mem_cons.mp h6 with h7 | h8
        · exact absurd h7 (by decide)
        · exact (scalarChars_safe (show wfScalar (Val.vnum q) = true from hv) _ h8).2 rfl
    · exact dumpEntries_no_nl ind t ht l h2
  | (k, Val.vbool b) :: t, hwf =>
    simp only [wfEntries, Bool.and_eq_true] at hwf
    obtain ⟨⟨⟨hk, hv⟩, hu⟩, ht⟩ := hwf
    intro l hl
    rw [dumpEntries] at hl
    rcases List.mem_append.mp hl with h1 | h2
    · rw [show dumpEntry ind k (Val.vbool b) =
        [padC ind ++ (k.data ++ ':' :: ' ' :: scalarChars (Val.vbool b))] from by
        simp [dumpEntry, List.append_assoc]] at h1
      have h1a := List.mem_singleton.mp h1
      subst h1a
      refine keyline_no_nl ind _ hk ?_
      intro hmem
      rcases List.mem_cons.mp hmem with h5 | h6
      · exact absurd h5 (by decide)
      · rcases List.mem_cons.mp h6 with h7 | h8
        · exact absurd h7 (by decide)
        · exact (scalarChars_safe (show wfScalar (Val.vbool b) = true from hv) _ h8).2 rfl
    · exact dumpEntries_no_nl ind t ht l h2
  | (k, Val.vnone) :: t, hwf =>
    simp only [wfEntries, Bool.and_eq_true] at hwf
    obtain ⟨⟨⟨hk, hv⟩, hu⟩, ht⟩ := hwf
    exact absurd hv (by simp [wfVal])
termination_by sizeOf m
decreasing_by all_goals (simp_wf; try omega)

theorem dumpItems_no_nl (ind : Nat) (items : List Val) (hwf : wfItems items = true) :
    ∀ l ∈ dumpItems ind items, '\n' ∉ l := by
  match items, hwf with
  | [], _ => intro l hl; exact absurd hl (List.not_mem_nil l)
  | v :: t, hwf =>
    simp only [wfItems, Bool.and_eq_true] at hwf
    obtain ⟨hitem, ht⟩ := hwf
    intro l hl
    rw [dumpItems] at hl
    rcases List.mem_cons.mp hl with h1a | h2
    · subst h1a
      intro hmem
      rcases List.mem_append.mp hmem with h1 | h2
      · exact absurd (List.eq_of_mem_replicate h1) (by decide)
      · rcases List.mem_cons.mp h2 with h3 | h4
        · exact absurd h3 (by decide)
        · rcases List.mem_cons.mp h4 with h5 | h6
          · exact absurd h5 (by decide)
          · exact dumpItemChars_no_nl hitem h6
    · exact dumpItems_no_nl ind t ht l h2
termination_by sizeOf items
decreasing_by all_goals (simp_wf; try omega)

end


theorem decode_encode_sorted (m : List (String × Val)) (hwf : wfEntries (sortDoc m) = true) :
    decode_yaml_file (encode_yaml_file m) = some (sortDoc m) := by
  rw [decode_yaml_file, encode_yaml_file, b64_string_roundtrip]
  rw [Option.some_bind]
  rw [show (yamlDump m).data = joinLines (dumpEntries 0 (sortDoc m)) from rfl]
  rw [splitLines_joinLines _ (dumpEntries_no_nl 0 (sortDoc m) hwf)]
  have hp := parse_dump_entries (2 * (dumpEntries 0 (sortDoc m)).length + 2) 0 (sortDoc m) []
    hwf (by simp only [List.append_nil]; omega) trivial
  rw [List.append_nil] at hp
  rw [hp]

theorem sortValEntries_map_fst (l : List (String × Val)) :
    (sortValEntries l).map Prod.fst = l.map Prod.fst := by
  induction l with
  | nil => rfl
  | cons q t ih =>
    obtain ⟨k, v⟩ := q
    rw [sortValEntries, List.map_cons, List.map_cons, ih]

theorem sortValEntries_length (l : List (String × Val)) :
    (sortValEntries l).length = l.length := by
  induction l with
  | nil => rfl
  | cons q t ih =>
    obtain ⟨k, v⟩ := q
    rw [sortValEntries, List.length_cons, List.length_cons, ih]

theorem mem_sortValEntries {l : List (String × Val)} {p : String × Val}
    (h : p ∈ sortValEntries l) : ∃ v0, (p.1, v0) ∈ l ∧ p.2 = sortVal v0 := by
  induction l with
  | nil => exact absurd h (List.not_mem_nil _)
  | cons q t ih =>
    obtain ⟨k, v⟩ := q
    rw [sortValEntries] at h
    rcases List.mem_cons.mp h with h1 | h2
    · subst h1
      exact ⟨v, by simp, rfl⟩
    · obtain ⟨v0, hv0, hp⟩ := ih h2
      exact ⟨v0, by simp [hv0], hp⟩

theorem cfgGet_none_iff (t : List (String × Val)) (k : String) :
    cfgGet t k = none ↔ k ∉ t.map Prod.fst := by
  induction t with
  | nil => simp [cfgGet]
  | cons p t2 ih =>
    obtain ⟨k2, v2⟩ := p
    rw [cfgGet, List.map_cons]
    by_cases h : k2 = k
    · subst h
      simp
    · rw [if_neg h, ih]
      constructor
      · intro hmm hor
        rcases List.mem_cons.mp hor with h1 | hm
        · exact h h1.symm
        · exact hmm hm
      · intro hmm hm
        exact hmm (List.mem_cons.mpr (Or.inr hm))

theorem cfgGet_of_mem_nodup {l : List (String × Val)} {k : String} {v : Val}
    (hmem : (k, v) ∈ l) (hnd : (l.map Prod.fst).Nodup) : cfgGet l k = some v := by
  induction l with
  | nil => exact absurd hmem (List.not_mem_nil _)
  | cons p t ih =>
    obtain ⟨k2, v2⟩ := p
    rw [List.map_cons, List.nodup_cons] at hnd
    rcases List.mem_cons.mp hmem with heq | hm
    · injection heq with h1 h2
      subst h1
      subst h2
      rw [cfgGet, if_pos rfl]
    · have hk2 : k2 ≠ k := by
        intro heq2
        apply hnd.1
        rw [heq2]
        have hmm2 : Prod.fst (k, v) ∈ List.map Prod.fst t := List.mem_map_of_mem Prod.fst hm
        exact hmm2
      rw [cfgGet, if_neg hk2]
      exact ih hm hnd.2

theorem wfEntries_iff (m : List (String × Val)) :
    wfEntries m = true ↔ (m.map Prod.fst).Nodup ∧
      ∀ p ∈ m, yKeyStr p.1.data = true ∧ wfVal p.2 = true := by
  induction m with
  | nil => simp [wfEntries]
  | cons p t ih =>
    obtain ⟨k, v⟩ := p
    constructor
    · intro h
      simp only [wfEntries, Bool.and_eq_true] at h
      obtain ⟨⟨⟨hk, hv⟩, hu⟩, ht⟩ := h
      obtain ⟨hnd, hall⟩ := ih.mp ht
      refine ⟨List.nodup_cons.mpr ⟨?_, hnd⟩, ?_⟩
      · exact (cfgGet_none_iff t k).mp (Option.isNone_iff_eq_none.mp hu)
      · intro p hp
        rcases List.mem_cons.mp hp with h1 | h2
        · subst h1
          exact ⟨hk, hv⟩
        · exact hall p h2
    · rintro ⟨hnd, hall⟩
      rw [List.map_cons, List.nodup_cons] at hnd
      have h1 := hall (k, v) (by simp)
      simp only [wfEntries, Bool.and_eq_true]
      refine ⟨⟨⟨h1.1, h1.2⟩, ?_⟩, ih.mpr ⟨hnd.2, fun p hp => hall p (by simp [hp])⟩⟩
      exact Option.isNone_iff_eq_none.mpr ((cfgGet_none_iff t k).mpr hnd.1)

theorem sortVal_scalar {w : Val} (h : wfScalar w = true) : sortVal w = w := by
  match w, h with
  | Val.vstr s, _ => rfl
  | Val.vnum q, _ => rfl
  | Val.vbool b, _ => rfl
  | Val.vnone, h => simp [wfScalar] at h
  | Val.vlist l, h => simp [wfScalar] at h
  | Val.vmap mm, h => simp [wfScalar] at h

theorem sortVal_wfItem_id {v : Val} (h : wfItem v = true) : sortVal v = v := by
  match v, h with
  | Val.vmap [(k, w)], h =>
    simp only [wfItem, Bool.and_eq_true] at h
    obtain ⟨hk, hw⟩ := h
    rw [sortVal, sortValEntries, sortValEntries, sortVal_scalar hw]
    rfl
  | Val.vstr s, _ => rfl
  | Val.vnum q, _ => rfl
  | Val.vbool b, _ => rfl
  | Val.vmap [], h => simp [wfItem, wfScalar] at h
  | Val.vmap ((k1, w1) :: (k2, w2) :: t2), h => simp [wfItem, wfScalar] at h
  | Val.vlist l, h => simp [wfItem, wfScalar] at h
  | Val.vnone, h => simp [wfItem, wfScalar] at h

theorem wfItems_sortValList_id (l : List Val) (h : wfItems l = true) : sortValList l = l := by
  induction l with
  | nil => rfl
  | cons v t ih =>
    simp only [wfItems, Bool.and_eq_true] at h
    obtain ⟨hitem, ht⟩ := h
    rw [sortValList, sortVal_wfItem_id hitem, ih ht]

theorem pyEqVal_refl_scalar {w : Val} (h : wfScalar w = true) : pyEqVal w w = true := by
  match w, h with
  | Val.vstr s, _ => simp [pyEqVal]
  | Val.vnum q, _ => simp [pyEqVal]
  | Val.vbool b, _ => simp [pyEqVal]
  | Val.vnone, h => simp [wfScalar] at h
  | Val.vlist l, h => simp [wfScalar] at h
  | Val.vmap mm, h => simp [wfScalar] at h

theorem pyEqVal_refl_item {v : Val} (h : wfItem v = true) : pyEqVal v v = true := by
  match v, h with
  | Val.vmap [(k, w)], h =>
    simp only [wfItem, Bool.and_eq_true] at h
    obtain ⟨hk, hw⟩ := h
    have h1 : cfgGet [(k, w)] k = some w := by rw [cfgGet, if_pos rfl]
    show pyEqSub [(k, w)] [(k, w)] = true
    rw [pyEqSub, h1]
    show (pyEqVal w w && true) = true
    rw [pyEqVal_refl_scalar hw]
    rfl
  | Val.vstr s, h => exact pyEqVal_refl_scalar h
  | Val.vnum q, h => exact pyEqVal_refl_scalar h
  | Val.vbool b, h => exact pyEqVal_refl_scalar h
  | Val.vmap [], h => simp [wfItem, wfScalar] at h
  | Val.vmap ((k1, w1) :: (k2, w2) :: t2), h => simp [wfItem, wfScalar] at h
  | Val.vlist l, h => simp [wfItem, wfScalar] at h
  | Val.vnone, h => simp [wfItem, wfScalar] at h

theorem pyEqList_refl_items (l : List Val) (h : wfItems l = true) : pyEqList l l = true := by
  induction l with
  | nil => rfl
  | cons v t ih =>
    simp only [wfItems, Bool.and_eq_true] at h
    obtain ⟨hitem, ht⟩ := h
    rw [pyEqList, pyEqVal_refl_item hitem, ih ht]
    rfl

theorem pyEqSub_of_mem (A B : List (String × Val))
    (h : ∀ p ∈ A, ∃ w, cfgGet B p.1 = some w ∧ pyEqVal p.2 w = true) : pyEqSub A B = true := by
  induction A with
  | nil => rfl
  | cons p t ih =>
    obtain ⟨k, v⟩ := p
    obtain ⟨w, hw, hpe⟩ := h (k, v) (by simp)
    rw [pyEqSub, hw]
    show (pyEqVal v w && pyEqSub t B) = true
    rw [hpe, ih (fun q hq => h q (by simp [hq]))]
    rfl

theorem sizeOf_snd_lt_of_mem {l : List (String × Val)} {k : String} {v0 : Val}
    (h : (k, v0) ∈ l) : sizeOf v0 < sizeOf l := by
  induction l with
  | nil => exact absurd h (List.not_mem_nil _)
  | cons p t ih =>
    rcases List.mem_cons.mp h with h1 | h2
    · subst h1
      simp only [List.cons.sizeOf_spec, Prod.mk.sizeOf_spec]
      omega
    · have := ih h2
      simp only [List.cons.sizeOf_spec]
      omega

theorem wfVal_sortVal (v : Val) (h : wfVal v = true) : wfVal (sortVal v) = true := by
  match v, h with
  | Val.vmap l, h =>
    simp only [wfVal, Bool.and_eq_true] at h
    obtain ⟨hne, hl⟩ := h
    have hne2 : l ≠ [] := by
      intro hc
      rw [hc] at hne
      exact Bool.noConfusion hne
    rw [sortVal]
    simp only [wfVal, Bool.and_eq_true]
    constructor
    · have hlen : (List.insertionSort keyLe (sortValEntries l)).length = l.length := by
        rw [(List.perm_insertionSort keyLe (sortValEntries l)).length_eq, sortValEntries_length]
      have hpos : 0 < l.length := List.length_pos.mpr hne2
      simp only [Bool.not_eq_true', List.isEmpty_eq_false_iff_exists_mem]
      obtain ⟨x, hx⟩ := List.exists_mem_of_length_pos (by rw [hlen]; exact hpos)
      exact ⟨x, hx⟩
    · rw [wfEntries_iff]
      obtain ⟨hnd, hall⟩ := (wfEntries_iff l).mp hl
      constructor
      · have hp := ((List.perm_insertionSort keyLe (sortValEntries l)).map Prod.fst)
        rw [sortValEntries_map_fst] at hp
        exact hp.nodup_iff.mpr hnd
      · intro p hp
        have hp2 := (List.perm_insertionSort keyLe (sortValEntries l)).mem_iff.mp hp
        obtain ⟨v0, hv0, hps⟩ := mem_sortValEntries hp2
        have h0 := hall (p.1, v0) hv0
        refine ⟨h0.1, ?_⟩
        rw [hps]
        exact wfVal_sortVal v0 h0.2
  | Val.vlist l, h =>
    simp only [wfVal, Bool.and_eq_true] at h
    obtain ⟨hne, hl⟩ := h
    rw [sortVal, wfItems_sortValList_id l hl]
    simp only [wfVal, Bool.and_eq_true]
    exact ⟨hne, hl⟩
  | Val.vstr s, h => exact h
  | Val.vnum q, h => exact h
  | Val.vbool b, h => exact h
  | Val.vnone, h => exact h
termination_by sizeOf v
decreasing_by
  simp_wf
  have := sizeOf_snd_lt_of_mem hv0
  omega

theorem pyEq_sortVal (v : Val) (h : wfVal v = true) : pyEqVal (sortVal v) v = true := by
  match v, h with
  | Val.vmap l, h =>
    simp only [wfVal, Bool.and_eq_true] at h
    obtain ⟨hne, hl⟩ := h
    rw [sortVal]
    show (decide ((List.insertionSort keyLe (sortValEntries l)).length = l.length) &&
      pyEqSub (List.insertionSort keyLe (sortValEntries l)) l) = true
    rw [Bool.and_eq_true]
    constructor
    · exact decide_eq_true (by
        rw [(List.perm_insertionSort keyLe (sortValEntries l)).length_eq, sortValEntries_length])
    · apply pyEqSub_of_mem
      intro p hp
      have hp2 := (List.perm_insertionSort keyLe (sortValEntries l)).mem_iff.mp hp
      obtain ⟨v0, hv0, hps⟩ := mem_sortValEntries hp2
      have hnd := ((wfEntries_iff l).mp hl).1
      refine ⟨v0, cfgGet_of_mem_nodup hv0 hnd, ?_⟩
      rw [hps]
      exact pyEq_sortVal v0 (((wfEntries_iff l).mp hl).2 (p.1, v0) hv0).2
  | Val.vlist l, h =>
    simp only [wfVal, Bool.and_eq_true] at h
    obtain ⟨hne, hl⟩ := h
    rw [sortVal, wfItems_sortValList_id l hl]
    exact pyEqList_refl_items l hl
  | Val.vstr s, h => simp [sortVal, pyEqVal]
  | Val.vnum q, h => simp [sortVal, pyEqVal]
  | Val.vbool b, h => simp [sortVal, pyEqVal]
  | Val.vnone, h => rfl
termination_by sizeOf v
decreasing_by
  simp_wf
  have := sizeOf_snd_lt_of_mem hv0
  omega

theorem wfEntries_sortDoc (m : List (String × Val)) (h : wfEntries m = true) :
    wfEntries (sortDoc m) = true := by
  rw [sortDoc, wfEntries_iff]
  obtain ⟨hnd, hall⟩ := (wfEntries_iff m).mp h
  constructor
  · have hp := ((List.perm_insertionSort keyLe (sortValEntries m)).map Prod.fst)
    rw [sortValEntries_map_fst] at hp
    exact hp.nodup_iff.mpr hnd
  · intro p hp
    have hp2 := (List.perm_insertionSort keyLe (sortValEntries m)).mem_iff.mp hp
    obtain ⟨v0, hv0, hps⟩ := mem_sortValEntries hp2
    have h0 := hall (p.1, v0) hv0
    refine ⟨h0.1, ?_⟩
    rw [hps]
    exact wfVal_sortVal v0 h0.2

/-- Claim C9: encoding a well-formed synthesizer document
(`yaml.dump(..., indent=2)` with sorted keys, UTF-8, base64 — the body of
`encode_yaml_file`) and decoding it back (base64-decode, YAML-parse)
yields exactly the key-sorted form of the document, and that key-sorted
form is equal to the original pre-encoding dictionary under Python
dictionary equality. -/
theorem c9_yaml_roundtrip (m : List (String × Val)) (hm : m ≠ []) (h : wfEntries m = true) :
    decode_yaml_file (encode_yaml_file m) = some (sortDoc m) ∧
    pyEqVal (Val.vmap (sortDoc m)) (Val.vmap m) = true := by
  constructor
  · exact decode_encode_sorted m (wfEntries_sortDoc m h)
  · have hwv : wfVal (Val.vmap m) = true := by
      simp only [wfVal, Bool.and_eq_true]
      refine ⟨?_, h⟩
      match m, hm with
      | q :: t, _ => rfl
    exact pyEq_sortVal (Val.vmap m) hwv

/-- The budget document `build_budget_terraform_yaml` produces for the
`dev` project of the demo request (budget 100). -/
def c9BudgetDoc : List (String × Val) :=
  [("display_name", Val.vstr "budget for dw-dev-myapp"),
   ("amount", Val.vmap [("units", Val.vnum 100)]),
   ("filter", Val.vmap
     [("period", Val.vmap [("calendar", Val.vstr "MONTH")]),
      ("projects", Val.vlist [Val.vstr "dw-dev-myapp"])]),
   ("threshold_rules", Val.vlist
     [Val.vmap [("percent", Val.vnum (mkRat 1 2))],
      Val.vmap [("percent", Val.vnum (mkRat 3 4))]]),
   ("update_rules", Val.vmap
     [("default", Val.vmap
       [("disable_default_iam_recipients", Val.vbool true),
        ("monitoring_notification_channels", Val.vlist [Val.vstr "billing-default"])])])]

set_option maxRecDepth 100000 in
/-- Witness for C9: the concrete budget document built by the synthesizer
is well-formed, and the round-trip theorem applies to it. -/
theorem c9_yaml_roundtrip_witness :
    build_budget_terraform_yaml [("BUDGET_DEV", Val.vnum 100)] "dw-dev-myapp" "dev" =
      some c9BudgetDoc ∧
    decode_yaml_file (encode_yaml_file c9BudgetDoc) = some (sortDoc c9BudgetDoc) ∧
    pyEqVal (Val.vmap (sortDoc c9BudgetDoc)) (Val.vmap c9BudgetDoc) = true :=
  ⟨rfl,
   (c9_yaml_roundtrip c9BudgetDoc (List.cons_ne_nil _ _) (by decide)).1,
   (c9_yaml_roundtrip c9BudgetDoc (List.cons_ne_nil _ _) (by decide)).2⟩
